import Mathlib

/-!
# Verification of the autopiper AST-to-SSA lowering core

A shallow embedding of `src/frontend/codegen.cc` (the `CodeGenContext` /
`CodeGenPass` lowering engine) and of `Parser::ParseTypeDef` from
`src/frontend/parser.cc`, with theorems settling the frozen claims about
the natural-language specification.

Modelling conventions, used throughout:

* C++ pointer identity is modelled by integer identities: basic blocks are
  identified by their allocation index (the order `AddBB` created them),
  IR statements by their value number, AST expressions and let-statements
  by explicit `Nat` id fields.  `std::map` keyed by a pointer is modelled
  as an association list sorted by that integer identity, i.e. pointer
  ordering is modelled as allocation order.
* The headers `codegen.h` / `ir.h` / `ast.h` are not part of the covered
  sources; the operations they declare (`ScopedMap`, `Valnum`, the AST
  visitor protocol, `IRBB::Succs`) are modelled from the specification's
  description of them and are marked `Modelled from the spec:` in their
  doc comments.
* A null-pointer dereference in the C++ (e.g. using the IR of an
  expression that has none) is modelled as lowering failure.
* The error collector is a list of messages carried in the lowering state;
  `VISIT_END` is modelled by the `Except.error` constructor, which carries
  the state (errors included) at the moment lowering stopped.
-/

namespace Autopiper

/-! ## IR data model (`ir.h`, modelled from the spec §3.1–§3.3) -/

/-- Modelled from the spec: the IR statement kinds of §3.3.  `IRStmtNone` is
the default kind of a freshly constructed statement whose kind was never
assigned. -/
inductive IRStmtType where
  | IRStmtNone
  | IRStmtExpr
  | IRStmtPortRead | IRStmtPortWrite | IRStmtPortExport
  | IRStmtChanRead | IRStmtChanWrite
  | IRStmtRegRead | IRStmtRegWrite
  | IRStmtArraySize | IRStmtArrayRead | IRStmtArrayWrite
  | IRStmtBypassStart | IRStmtBypassEnd | IRStmtBypassWrite
  | IRStmtBypassPresent | IRStmtBypassReady | IRStmtBypassRead
  | IRStmtIf | IRStmtJmp
  | IRStmtPhi
  | IRStmtKill | IRStmtKillIf | IRStmtKillYounger
  | IRStmtSpawn
  | IRStmtTimingBarrier
  | IRStmtDone
  deriving DecidableEq, Repr

/-- Modelled from the spec: operator subtags for `IRStmtExpr` statements. -/
inductive IRStmtOp where
  | IRStmtOpNone
  | IRStmtOpConst
  | IRStmtOpAdd | IRStmtOpSub | IRStmtOpMul | IRStmtOpDiv | IRStmtOpRem
  | IRStmtOpAnd | IRStmtOpOr | IRStmtOpNot | IRStmtOpXor
  | IRStmtOpLsh | IRStmtOpRsh
  | IRStmtOpSelect | IRStmtOpBitslice | IRStmtOpConcat
  | IRStmtOpCmpEQ | IRStmtOpCmpNE | IRStmtOpCmpLE | IRStmtOpCmpLT
  | IRStmtOpCmpGE | IRStmtOpCmpGT
  deriving DecidableEq, Repr

/-- Modelled from the spec (§3.3): an IR statement.  The C++ records each
argument both as a pointer and as a value number; the pointer is modelled
by the producer's value number, so `args` and `arg_nums` are maintained in
parallel exactly as the source pushes them.  `targets` holds basic-block
allocation indices, `target_names` the parallel labels.  `timevar` is the
index of a timing variable in the program's `timevars` list. -/
structure IRStmt where
  valnum : Nat := 0
  type : IRStmtType := .IRStmtNone
  op : IRStmtOp := .IRStmtOpNone
  width : Nat := 0
  args : List Nat := []
  arg_nums : List Nat := []
  targets : List Nat := []
  target_names : List String := []
  constant : Int := 0
  has_constant : Bool := false
  port_name : String := ""
  timevar : Option Nat := none
  time_offset : Int := 0
  port_default : Int := 0
  port_has_default : Bool := false
  deriving DecidableEq, Repr

/-- Modelled from the spec (§3.3): a timing variable with its name and the
value numbers of the barrier statements that use it. -/
structure IRTimeVar where
  name : String := ""
  uses : List Nat := []
  deriving DecidableEq, Repr

/-- Modelled from the spec (§3.2): a basic block.  `id` is the allocation
index standing in for the C++ object's address. -/
structure IRBB where
  id : Nat := 0
  label : String := ""
  is_entry : Bool := false
  stmts : List IRStmt := []
  deriving DecidableEq, Repr

/-- Modelled from the spec (§3.1): the IR program under construction.
`entries` holds the ids of the entry BBs in registration order.  The
`next_valnum` seed is 1, matching the spec's end-to-end scenario whose
first emitted statement is `v1`. -/
structure IRProgram where
  bbs : List IRBB := []
  entries : List Nat := []
  next_valnum : Nat := 1
  timevars : List IRTimeVar := []
  timing_model : String := ""
  deriving DecidableEq, Repr

/-- Look a basic block up by its id. -/
def findBB (p : IRProgram) (i : Nat) : Option IRBB :=
  p.bbs.find? (fun bb => bb.id = i)

/-- Look a statement up by its value number (first match across all BBs). -/
def findStmtByValnum (p : IRProgram) (v : Nat) : Option IRStmt :=
  p.bbs.findSome? (fun bb => bb.stmts.find? (fun st => st.valnum = v))

/-! ## AST data model (`ast.h`, modelled from the spec §6.1 and from the
uses in `codegen.cc`) -/

/-- Modelled from the spec: the per-expression inferred type annotations
required by the core (§6.1). -/
structure TypeInfo where
  width : Nat := 0
  is_port : Bool := false
  is_chan : Bool := false
  array_size : Int := 0
  deriving DecidableEq, Repr

/-- The `ASTExpr::Op` tags used by `codegen.cc`. -/
inductive ExprOp where
  | ADD | SUB | MUL | DIV | REM
  | AND | OR | NOT | XOR
  | LSH | RSH
  | SEL | BITSLICE | CONCAT
  | EQ | NE | LE | LT | GE | GT
  | CONST | VAR
  | PORTDEF | PORTREAD
  | ARRAY_INIT | ARRAY_REF
  | REG_INIT | REG_REF
  | BYPASSDEF | BYPASSPRESENT | BYPASSREADY | BYPASSREAD
  | STMTBLOCK | CAST | FIELD_REF
  | NOP
  deriving DecidableEq, Repr

/-- The scalar fields of an `ASTExpr` node: its identity (`eid`, modelling
the node's address), operator tag, constant payload, identifier name,
defining-let back reference (for `VAR`), and inferred type. -/
structure ExprData where
  eid : Nat := 0
  op : ExprOp := .NOP
  constant : Int := 0
  has_constant : Bool := false
  identName : String := ""
  defLet : Nat := 0
  ty : TypeInfo := {}
  deriving DecidableEq, Repr

mutual
/-- An AST expression: scalar data, subexpressions (`ops`), and — for
`STMTBLOCK` expressions — the statements of the attached block. -/
inductive ASTExpr where
  | mk (data : ExprData) (ops : List ASTExpr) (blk : List ASTStmt)

/-- The AST statements of the covered fragment, one constructor per
`ASTStmt*` class handled by the claims (spawn, nested functions and the
bypass statements are outside every claim and are not embedded). -/
inductive ASTStmt where
  | block (stmts : List ASTStmt)
  | slet (letId : Nat) (ty : TypeInfo) (rhs : ASTExpr)
  | assign (lhs : ASTExpr) (rhs : ASTExpr)
  | sif (cond : ASTExpr) (ifBody : ASTStmt) (elseBody : Option ASTStmt)
  | swhile (label : Option String) (cond : ASTExpr) (body : ASTStmt)
  | sbreak (label : Option String)
  | scontinue (label : Option String)
  | write (port : ASTExpr) (rhs : ASTExpr)
  | kill
  | killYounger
  | killIf (cond : ASTExpr)
  | onKillYounger (body : ASTStmt)
  | stage (offset : Int)
  | timing (body : ASTStmt)
  | sexpr (e : ASTExpr)
end

/-- Scalar data of an expression node. -/
def ASTExpr.data : ASTExpr → ExprData
  | .mk d _ _ => d

/-- Subexpressions of an expression node. -/
def ASTExpr.ops : ASTExpr → List ASTExpr
  | .mk _ o _ => o

/-- Statements of the block attached to a `STMTBLOCK` expression (empty
for every other node). -/
def ASTExpr.blk : ASTExpr → List ASTStmt
  | .mk _ _ b => b

/-- A function definition (`ASTFunctionDef`): the fields `codegen.cc`
reads. -/
structure FuncDef where
  name : String
  is_entry : Bool
  body : List ASTStmt

/-! ## Sorted association lists (modelling `std::map` keyed by pointers) -/

/-- Insert into an association list sorted by key, replacing any existing
entry — `std::map::operator[] =`. -/
def mapInsert {α : Type} (k : Nat) (v : α) : List (Nat × α) → List (Nat × α)
  | [] => [(k, v)]
  | (k1, v1) :: rest =>
    if k < k1 then (k, v) :: (k1, v1) :: rest
    else if k = k1 then (k, v) :: rest
    else (k1, v1) :: mapInsert k v rest

/-- Insert into a sorted association list only if the key is absent —
`std::map::insert`, which keeps the existing entry. -/
def mapInsertNoReplace {α : Type} (k : Nat) (v : α) : List (Nat × α) → List (Nat × α)
  | [] => [(k, v)]
  | (k1, v1) :: rest =>
    if k < k1 then (k, v) :: (k1, v1) :: rest
    else if k = k1 then (k1, v1) :: rest
    else (k1, v1) :: mapInsertNoReplace k v rest

/-- Key lookup in an association list. -/
def mapLookup {α : Type} (k : Nat) : List (Nat × α) → Option α
  | [] => none
  | (k1, v1) :: rest => if k = k1 then some v1 else mapLookup k rest

/-- Ordered, duplicate-free insertion into a sorted list of keys
(`std::set<...*>` ordered by pointer, i.e. by identity). -/
def setInsert (k : Nat) : List Nat → List Nat
  | [] => [k]
  | k1 :: rest =>
    if k < k1 then k :: k1 :: rest
    else if k = k1 then k1 :: rest
    else k1 :: setInsert k rest

/-! ## Binding environment (`ScopedMap`, modelled from the spec §3.4) -/

/-- Modelled from the spec (§3.4): a stack of overlay frames mapping
let identities to the AST expression currently holding their value.  The
head of the outer list is the top (most recent) frame; within a frame the
head is the newest `Set`. -/
def Bindings := List (List (Nat × ASTExpr))

/-- A flattened overlay snapshot: a map (sorted by let id) from let
identity to its current expression. -/
def Overlay := List (Nat × ASTExpr)

/-- `push`: open a new overlay level; returns the level handle used by
`PopTo` / `Overlay` (the depth before the push). -/
def Bindings.push (b : Bindings) : Nat × Bindings :=
  (b.length, [] :: b)

/-- `pop_to(level)`: drop every level above the handle. -/
def Bindings.popTo (l : Nat) (b : Bindings) : Bindings :=
  b.drop (b.length - l)

/-- `set(let, expr)`: record in the top level. -/
def Bindings.set (k : Nat) (v : ASTExpr) (b : Bindings) : Bindings :=
  match b with
  | [] => [[(k, v)]]
  | top :: rest => ((k, v) :: top) :: rest

/-- `get(let)`: search top-down; within a level the newest `set` wins. -/
def Bindings.get (b : Bindings) (k : Nat) : Option ASTExpr :=
  b.findSome? (fun lvl => (lvl.find? (fun kv => kv.1 = k)).map (·.2))

/-- `keys()`: every let visible, as a sorted duplicate-free list
(`std::set<ASTStmtLet*>` ordered by identity). -/
def Bindings.keys (b : Bindings) : List Nat :=
  b.foldr (fun lvl acc => lvl.foldr (fun kv a => setInsert kv.1 a) acc) []

/-- `has(let)`. -/
def Bindings.has (b : Bindings) (k : Nat) : Bool :=
  (b.get k).isSome

/-- `overlay(level)`: flatten everything added above the handle into a
single map, later writes overriding earlier ones. -/
def Bindings.overlayAt (l : Nat) (b : Bindings) : Overlay :=
  ((b.take (b.length - l)).reverse).foldl
    (fun acc lvl => lvl.reverse.foldl (fun a kv => mapInsert kv.1 kv.2 a) acc) []

/-- Modelled from the spec (§3.4, §9): `join_overlays` — per let, the
ordered list of contributing expressions, one per input overlay in input
order; an overlay that did not rebind the let inherits the enclosing
scope's current value.  A let with no enclosing value that is missing from
some overlay (a let declared inside one branch only) has no complete
contributor list and is dropped. -/
def Bindings.joinOverlays (b : Bindings) (maps : List Overlay) : List (Nat × List ASTExpr) :=
  let ks : List Nat := maps.foldl (fun acc m => m.foldl (fun a kv => setInsert kv.1 a) acc) []
  ks.filterMap (fun k =>
    (maps.mapM (fun m => (mapLookup k m).orElse (fun _ => b.get k))).map
      (fun contribs => (k, contribs)))

/-! ## Lowering state (`CodeGenContext` and `CodeGenPass` per-function data) -/

/-- A loop frame (`CodeGenPass::LoopFrame`): the while node's label, the
binding depth at loop start, the header / footer / incoming BBs, and the
break and continue edge maps (`std::map<IRBB*, SubBindingMap>`, modelled
as association lists sorted by BB allocation index). -/
structure LoopFrame where
  whileLabel : Option String := none
  overlayDepth : Nat := 0
  header : Nat := 0
  footer : Nat := 0
  in_bb : Nat := 0
  break_edges : List (Nat × Overlay) := []
  continue_edges : List (Nat × Overlay) := []

/-- A per-function frame (an element of `CodeGenPass::c_`): loop frames
(head = innermost), registered on-kill-younger bodies (in registration
order), and the timing stacks (head = top). -/
structure FuncCtx where
  loop_frames : List LoopFrame := []
  onkillyoungers : List ASTStmt := []
  timing_stack : List Nat := []
  timing_last_stage : List Int := []

/-- The lowering state: the IR program under construction plus the
`CodeGenContext` / `CodeGenPass` bookkeeping.

* `gensym` — the gensym counter (`gensym_`, seeded with 1);
* `curbb` — the current BB's allocation index (`curbb_`);
* `bindings` — the scoped binding environment;
* `exprToIR` — `expr_to_ir_map_`: AST-expression id → producing valnum;
* `names` — names assigned into AST nodes by codegen (`node->ident->name
  = ...` mutations, keyed by expression id);
* `letTys` — the `inferred_type` of each let node seen, keyed by let id
  (in the C++ this travels inside the `ASTStmtLet` object itself);
* `nextExprId` — allocator for the placeholder `NOP` expressions codegen
  creates (fresh heap nodes in the C++);
* `fctx` — the function-frame stack `c_` (head = `c_.back()`);
* `errors` — the error collector's messages;
* `continueLog` — ghost data (never read by the engine): the source BBs of
  continue edges in the order `HandleBreakContinue` and the implicit
  end-of-body edge inserted them, used only to state ordering claims. -/
structure St where
  prog : IRProgram := {}
  gensym : Nat := 1
  curbb : Nat := 0
  bindings : Bindings := [[]]
  exprToIR : List (Nat × Nat) := []
  names : List (Nat × String) := []
  letTys : List (Nat × TypeInfo) := []
  nextExprId : Nat := 1000
  fctx : List FuncCtx := [{}]
  errors : List String := []
  continueLog : List Nat := []

/-- Lowering results: `Except.error` models `VISIT_END` (and crashes); the
carried state preserves the error collector. -/
def Res := Except St St

/-- The state carried by a result, whether or not lowering stopped. -/
def Res.st : Res → St
  | .ok s => s
  | .error s => s

/-- `ErrorCollector::ReportError` (via `CodeGenPass::Error`). -/
def addError (msg : String) (s : St) : St :=
  { s with errors := s.errors ++ [msg] }

/-- Modelled from the spec (§6.4): `CodeGenContext::Valnum()` — allocate
the next value number from the monotonic counter. -/
def Valnum (s : St) : Nat × St :=
  (s.prog.next_valnum, { s with prog := { s.prog with next_valnum := s.prog.next_valnum + 1 } })

/-- `CodeGenContext::GenSym`. -/
def GenSym (pfx : Option String) (s : St) : String × St :=
  (match pfx with
   | none => "__codegen_gensym__" ++ toString s.gensym
   | some p => p ++ "_" ++ toString s.gensym,
   { s with gensym := s.gensym + 1 })

/-- `CodeGenContext::AddBB`: allocate a BB with a gensym'd label; its id is
its allocation index (= position in `bbs`). -/
def AddBB (pfx : Option String) (s : St) : Nat × St :=
  let (label, s) := GenSym pfx s
  let id := s.prog.bbs.length
  (id, { s with prog := { s.prog with bbs := s.prog.bbs ++ [{ id := id, label := label }] } })

/-- Append a statement to the BB with the given id. -/
def pushStmtToBB (bb : Nat) (st : IRStmt) (p : IRProgram) : IRProgram :=
  { p with bbs := p.bbs.map (fun b => if b.id = bb then { b with stmts := b.stmts ++ [st] } else b) }

/-- `CodeGenContext::AddIRStmt(bb, stmt, expr)`: record the
expression-to-IR association (when `expr` is given), bump `next_valnum`
past the statement's value number if needed, and append the statement. -/
def AddIRStmt (bb : Nat) (stmt : IRStmt) (expr : Option Nat) (s : St) : St :=
  let s := match expr with
    | some e => { s with exprToIR := mapInsert e stmt.valnum s.exprToIR }
    | none => s
  let p := if stmt.valnum ≥ s.prog.next_valnum
    then { s.prog with next_valnum := stmt.valnum + 1 }
    else s.prog
  { s with prog := pushStmtToBB bb stmt p }

/-- The two-argument `CodeGenContext::AddIRStmt(stmt, expr)` overload:
associate an expression with an already-emitted statement. -/
def AssocIRStmt (v : Option Nat) (e : Nat) (s : St) : St :=
  match v with
  | some v0 => { s with exprToIR := mapInsert e v0 s.exprToIR }
  | none => s

/-- `CodeGenContext::GetIRStmt`: the producing statement of an expression,
or `none` (a null pointer) when the expression has no IR. -/
def GetIRStmt (s : St) (eid : Nat) : Option IRStmt :=
  (mapLookup eid s.exprToIR).bind (findStmtByValnum s.prog)

/-- `CodeGenContext::SetCurBB`. -/
def SetCurBB (bb : Nat) (s : St) : St :=
  { s with curbb := bb }

/-- `CodeGenContext::AddEntry`. -/
def AddEntry (bb : Nat) (s : St) : St :=
  { s with prog := { s.prog with entries := s.prog.entries ++ [bb] } }

/-- The label of the BB with the given id (the C++ reads it through the
BB pointer). -/
def bbLabel (s : St) (bb : Nat) : String :=
  ((findBB s.prog bb).map (·.label)).getD ""

/-- Append a phi input in place: the C++ mutates the phi through a stored
pointer (`phi_node->args.push_back(...)` etc. and the width propagation of
`AddWhileLoopPhiNodeInputs`); the pointer is modelled by the value number,
which for a phi identifies the statement. -/
def appendPhiInput (v : Nat) (argV : Nat) (tgt : Nat) (tgtName : String) (w : Nat)
    (p : IRProgram) : IRProgram :=
  { p with bbs := p.bbs.map (fun b =>
      { b with stmts := b.stmts.map (fun st =>
          if st.valnum = v ∧ st.type = .IRStmtPhi then
            { st with args := st.args ++ [argV], arg_nums := st.arg_nums ++ [argV],
                      targets := st.targets ++ [tgt],
                      target_names := st.target_names ++ [tgtName],
                      width := w }
          else st) }) }

/-- Apply an update to the innermost function frame (`c_.back()`). -/
def updBack (f : FuncCtx → FuncCtx) (s : St) : St :=
  { s with fctx := match s.fctx with
      | [] => []
      | c :: r => f c :: r }

/-- Read the innermost function frame (`c_.back()`). -/
def backCtx (s : St) : FuncCtx :=
  (s.fctx.head?).getD {}

/-- Update the loop frame at the given depth (0 = innermost) of the
innermost function frame — the C++ mutates the frame through a pointer
into `c_.back().loop_frames`. -/
def updLoopFrame (i : Nat) (f : LoopFrame → LoopFrame) (s : St) : St :=
  updBack (fun c => { c with loop_frames := c.loop_frames.modify f i }) s

/-! ## Non-recursive lowering handlers (`codegen.cc`) -/

/-- `ExprTypeToOpType` (codegen.cc): the AST-operator to IR-operator
table. -/
def ExprTypeToOpType : ExprOp → IRStmtOp
  | .ADD => .IRStmtOpAdd
  | .SUB => .IRStmtOpSub
  | .MUL => .IRStmtOpMul
  | .DIV => .IRStmtOpDiv
  | .REM => .IRStmtOpRem
  | .AND => .IRStmtOpAnd
  | .OR => .IRStmtOpOr
  | .NOT => .IRStmtOpNot
  | .XOR => .IRStmtOpXor
  | .LSH => .IRStmtOpLsh
  | .RSH => .IRStmtOpRsh
  | .SEL => .IRStmtOpSelect
  | .BITSLICE => .IRStmtOpBitslice
  | .CONCAT => .IRStmtOpConcat
  | .EQ => .IRStmtOpCmpEQ
  | .NE => .IRStmtOpCmpNE
  | .LE => .IRStmtOpCmpLE
  | .LT => .IRStmtOpCmpLT
  | .GE => .IRStmtOpCmpGE
  | .GT => .IRStmtOpCmpGT
  | _ => .IRStmtOpNone

/-- The name currently stored in an AST node's `ident` — codegen mutates
these in place (gensym'd port/array/reg/bypass names); the mutations live
in `St.names`, keyed by the node's id. -/
def effName (s : St) (e : ASTExpr) : String :=
  (mapLookup e.data.eid s.names).getD e.data.identName

/-- `CodeGenPass::FindEntityDef`: static trace-back through `VAR`
bindings.  Recursion through the binding environment is not structural,
so it carries fuel; exhaustion models the C++'s unbounded recursion on a
cyclic binding chain, and a missing binding models the null dereference. -/
def FindEntityDef (fuel : Nat) (node : ASTExpr) (defType : ExprOp) (s : St) :
    St × Option ASTExpr :=
  match fuel with
  | 0 => (s, none)
  | f + 1 =>
    if node.data.op = defType then (s, some node)
    else if node.data.op = .VAR then
      match s.bindings.get node.data.defLet with
      | none => (s, none)
      | some b => FindEntityDef f b defType s
    else
      (addError "Port/array/reg value expected but cannot trace back to def statically."
        s, none)

/-- The value numbers of the already-lowered children of an expression
(`GetIRStmt` per operand); `none` when some child has no IR (the C++
would dereference a null pointer). -/
def childArgNums (s : St) (ops : List ASTExpr) : Option (List Nat) :=
  ops.mapM (fun o => (GetIRStmt s o.data.eid).map (·.valnum))

/-- `CodeGenPass::ModifyASTExprPost` (codegen.cc:414–637).  Children have
already been lowered when this runs. -/
def ModifyASTExprPost (fuel : Nat) (e : ASTExpr) (s : St) : Res :=
  let d := e.data
  let irop := ExprTypeToOpType d.op
  if irop ≠ .IRStmtOpNone then
    let (v, s) := Valnum s
    match childArgNums s e.ops with
    | none => .error s
    | some argVs =>
      .ok (AddIRStmt s.curbb
        { valnum := v, type := .IRStmtExpr, op := irop, width := d.ty.width,
          args := argVs, arg_nums := argVs } (some d.eid) s)
  else
    match d.op with
    | .CONST =>
      let (v, s) := Valnum s
      .ok (AddIRStmt s.curbb
        { valnum := v, type := .IRStmtExpr, op := .IRStmtOpConst,
          constant := d.constant, has_constant := true, width := d.ty.width }
        (some d.eid) s)
    | .VAR =>
      match s.bindings.get d.defLet with
      | none => .ok s
      | some b =>
        match GetIRStmt s b.data.eid with
        | none => .ok s
        | some ir => .ok (AssocIRStmt (some ir.valnum) d.eid s)
    | .PORTDEF =>
      if effName s e ≠ "" then
        if d.ty.is_chan then
          .error (addError "Cannot use a defined name on a chan: chans must be anonymous." s)
        else
          let (v, s) := Valnum s
          .ok (AddIRStmt s.curbb
            { valnum := v, type := .IRStmtPortExport, port_name := effName s e,
              width := d.ty.width } none s)
      else
        let (nm, s) := GenSym none s
        .ok { s with names := mapInsert d.eid nm s.names }
    | .PORTREAD =>
      match e.ops.head? with
      | none => .error s
      | some p0 =>
        match FindEntityDef fuel p0 .PORTDEF s with
        | (s, none) => .error s
        | (s, some portdef) =>
          let (v, s) := Valnum s
          let (ty, s) :=
            if portdef.data.ty.is_port then (IRStmtType.IRStmtPortRead, s)
            else if portdef.data.ty.is_chan then (IRStmtType.IRStmtChanRead, s)
            else (IRStmtType.IRStmtNone, addError "Read from something not a port or chan" s)
          .ok (AddIRStmt s.curbb
            { valnum := v, type := ty, port_name := effName s portdef,
              width := portdef.data.ty.width } (some d.eid) s)
    | .ARRAY_INIT =>
      let (nm, s) := GenSym "array" s
      let s := { s with names := mapInsert d.eid nm s.names }
      let (v, s) := Valnum s
      .ok (AddIRStmt s.curbb
        { valnum := v, type := .IRStmtArraySize, port_name := nm,
          constant := d.ty.array_size } none s)
    | .ARRAY_REF =>
      match e.ops.head? with
      | none => .error s
      | some p0 =>
        match FindEntityDef fuel p0 .ARRAY_INIT s with
        | (s, none) => .error s
        | (s, some arraydef) =>
          let (v, s) := Valnum s
          match (e.ops.get? 1).bind (fun ix => GetIRStmt s ix.data.eid) with
          | none => .error s
          | some index_arg =>
            .ok (AddIRStmt s.curbb
              { valnum := v, type := .IRStmtArrayRead, width := d.ty.width,
                args := [index_arg.valnum], arg_nums := [index_arg.valnum],
                port_name := effName s arraydef } (some d.eid) s)
    | .REG_INIT =>
      let (nm, s) := GenSym "reg" s
      .ok { s with names := mapInsert d.eid nm s.names }
    | .REG_REF =>
      match e.ops.head? with
      | none => .error s
      | some p0 =>
        match FindEntityDef fuel p0 .REG_INIT s with
        | (s, none) => .error s
        | (s, some regdef) =>
          let (v, s) := Valnum s
          .ok (AddIRStmt s.curbb
            { valnum := v, type := .IRStmtRegRead, width := d.ty.width,
              port_name := effName s regdef } (some d.eid) s)
    | .BYPASSDEF =>
      let (nm, s) := GenSym "bypass" s
      .ok { s with names := mapInsert d.eid nm s.names }
    | .BYPASSPRESENT | .BYPASSREADY | .BYPASSREAD =>
      match e.ops.head? with
      | none => .error s
      | some p0 =>
        match FindEntityDef fuel p0 .BYPASSDEF s with
        | (s, none) => .error s
        | (s, some bypassdef) =>
          let ty := match d.op with
            | .BYPASSPRESENT => IRStmtType.IRStmtBypassPresent
            | .BYPASSREADY => IRStmtType.IRStmtBypassReady
            | _ => IRStmtType.IRStmtBypassRead
          let (v, s) := Valnum s
          match (e.ops.get? 1).bind (fun ix => GetIRStmt s ix.data.eid) with
          | none => .error s
          | some index_arg =>
            .ok (AddIRStmt s.curbb
              { valnum := v, type := ty, width := d.ty.width,
                port_name := effName s bypassdef,
                args := [index_arg.valnum], arg_nums := [index_arg.valnum] }
              (some d.eid) s)
    | .STMTBLOCK =>
      match e.blk.getLast? with
      | some (.sexpr inner) =>
        .ok (AssocIRStmt ((GetIRStmt s inner.data.eid).map (·.valnum)) d.eid s)
      | _ =>
        .error (addError
          "Statement-block expr where last stmt is not an expression statement." s)
    | .CAST =>
      match e.ops.head? with
      | none => .error s
      | some p0 =>
        .ok (AssocIRStmt ((GetIRStmt s p0.data.eid).map (·.valnum)) d.eid s)
    | _ => .error (addError "Unsupported node type" s)

/-- `CodeGenPass::ModifyASTStmtLetPost`: bind the let to its RHS
expression (and record the let's inferred type, which in the C++ lives on
the `ASTStmtLet` node itself). -/
def ModifyASTStmtLetPost (letId : Nat) (ty : TypeInfo) (rhs : ASTExpr) (s : St) : Res :=
  .ok { s with bindings := s.bindings.set letId rhs,
               letTys := mapInsert letId ty s.letTys }

/-- `CodeGenPass::ModifyASTStmtWritePost` (codegen.cc:196–221). -/
def ModifyASTStmtWritePost (fuel : Nat) (port rhs : ASTExpr) (s : St) : Res :=
  let (v, s) := Valnum s
  match FindEntityDef fuel port .PORTDEF s with
  | (s, none) => .error s
  | (s, some portdef) =>
    let (ty, s) :=
      if portdef.data.ty.is_port then (IRStmtType.IRStmtPortWrite, s)
      else if portdef.data.ty.is_chan then (IRStmtType.IRStmtChanWrite, s)
      else (IRStmtType.IRStmtNone, addError "Write to something not a port or chan" s)
    match GetIRStmt s rhs.data.eid with
    | none => .error s
    | some val =>
      .ok (AddIRStmt s.curbb
        { valnum := v, type := ty, port_name := effName s portdef,
          args := [val.valnum], arg_nums := [val.valnum],
          width := rhs.data.ty.width,
          port_default := portdef.data.constant,
          port_has_default := portdef.data.has_constant } none s)

/-- `CodeGenPass::ModifyASTStmtKillPost`. -/
def ModifyASTStmtKillPost (s : St) : Res :=
  let (v, s) := Valnum s
  .ok (AddIRStmt s.curbb { valnum := v, type := .IRStmtKill } none s)

/-- `VerifyNoSideEffects` (codegen.cc:251–272): a kill-if condition may
not contain a `STMTBLOCK` or `ARRAY_REF` anywhere.  The C++ reports its
error at the first offending node; the caller adds the single error
message in this model. -/
def VerifyNoSideEffects : ASTExpr → Bool
  | .mk d ops _ =>
    if d.op = .STMTBLOCK ∨ d.op = .ARRAY_REF then false
    else ops.attach.all (fun o => VerifyNoSideEffects o.1)
termination_by e => sizeOf e
decreasing_by
  have h1 := List.sizeOf_lt_of_mem o.2
  simp only [ASTExpr.mk.sizeOf_spec]
  omega

/-- `CodeGenPass::ModifyASTStmtKillIfPost` (codegen.cc:274–288). -/
def ModifyASTStmtKillIfPost (cond : ASTExpr) (s : St) : Res :=
  if VerifyNoSideEffects cond then
    let (v, s) := Valnum s
    match GetIRStmt s cond.data.eid with
    | none => .error s
    | some c =>
      .ok (AddIRStmt s.curbb
        { valnum := v, type := .IRStmtKillIf,
          args := [c.valnum], arg_nums := [c.valnum] } none s)
  else
    .error (addError
      "Expression contains a potential side-effect, which is not allowed in a kill-if condition."
      s)

/-- Append a use to the timing variable at the given index. -/
def addTimevarUse (i v : Nat) (s : St) : St :=
  { s with prog := { s.prog with
      timevars := s.prog.timevars.modify (fun tv => { tv with uses := tv.uses ++ [v] }) i } }

/-- `CodeGenPass::ModifyASTStmtTimingPre` (codegen.cc:290–309). -/
def ModifyASTStmtTimingPre (s : St) : Res :=
  let (nm, s) := GenSym "timing" s
  let tvIdx := s.prog.timevars.length
  let s := updBack (fun c =>
    { c with timing_stack := tvIdx :: c.timing_stack,
             timing_last_stage := 0 :: c.timing_last_stage }) s
  let (v, s) := Valnum s
  let barrier : IRStmt :=
    { valnum := v, type := .IRStmtTimingBarrier, timevar := some tvIdx, time_offset := 0 }
  let s := AddIRStmt s.curbb barrier none s
  .ok { s with prog := { s.prog with
          timevars := s.prog.timevars ++ [{ name := nm, uses := [v] }] } }

/-- `CodeGenPass::ModifyASTStmtTimingPost` (codegen.cc:311–326). -/
def ModifyASTStmtTimingPost (s : St) : Res :=
  match (backCtx s).timing_stack.head? with
  | none => .error s
  | some tv =>
    let last := ((backCtx s).timing_last_stage.head?).getD 0
    let (v, s) := Valnum s
    let s := addTimevarUse tv v s
    let s := AddIRStmt s.curbb
      { valnum := v, type := .IRStmtTimingBarrier, timevar := some tv,
        time_offset := last } none s
    .ok (updBack (fun c =>
      { c with timing_stack := c.timing_stack.tail,
               timing_last_stage := c.timing_last_stage.tail }) s)

/-- `CodeGenPass::ModifyASTStmtStagePost` (codegen.cc:328–365). -/
def ModifyASTStmtStagePost (offset : Int) (s : St) : Res :=
  if (backCtx s).timing_stack.isEmpty then
    .error (addError "stage statement appears outside of a timing block" s)
  else
    let tv := ((backCtx s).timing_stack.head?).getD 0
    let last := ((backCtx s).timing_last_stage.head?).getD 0
    let (v1, s) := Valnum s
    let s := addTimevarUse tv v1 s
    let s := AddIRStmt s.curbb
      { valnum := v1, type := .IRStmtTimingBarrier, timevar := some tv,
        time_offset := last } none s
    let (v2, s) := Valnum s
    let s := addTimevarUse tv v2 s
    let s := updBack (fun c =>
      { c with timing_last_stage := match c.timing_last_stage with
          | [] => []
          | _ :: rest => offset :: rest }) s
    .ok (AddIRStmt s.curbb
      { valnum := v2, type := .IRStmtTimingBarrier, timevar := some tv,
        time_offset := offset } none s)

/-- `CodeGenPass::FindLoopFrame` (codegen.cc:1128–1149): resolve a
break/continue to a loop-frame index (0 = innermost). -/
def FindLoopFrame (label : Option String) (s : St) : St × Option Nat :=
  match label with
  | some l =>
    match (backCtx s).loop_frames.findIdx? (fun fr => fr.whileLabel = some l) with
    | some i => (s, some i)
    | none => (addError ("Break/continue with unknown label " ++ l) s, none)
  | none =>
    if (backCtx s).loop_frames.isEmpty then
      (addError "Break/continue not in loop" s, none)
    else (s, some 0)

/-- `CodeGenPass::HandleBreakContinue` (codegen.cc:1151–1174): snapshot
the overlay, push a fresh level, record the edge under the current BB,
jump to the frame's footer (break) or header (continue), and continue in
a fresh unreachable BB. -/
def HandleBreakContinue (i : Nat) (isBreak : Bool) (s : St) : St :=
  let fr := ((backCtx s).loop_frames.get? i).getD {}
  let snap := s.bindings.overlayAt fr.overlayDepth
  let s := { s with bindings := (s.bindings.push).2 }
  let s := updLoopFrame i (fun fr2 =>
    if isBreak then { fr2 with break_edges := mapInsertNoReplace s.curbb snap fr2.break_edges }
    else { fr2 with continue_edges := mapInsertNoReplace s.curbb snap fr2.continue_edges }) s
  let s := if isBreak then s else { s with continueLog := s.continueLog ++ [s.curbb] }
  let target := if isBreak then fr.footer else fr.header
  let (v, s) := Valnum s
  let s := AddIRStmt s.curbb
    { valnum := v, type := .IRStmtJmp, targets := [target],
      target_names := [bbLabel s target] } none s
  let (ub, s) := AddBB "unreachable" s
  SetCurBB ub s

/-- `CodeGenPass::ModifyASTStmtBreakPost`. -/
def ModifyASTStmtBreakPost (label : Option String) (s : St) : Res :=
  match FindLoopFrame label s with
  | (s, none) => .error s
  | (s, some i) => .ok (HandleBreakContinue i true s)

/-- `CodeGenPass::ModifyASTStmtContinuePost`. -/
def ModifyASTStmtContinuePost (label : Option String) (s : St) : Res :=
  match FindLoopFrame label s with
  | (s, none) => .error s
  | (s, some i) => .ok (HandleBreakContinue i false s)

/-- The header-phi pre-emission loop of `ModifyASTStmtWhilePre`
(codegen.cc:1007–1037): for every visible let whose current binding has an
IR producer, emit a placeholder phi in the header whose only argument so
far is the pre-loop value from `in_bb`, rebind the let to a fresh
placeholder expression, and record the phi in `binding_phis`. -/
def emitWhileHeaderPhisGo (in_bb header : Nat) :
    List Nat → St × List (Nat × Nat) → St × List (Nat × Nat)
  | [], acc => acc
  | l :: rest, acc =>
    emitWhileHeaderPhisGo in_bb header rest
      (let s := acc.1
       if s.bindings.has l then
        match s.bindings.get l with
        | none => acc
        | some binding =>
          match GetIRStmt s binding.data.eid with
          | none => acc
          | some binding_ir =>
            let (v, s) := Valnum s
            let phi : IRStmt :=
              { valnum := v, type := .IRStmtPhi, width := binding_ir.width,
                targets := [in_bb], target_names := [bbLabel s in_bb],
                args := [binding_ir.valnum], arg_nums := [binding_ir.valnum] }
            let eid := s.nextExprId
            let s := { s with nextExprId := eid + 1 }
            let s := AddIRStmt header phi (some eid) s
            let s := { s with bindings := s.bindings.set l (.mk { eid := eid, op := .NOP } [] []) }
            (s, mapInsert l v acc.2)
       else acc)

def emitWhileHeaderPhis (in_bb header : Nat) (s : St) : St × List (Nat × Nat) :=
  emitWhileHeaderPhisGo in_bb header (s.bindings.keys) (s, [])

/-- Append one contributor list to a phi: the inner loop of
`AddWhileLoopPhiNodeInputs` (codegen.cc:951–961). -/
def appendPhiContribs (phiV : Nat) (exprs : List ASTExpr) (in_bbs : List Nat) (s : St) : Res :=
  (exprs.zip in_bbs).foldl
    (fun r p =>
      match r with
      | .error s => .error s
      | .ok s =>
        match GetIRStmt s p.1.data.eid with
        | none => .error s
        | some in_val =>
          .ok { s with prog :=
            appendPhiInput phiV in_val.valnum p.2 (bbLabel s p.2) in_val.width s.prog })
    (.ok s)

/-- `CodeGenPass::AddWhileLoopPhiNodeInputs` (codegen.cc:906–964).  Either
`binding_phis` is given (header phis exist; add to their inputs) or
`binding_phi_bb` is given (create new footer phis). -/
def AddWhileLoopPhiNodeInputs (binding_phis : Option (List (Nat × Nat)))
    (binding_phi_bb : Option Nat) (in_edges : List (Nat × Overlay)) (s : St) : Res :=
  let in_bbs := in_edges.map (·.1)
  let in_maps := in_edges.map (·.2)
  let join := s.bindings.joinOverlays in_maps
  join.foldl
    (fun r p =>
      match r with
      | .error s => .error s
      | .ok s =>
        let l := p.1
        let exprs := p.2
        match binding_phis with
        | some m =>
          match mapLookup l m with
          | none =>
            .error (addError
              "Attempt to reassign a value without an IR representation inside a while loop."
              s)
          | some phiV => appendPhiContribs phiV exprs in_bbs s
        | none =>
          let (v, s) := Valnum s
          let eid := s.nextExprId
          let s := { s with nextExprId := eid + 1 }
          let ty := (mapLookup l s.letTys).getD {}
          let s := { s with bindings := s.bindings.set l (.mk { eid := eid, op := .NOP, ty := ty } [] []) }
          let s := AddIRStmt (binding_phi_bb.getD 0) { valnum := v, type := .IRStmtPhi } (some eid) s
          appendPhiContribs v exprs in_bbs s)
    (.ok s)

/-- The merge-phi loop of `ModifyASTStmtIfPre` (codegen.cc:817–857): one
phi per joined let, with the if-side and else-side contributions as the
two arguments and `if_end` / `else_end` as the two predecessor targets. -/
def emitIfMergePhis (if_end else_end merge_bb : Nat) :
    List (Nat × List ASTExpr) → St → Res
  | [], s => .ok s
  | p :: rest, s =>
    let l := p.1
    let ifE := p.2.getD 0 (.mk {} [] [])
    let elseE := p.2.getD 1 (.mk {} [] [])
    match GetIRStmt s ifE.data.eid, GetIRStmt s elseE.data.eid with
    | some if_val, some else_val =>
      let (v, s) := Valnum s
      let phi : IRStmt :=
        { valnum := v, type := .IRStmtPhi, width := if_val.width,
          args := [if_val.valnum, else_val.valnum],
          arg_nums := [if_val.valnum, else_val.valnum],
          targets := [if_end, else_end],
          target_names := [bbLabel s if_end, bbLabel s else_end] }
      let s := AddIRStmt merge_bb phi none s
      let eid := s.nextExprId
      let s := { s with nextExprId := eid + 1 }
      let s := AssocIRStmt (some v) eid s
      emitIfMergePhis if_end else_end merge_bb rest
        { s with bindings := s.bindings.set l (.mk { eid := eid, op := .NOP, ty := ifE.data.ty } [] []) }
    | _, _ =>
      .error (addError
        "If/else reassigns value without underlying IR representation." s)

/-! ## The lowering engine

The AST walker (`ast.h`, modelled from the spec §4.1): children are
visited automatically, then the post-hook runs; a pre-hook may take over
traversal (`VISIT_TERMINAL`) or stop with an error (`VISIT_END`).  The
recursion is fuelled — one unit per nesting level — because the
`KillYounger` replay re-enters statement lowering on blocks stored in the
state, which is not structural (and genuinely diverges in the C++ when an
on-kill-younger block itself contains `killyounger`).  Fuel exhaustion is
modelled as lowering failure and never occurs in the runs used by the
theorems.

The engine is one fuel-indexed function over a sum of visitation jobs
(expression, expression list, statement, statement list, kill-younger
replay, assignment post-hook), written with an explicit `Nat.rec` so that
a run on a concrete program reduces inside the kernel; the per-job step
functions below take the next-smaller engine as the argument `ih`. -/

/-- A pending visitation job of the walker. -/
inductive EngineJob where
  | jexpr (e : ASTExpr)
  | jexprs (es : List ASTExpr)
  | jstmt (st : ASTStmt)
  | jstmts (sts : List ASTStmt)
  | jreplay (sts : List ASTStmt)
  | jassignPost (lhs rhs : ASTExpr)

/-- The engine one fuel level down, as seen by a step function. -/
def EngineIH := EngineJob → St → Res

/-- Visit an expression: lower its subexpressions, then (for `STMTBLOCK`)
its attached block, then run `ModifyASTExprPost`. -/
def lowerExprStep (f : Nat) (ih : EngineIH) (e : ASTExpr) (s : St) : Res :=
  match ih (.jexprs e.ops) s with
  | .error s => .error s
  | .ok s =>
    match ih (.jstmts e.blk) s with
    | .error s => .error s
    | .ok s => ModifyASTExprPost (f + 1) e s

/-- Visit a list of expressions in order. -/
def lowerExprListStep (ih : EngineIH) : List ASTExpr → St → Res
  | [], s => .ok s
  | e :: rest, s =>
    match ih (.jexpr e) s with
    | .error s => .error s
    | .ok s => ih (.jexprs rest) s

/-- Visit a list of statements in order (`ModifyASTStmtBlock` has no
hooks of its own). -/
def lowerStmtsStep (ih : EngineIH) : List ASTStmt → St → Res
  | [], s => .ok s
  | st :: rest, s =>
    match ih (.jstmt st) s with
    | .error s => .error s
    | .ok s => ih (.jstmts rest) s

/-- The `KillYounger` replay loop (codegen.cc:241–246): lower each pending
on-kill-younger block in registration order; a failure stops the replay
(the caller swallows it, returning `VISIT_TERMINAL`). -/
def lowerReplayStep (ih : EngineIH) : List ASTStmt → St → Res
  | [], s => .ok s
  | blk :: rest, s =>
    match ih (.jstmt blk) s with
    | .error s => .error s
    | .ok s => ih (.jreplay rest) s

/-- `CodeGenPass::ModifyASTStmtAssignPost` (codegen.cc:123–194); the
`ARRAY_REF` branch manually lowers the index subexpression, so this sits
inside the engine. -/
def lowerAssignPostStep (f : Nat) (ih : EngineIH) (lhs rhs : ASTExpr) (s : St) : Res :=
  match lhs.data.op with
  | .VAR => .ok { s with bindings := s.bindings.set lhs.data.defLet rhs }
  | .REG_REF =>
    match lhs.ops.head? with
    | none => .error s
    | some p0 =>
      match FindEntityDef (f + 1) p0 .REG_INIT s with
      | (s, none) => .error s
      | (s, some regdef) =>
        let (v, s) := Valnum s
        match GetIRStmt s rhs.data.eid with
        | none => .error s
        | some value =>
          .ok (AddIRStmt s.curbb
            { valnum := v, type := .IRStmtRegWrite,
              port_name := effName s regdef, width := regdef.data.ty.width,
              args := [value.valnum], arg_nums := [value.valnum] } none s)
  | .ARRAY_REF =>
    match lhs.ops.head? with
    | none => .error s
    | some p0 =>
      match FindEntityDef (f + 1) p0 .ARRAY_INIT s with
      | (s, none) => .error s
      | (s, some arraydef) =>
        let (v, s) := Valnum s
        match lhs.ops.get? 1 with
        | none => .error s
        | some ixExpr =>
          match ih (.jexpr ixExpr) s with
          | .error s => .error s
          | .ok s =>
            match GetIRStmt s ixExpr.data.eid, GetIRStmt s rhs.data.eid with
            | some index_arg, some value =>
              .ok (AddIRStmt s.curbb
                { valnum := v, type := .IRStmtArrayWrite,
                  width := rhs.data.ty.width, port_name := effName s arraydef,
                  args := [index_arg.valnum, value.valnum],
                  arg_nums := [index_arg.valnum, value.valnum] } none s)
            | _, _ => .error s
  | .FIELD_REF => .error s
  | _ =>
    .error (addError
      "Cannot assign to non-variable, non-array-slot, non-field-slot lvalue." s)

/-- Visit one statement, dispatching to the pre/post hooks exactly as the
walker does for each construct.  The `sif` case is
`ModifyASTStmtIfPre` (codegen.cc:742–861) and the `swhile` case is
`ModifyASTStmtWhilePre` (codegen.cc:966–1126), inlined because they drive
traversal themselves. -/
def lowerStmtStep (f : Nat) (ih : EngineIH) (st : ASTStmt) (s : St) : Res :=
  match st with
  | .block stmts => ih (.jstmts stmts) s
  | .slet l ty rhs =>
    match ih (.jexpr rhs) s with
    | .error s => .error s
    | .ok s => ModifyASTStmtLetPost l ty rhs s
  | .assign lhs rhs =>
    match ih (.jexpr rhs) s with
    | .error s => .error s
    | .ok s => ih (.jassignPost lhs rhs) s
  | .sbreak lbl => ModifyASTStmtBreakPost lbl s
  | .scontinue lbl => ModifyASTStmtContinuePost lbl s
  | .write port rhs =>
    match ih (.jexpr port) s with
    | .error s => .error s
    | .ok s =>
      match ih (.jexpr rhs) s with
      | .error s => .error s
      | .ok s => ModifyASTStmtWritePost (f + 1) port rhs s
  | .kill => ModifyASTStmtKillPost s
  | .killYounger =>
    let (v, s) := Valnum s
    let s := AddIRStmt s.curbb { valnum := v, type := .IRStmtKillYounger } none s
    match ih (.jreplay (backCtx s).onkillyoungers) s with
    | .error s => .ok s
    | .ok s => .ok s
  | .killIf cond =>
    match ih (.jexpr cond) s with
    | .error s => .error s
    | .ok s => ModifyASTStmtKillIfPost cond s
  | .onKillYounger body =>
    .ok (updBack (fun c =>
      { c with onkillyoungers := c.onkillyoungers ++ [body] }) s)
  | .stage off => ModifyASTStmtStagePost off s
  | .timing body =>
    match ModifyASTStmtTimingPre s with
    | .error s => .error s
    | .ok s =>
      match ih (.jstmt body) s with
      | .error s => .error s
      | .ok s => ModifyASTStmtTimingPost s
  | .sexpr e => ih (.jexpr e) s
  | .sif cond ifB elseB =>
    let (if_body, s) := AddBB "if_body" s
    let (else_body, s) := AddBB "else_body" s
    match ih (.jexpr cond) s with
    | .error s => .error s
    | .ok s =>
      match GetIRStmt s cond.data.eid with
      | none => .error s
      | some conditional =>
        let (v, s) := Valnum s
        let s := AddIRStmt s.curbb
          { valnum := v, type := .IRStmtIf,
            args := [conditional.valnum], arg_nums := [conditional.valnum],
            targets := [if_body, else_body],
            target_names := [bbLabel s if_body, bbLabel s else_body] } none s
        let (level, b) := s.bindings.push
        let s := SetCurBB if_body { s with bindings := b }
        match ih (.jstmt ifB) s with
        | .error s => .error s
        | .ok s =>
          let if_bindings := s.bindings.overlayAt level
          let s := { s with bindings := s.bindings.popTo level }
          let if_end := s.curbb
          let (level2, b2) := s.bindings.push
          let s := SetCurBB else_body { s with bindings := b2 }
          match (match elseB with
                 | some eb => ih (.jstmt eb) s
                 | none => .ok s) with
          | .error s => .error s
          | .ok s =>
            let else_bindings := s.bindings.overlayAt level2
            let s := { s with bindings := s.bindings.popTo level2 }
            let else_end := s.curbb
            let (merge_bb, s) := AddBB "if_else_merge" s
            let s := SetCurBB merge_bb s
            let (v1, s) := Valnum s
            let s := AddIRStmt if_end
              { valnum := v1, type := .IRStmtJmp, targets := [merge_bb],
                target_names := [bbLabel s merge_bb] } none s
            let (v2, s) := Valnum s
            let s := AddIRStmt else_end
              { valnum := v2, type := .IRStmtJmp, targets := [merge_bb],
                target_names := [bbLabel s merge_bb] } none s
            let phi_map := s.bindings.joinOverlays [if_bindings, else_bindings]
            emitIfMergePhis if_end else_end merge_bb phi_map s
  | .swhile lbl cond body =>
    let (depth, b) := s.bindings.push
    let s := { s with bindings := b }
    let s := updBack (fun c => { c with loop_frames :=
      { whileLabel := lbl, overlayDepth := depth } :: c.loop_frames }) s
    let pfx := match lbl with
      | some l => l ++ "_"
      | none => "while_"
    let (header, s) := AddBB (some (pfx ++ "header")) s
    let (footer, s) := AddBB (some (pfx ++ "footer")) s
    let in_bb := s.curbb
    let s := updLoopFrame 0 (fun fr =>
      { fr with header := header, footer := footer, in_bb := in_bb }) s
    let (v, s) := Valnum s
    let s := AddIRStmt s.curbb
      { valnum := v, type := .IRStmtJmp, targets := [header],
        target_names := [bbLabel s header] } none s
    let s := SetCurBB header s
    let hp := emitWhileHeaderPhis in_bb header s
    let s := hp.1
    let binding_phis := hp.2
    match ih (.jexpr cond) s with
    | .error s => .error s
    | .ok s =>
      match GetIRStmt s cond.data.eid with
      | none => .error s
      | some loop_cond_br_arg =>
        let (body_bb, s) := AddBB (some (pfx ++ "body")) s
        let frameA := ((backCtx s).loop_frames.head?).getD {}
        let (v2, s) := Valnum s
        let s := AddIRStmt frameA.header
          { valnum := v2, type := .IRStmtIf,
            args := [loop_cond_br_arg.valnum], arg_nums := [loop_cond_br_arg.valnum],
            targets := [body_bb, frameA.footer],
            target_names := [bbLabel s body_bb, bbLabel s frameA.footer] } none s
        let snapA := s.bindings.overlayAt frameA.overlayDepth
        let s := updLoopFrame 0
          (fun fr => { fr with break_edges := mapInsertNoReplace fr.header snapA fr.break_edges }) s
        let s := SetCurBB body_bb s
        match ih (.jstmt body) s with
        | .error s => .error s
        | .ok s =>
          let frameB := ((backCtx s).loop_frames.head?).getD {}
          let body_end_bb := s.curbb
          let (v3, s) := Valnum s
          let s := AddIRStmt body_end_bb
            { valnum := v3, type := .IRStmtJmp, targets := [frameB.header],
              target_names := [bbLabel s frameB.header] } none s
          let snapB := s.bindings.overlayAt frameB.overlayDepth
          let s := updLoopFrame 0
            (fun fr => { fr with continue_edges := mapInsertNoReplace body_end_bb snapB fr.continue_edges }) s
          let s := { s with continueLog := s.continueLog ++ [body_end_bb] }
          let s := { s with bindings := s.bindings.popTo frameB.overlayDepth }
          let frameC := ((backCtx s).loop_frames.head?).getD {}
          match AddWhileLoopPhiNodeInputs (some binding_phis) none
                  frameC.continue_edges s with
          | .error s => .error s
          | .ok s =>
            let frameD := ((backCtx s).loop_frames.head?).getD {}
            match AddWhileLoopPhiNodeInputs none (some frameD.footer)
                    frameD.break_edges s with
            | .error s => .error s
            | .ok s =>
              let s := SetCurBB frameD.footer s
              .ok (updBack (fun c =>
                { c with loop_frames := c.loop_frames.tail }) s)

/-- The fuelled engine: `Nat.rec` over the fuel, dispatching on the job. -/
def engineGo : Nat → EngineJob → St → Res :=
  Nat.rec (fun _ s => .error s)
    (fun f ih job s =>
      match job with
      | .jexpr e => lowerExprStep f ih e s
      | .jexprs es => lowerExprListStep ih es s
      | .jstmt st => lowerStmtStep f ih st s
      | .jstmts sts => lowerStmtsStep ih sts s
      | .jreplay sts => lowerReplayStep ih sts s
      | .jassignPost lhs rhs => lowerAssignPostStep f ih lhs rhs s)

/-- Visit an expression (`ASTVisitor::ModifyASTExpr`). -/
def lowerExpr (f : Nat) (e : ASTExpr) (s : St) : Res := engineGo f (.jexpr e) s

/-- Visit the expressions of a list in order. -/
def lowerExprList (f : Nat) (es : List ASTExpr) (s : St) : Res := engineGo f (.jexprs es) s

/-- Visit a statement (`ASTVisitor::ModifyASTStmt`). -/
def lowerStmt (f : Nat) (st : ASTStmt) (s : St) : Res := engineGo f (.jstmt st) s

/-- Visit the statements of a block in order (`ASTVisitor::ModifyASTStmtBlock`). -/
def lowerStmts (f : Nat) (sts : List ASTStmt) (s : St) : Res := engineGo f (.jstmts sts) s

/-- The `KillYounger` replay over the registered blocks. -/
def lowerReplay (f : Nat) (sts : List ASTStmt) (s : St) : Res := engineGo f (.jreplay sts) s

/-- `ModifyASTStmtAssignPost` as an engine entry point. -/
def lowerAssignPost (f : Nat) (lhs rhs : ASTExpr) (s : St) : Res :=
  engineGo f (.jassignPost lhs rhs) s

/-- `CodeGenPass::ModifyASTFunctionDefPre/Post` (codegen.cc:73–101): skip
non-entry functions entirely; for entry functions open a BB labelled with
the function name, register it as an entry, lower the body, and close
with `Done`. -/
def ModifyASTFunctionDef (fuel : Nat) (fd : FuncDef) (s : St) : Res :=
  if fd.is_entry then
    let (bbid, s) := AddBB none s
    let s := { s with prog := { s.prog with
      bbs := s.prog.bbs.map (fun b =>
        if b.id = bbid then { b with label := fd.name, is_entry := true } else b) } }
    let s := AddEntry bbid s
    let s := SetCurBB bbid s
    match lowerStmts fuel fd.body s with
    | .error s => .error s
    | .ok s =>
      let (v, s) := Valnum s
      .ok (AddIRStmt s.curbb { valnum := v, type := .IRStmtDone } none s)
  else
    .ok s

/-- The state the entry pre-hook builds before the body is lowered: one
fresh BB (id = allocation index) relabelled with the function's name and
marked as entry, registered on the entry list, and made current (proved
equal to the source composition in `claim_C4`). -/
def entryPreSt (fd : FuncDef) (s : St) : St :=
  { s with gensym := s.gensym + 1,
           curbb := s.prog.bbs.length,
           prog := { s.prog with
             bbs := s.prog.bbs ++
               [{ id := s.prog.bbs.length, label := fd.name, is_entry := true }],
             entries := s.prog.entries ++ [s.prog.bbs.length] } }

/-- The initial lowering state: a fresh `CodeGenContext` (gensym seeded
with 1), an empty binding environment with one base level, and one base
function frame. -/
def initSt : St := {}

/-! ## Unreachable-BB removal (codegen.cc:1250–1314) -/

/-- Modelled from the spec (§3.2): the successors of a statement, derived
from the terminators — conditional branches have two targets,
unconditional jumps one, spawn one (the forked target); phis' targets are
predecessors, not successors. -/
def succsOfStmt (st : IRStmt) : List Nat :=
  match st.type with
  | .IRStmtIf | .IRStmtJmp | .IRStmtSpawn => st.targets
  | _ => []

/-- Modelled from the spec (§3.2): `IRBB::Succs`. -/
def succsOfBB (bb : IRBB) : List Nat :=
  bb.stmts.foldr (fun st acc => succsOfStmt st ++ acc) []

/-- Find a BB by id in a BB list. -/
def findBBIn (bbs : List IRBB) (i : Nat) : Option IRBB :=
  bbs.find? (fun bb => bb.id = i)

/-- Every BB id mentioned in a BB list (the ids themselves and every
branch/jump/spawn target) — the finite universe the reachability walk can
touch, used only for its termination measure. -/
def allIds (bbs : List IRBB) : List Nat :=
  bbs.map (fun bb => bb.id) ++ bbs.foldr (fun bb acc => succsOfBB bb ++ acc) []

/-- `MarkSuccs` (codegen.cc:1250–1258): depth-first reachability.  The
C++ recursion (insert the root, recurse on each successor not yet in the
set) is phrased as an explicit worklist: `pending` is the stack of roots
still to process, `vis` the set built so far (as an insertion-ordered
list; only membership is ever consumed). -/
def MarkSuccs (bbs : List IRBB) (pending vis : List Nat) : List Nat :=
  match pending with
  | [] => vis
  | r :: rest =>
    if r ∈ vis then MarkSuccs bbs rest vis
    else
      MarkSuccs bbs ((((findBBIn bbs r).map succsOfBB).getD []) ++ rest) (vis ++ [r])
termination_by
  (((allIds bbs).toFinset \ vis.toFinset).card,
   2 * pending.countP (fun x => decide (x ∉ allIds bbs)) + pending.length)
decreasing_by
  · apply Prod.Lex.right
    simp [List.countP_cons]
    omega
  · rename_i hmem
    by_cases hU : k1 ∈ allIds bbs
    · apply Prod.Lex.left
      apply Finset.card_lt_card
      constructor
      · intro x hx
        simp only [Finset.mem_sdiff, List.mem_toFinset, List.mem_append,
          List.mem_singleton] at hx ⊢
        exact ⟨hx.1, fun hc => hx.2 (Or.inl hc)⟩
      · intro hsub
        have hr2 := hsub (by
          simp only [Finset.mem_sdiff, List.mem_toFinset]
          exact ⟨hU, hmem⟩)
        simp only [Finset.mem_sdiff, List.mem_toFinset, List.mem_append,
          List.mem_singleton] at hr2
        simp at hr2
    · have hfind : findBBIn bbs k1 = none := by
        simp only [findBBIn, List.find?_eq_none, decide_eq_true_eq]
        intro bb hbb hid
        refine absurd ?_ hU
        simp only [allIds, List.mem_append, List.mem_map]
        exact Or.inl ⟨bb, hbb, hid⟩
      have hdiff : (allIds bbs).toFinset \ (vis ++ [k1]).toFinset
          = (allIds bbs).toFinset \ vis.toFinset := by
        ext x
        simp only [Finset.mem_sdiff, List.mem_toFinset, List.mem_append,
          List.mem_singleton]
        constructor
        · rintro ⟨h1, h2⟩
          exact ⟨h1, fun hc => h2 (Or.inl hc)⟩
        · rintro ⟨h1, h2⟩
          refine ⟨h1, ?_⟩
          rintro (hc | rfl)
          · exact h2 hc
          · exact hU h1
      rw [hdiff, hfind]
      apply Prod.Lex.right
      simp [List.countP_cons, hU]
      omega

/-- The root-marking loop of `RemoveUnreachableBBsAndPhis`
(codegen.cc:1281–1292): mark from every entry BB and from every spawn
statement's target (spawns are separate control roots, scanned in *every*
BB, reachable or not). -/
def computeReachable (p : IRProgram) : List Nat :=
  p.bbs.foldl
    (fun vis bb =>
      let vis := if bb.is_entry then MarkSuccs p.bbs [bb.id] vis else vis
      bb.stmts.foldl
        (fun vis st =>
          if st.type = .IRStmtSpawn then MarkSuccs p.bbs (st.targets.take 1) vis
          else vis)
        vis)
    []

/-- The slot filter of `FilterPhiInputs` (codegen.cc:1260–1277): keep the
argument / arg-number / target / target-name quadruples whose predecessor
BB is reachable. -/
def filterPhiSlots (reach : List Nat) :
    List Nat → List Nat → List Nat → List String →
    List Nat × List Nat × List Nat × List String
  | a :: as, n :: ns, t :: ts, m :: ms =>
    let r := filterPhiSlots reach as ns ts ms
    if t ∈ reach then (a :: r.1, n :: r.2.1, t :: r.2.2.1, m :: r.2.2.2)
    else r
  | _, _, _, _ => ([], [], [], [])

/-- `FilterPhiInputs` applied to one (phi) statement. -/
def FilterPhiInputs (reach : List Nat) (st : IRStmt) : IRStmt :=
  let r := filterPhiSlots reach st.args st.arg_nums st.targets st.target_names
  { st with args := r.1, arg_nums := r.2.1, targets := r.2.2.1,
            target_names := r.2.2.2 }

/-- `CodeGenPass::RemoveUnreachableBBsAndPhis` (codegen.cc:1279–1314):
compute the reachable set, drop phi inputs from unreachable predecessors,
then drop unreachable BBs. -/
def RemoveUnreachableBBsAndPhis (p : IRProgram) : IRProgram :=
  let reachable := computeReachable p
  let p1 := { p with bbs := p.bbs.map (fun (bb : IRBB) =>
    { bb with stmts := bb.stmts.map (fun (st : IRStmt) =>
        if st.type = IRStmtType.IRStmtPhi then FilterPhiInputs reachable st else st) }) }
  { p1 with bbs := p1.bbs.filter (fun bb => bb.id ∈ reachable) }

/-! ## `Parser::ParseTypeDef` (parser.cc:150–180)

Only the token-stream behaviour matters for the claim about it, so the
parser is modelled as a function of the remaining token list.  The token
helpers (`Expect`, `Consume`, `TryConsume`) are modelled from their uses
in `parser.cc`; `CurToken` past the end of input is the EOF token. -/

/-- The token kinds `ParseTypeDef` and `ParseIdent` can meet. -/
inductive TokType where
  | IDENT | LBRACE | RBRACE | COLON | SEMICOLON | LPAREN | RPAREN
  | EQUALS | EOFTOKEN
  deriving DecidableEq, Repr

/-- A lexer token. -/
structure Token where
  type : TokType := .EOFTOKEN
  s : String := ""
  deriving DecidableEq, Repr

/-- The current token (`CurToken()`). -/
def curTok (ts : List Token) : Token :=
  ts.headD {}

/-- Outcomes of running `ParseTypeDef` on a token stream: success with
the remaining tokens, failure (`return false`), or the dereference of the
never-allocated `ASTRef<ASTTypeField> field`. -/
inductive PTDResult where
  | ok (rest : List Token)
  | failed (rest : List Token)
  | nullDeref
  deriving DecidableEq, Repr

/-- `Parser::ParseIdent` on the model state: expect an `IDENT` and
consume it. -/
def ParseIdentTok (ts : List Token) : Option (List Token) :=
  if (curTok ts).type = .IDENT then some ts.tail else none

/-- `Parser::ParseTypeDef` (parser.cc:150–180).  `def->ident` is
allocated before use, so the leading `ParseIdent` is sound.  Inside the
field loop, however, `ASTRef<ASTTypeField> field;` is declared without an
allocation and the very next statement, `field->ident.reset(new
ASTIdent());`, dereferences it; the loop therefore never completes an
iteration — on the first token after `{` that is not `}` the function
dereferences null.  The model returns `.nullDeref` at that point. -/
def ParseTypeDef (ts : List Token) : PTDResult :=
  match ParseIdentTok ts with
  | none => .failed ts
  | some ts =>
    if (curTok ts).type = .LBRACE then
      let ts := ts.tail
      if (curTok ts).type = .RBRACE then .ok ts.tail
      else .nullDeref
    else .failed ts

/-! ## Auxiliary definitions for the theorems -/

/-- Whether lowering completed without a stop signal. -/
def Res.isOk : Res → Bool
  | .ok _ => true
  | .error _ => false

/-- The statements of the BB with the given id ([] when absent). -/
def bbStmts (s : St) (i : Nat) : List IRStmt :=
  ((findBB s.prog i).map (fun bb => bb.stmts)).getD []

/-- All nodes of an expression subtree (the node itself and, recursively,
every node of its subexpressions) — the domain of the claim `C6`'s
"anywhere within it". -/
def exprNodes : ASTExpr → List ASTExpr
  | .mk d ops blk =>
    .mk d ops blk :: ops.attach.foldr (fun o acc => exprNodes o.1 ++ acc) []
termination_by e => sizeOf e
decreasing_by
  have h1 := List.sizeOf_lt_of_mem o.2
  simp only [ASTExpr.mk.sizeOf_spec]
  omega

/-- A constant-expression AST node. -/
def constE (i : Nat) (c : Int) (w : Nat) : ASTExpr :=
  .mk { eid := i, op := .CONST, constant := c, ty := { width := w } } [] []

/-- `entry w { 5; }` — an entry function with a one-statement body. -/
def fdW : FuncDef :=
  { name := "w", is_entry := true, body := [.sexpr (constE 11 5 8)] }

/-- The state after lowering `fdW`'s body in the pre-hook state. -/
def s2W : St := (lowerStmts 5 fdW.body (entryPreSt fdW initSt)).st

/-- The current BB of `s2W`. -/
def cbbW : IRBB := (findBB s2W.prog s2W.curbb).getD {}

/-- The loop body `{ if (1) { if (1) {} else {} ; continue; } else {
continue; } }` — its two `continue` statements run in an order opposite to
the allocation order of their source BBs. -/
def whileContinueBody : ASTStmt :=
  .block [
    .sif (constE 3 1 1)
      (.block [ .sif (constE 4 1 1) (.block []) (some (.block [])),
                .scontinue none ])
      (some (.block [ .scontinue none ])) ]

/-- `entry f { let x = 1; while (1) <whileContinueBody> }`. -/
def whileContinueProg : FuncDef :=
  { name := "f", is_entry := true,
    body := [ .slet 1 { width := 32 } (constE 1 1 32),
              .swhile none (constE 2 1 1) whileContinueBody ] }

/-- The state after lowering `whileContinueProg`. -/
def whileContinueRun : St := (ModifyASTFunctionDef 60 whileContinueProg initSt).st

/-- The argument/target list of the single header phi of the loop in
`whileContinueProg` (the header is BB 1 and the phi its first statement). -/
def whileContinuePhiTargets : List Nat :=
  (((findBB whileContinueRun.prog 1).bind (fun bb => bb.stmts.head?)).map
    (fun st => st.targets)).getD []

/-- `entry f { if (1) {} else {} }` — no binding writes on either side. -/
def emptyIfProg : FuncDef :=
  { name := "f", is_entry := true,
    body := [ .sif (constE 3 1 1) (.block []) (some (.block [])) ] }

/-- The state after lowering `emptyIfProg`. -/
def emptyIfRun : St := (ModifyASTFunctionDef 50 emptyIfProg initSt).st

/-- `entry f { onkillyounger { 7; } onkillyounger { 9; } killyounger; }` —
two registered on-kill-younger blocks replayed by one `killyounger`. -/
def killYoungerProg : FuncDef :=
  { name := "f", is_entry := true,
    body := [ .onKillYounger (.block [.sexpr (constE 30 7 8)]),
              .onKillYounger (.block [.sexpr (constE 31 9 8)]),
              .killYounger ] }

/-- The state after lowering `killYoungerProg`. -/
def killYoungerRun : St := (ModifyASTFunctionDef 50 killYoungerProg initSt).st

/-- An IR program whose unreachable BB 1 contains a spawn targeting BB 2:
entry BB 0 (with `Done`), orphan BB 1 (with the spawn), BB 2. -/
def spawnOrphanProg : IRProgram :=
  { bbs := [ { id := 0, label := "f", is_entry := true,
               stmts := [{ valnum := 1, type := .IRStmtDone }] },
             { id := 1, label := "b",
               stmts := [{ valnum := 2, type := .IRStmtSpawn, targets := [2],
                           target_names := ["c"] }] },
             { id := 2, label := "c" } ],
    entries := [0], next_valnum := 3 }

/-- `spawnOrphanProg` after one unreachable-removal pass: BB 1 is dropped
but BB 2 survived, kept alive only by the spawn inside the dropped BB 1. -/
def spawnOrphanOnce : IRProgram :=
  { bbs := [ { id := 0, label := "f", is_entry := true,
               stmts := [{ valnum := 1, type := .IRStmtDone }] },
             { id := 2, label := "c" } ],
    entries := [0], next_valnum := 3 }

/-- `spawnOrphanProg` after two unreachable-removal passes: with the spawn
gone, BB 2 is unreachable too and is dropped. -/
def spawnOrphanTwice : IRProgram :=
  { bbs := [ { id := 0, label := "f", is_entry := true,
               stmts := [{ valnum := 1, type := .IRStmtDone }] } ],
    entries := [0], next_valnum := 3 }

/-- An IR program whose spawn sits in the (reachable) entry BB. -/
def spawnReachProg : IRProgram :=
  { bbs := [ { id := 0, label := "f", is_entry := true,
               stmts := [{ valnum := 1, type := .IRStmtSpawn, targets := [2],
                           target_names := ["c"] },
                         { valnum := 2, type := .IRStmtDone }] },
             { id := 2, label := "c" } ],
    entries := [0], next_valnum := 3 }

/-- The successor list the reachability walk reads for a root `r`. -/
def succsIn (bbs : List IRBB) (r : Nat) : List Nat :=
  ((findBBIn bbs r).map succsOfBB).getD []

/-- The spawn-root scan of one BB's statement list (the inner loop of
`computeReachable`, abstracted over the BB list the walk reads). -/
def spawnFold (bbs : List IRBB) (stmts : List IRStmt) (vis : List Nat) : List Nat :=
  stmts.foldl
    (fun vis st =>
      if st.type = .IRStmtSpawn then MarkSuccs bbs (st.targets.take 1) vis else vis)
    vis

/-- The per-BB step of the root-marking loop of `computeReachable`. -/
def perBB (bbs : List IRBB) (vis : List Nat) (bb : IRBB) : List Nat :=
  spawnFold bbs bb.stmts (if bb.is_entry then MarkSuccs bbs [bb.id] vis else vis)

/-- The statement map of the phi filter inside
`RemoveUnreachableBBsAndPhis`. -/
def phiFstmt (reach : List Nat) (st : IRStmt) : IRStmt :=
  if st.type = IRStmtType.IRStmtPhi then FilterPhiInputs reach st else st

/-- The phi-input filter applied to one BB. -/
def phiFilterBB (reach : List Nat) (bb : IRBB) : IRBB :=
  { bb with stmts := bb.stmts.map (fun st =>
      if st.type = IRStmtType.IRStmtPhi then FilterPhiInputs reach st else st) }

/-- A `PORTDEF` node that is neither port nor chan (its inferred type has
both flags unset), with a user-supplied name. -/
def badPortDef : ASTExpr :=
  .mk { eid := 20, op := .PORTDEF, identName := "p", ty := { width := 8 } } [] []

/-- `entry f { let p = <badPortDef>; write p, 1; }` — the write resolves
`p` to a definition that is neither port nor chan. -/
def badWriteProg : FuncDef :=
  { name := "f", is_entry := true,
    body := [ .slet 5 { width := 8 } badPortDef,
              .write (.mk { eid := 40, op := .VAR, defLet := 5 } [] [])
                     (constE 41 1 8) ] }

/-- The result of lowering `badWriteProg`. -/
def badWriteRes : Res := ModifyASTFunctionDef 50 badWriteProg initSt

/-- `entry f { let p = <badPortDef>; let y = read p; }` — the read
resolves `p` to a definition that is neither port nor chan. -/
def badReadProg : FuncDef :=
  { name := "f", is_entry := true,
    body := [ .slet 5 { width := 8 } badPortDef,
              .slet 6 { width := 8 }
                (.mk { eid := 42, op := .PORTREAD, ty := { width := 8 } }
                  [.mk { eid := 43, op := .VAR, defLet := 5 } [] []] []) ] }

/-- The result of lowering `badReadProg`. -/
def badReadRes : Res := ModifyASTFunctionDef 50 badReadProg initSt

/-- A one-BB, one-statement state used by witnesses: BB 0 holds a single
constant statement `v1`, associated with expression id 7. -/
def killIfSt : St :=
  { prog :=
      { bbs := [{ id := 0, label := "f",
                  stmts := [{ valnum := 1, type := .IRStmtExpr, op := .IRStmtOpConst }] }],
        next_valnum := 2 },
    exprToIR := [(7, 1)] }

/-- A state inside one timing block: timing variable 0 on the stack,
`last_stage = 0`, current BB 0. -/
def stageSt : St :=
  { prog := { bbs := [{ id := 0, label := "f" }], next_valnum := 1,
              timevars := [{ name := "timing_1", uses := [] }] },
    curbb := 0,
    fctx := [{ timing_stack := [0], timing_last_stage := [0] }] }

/-- The placeholder used where the source indexes `sub_bindings[i]` (the
vector is never shorter than 2 when built by `JoinOverlays` on two
overlays). -/
def dummyE : ASTExpr := .mk {} [] []

/-- The SSA value-number invariant of §3.6: every statement's value
number is below the program's `next_valnum`. -/
def validVal (s : St) : Prop :=
  ∀ bb ∈ s.prog.bbs, ∀ st ∈ bb.stmts, st.valnum < s.prog.next_valnum

/-- Statement-side description (used only to state C2, after the spec's
words): the phi the if/else merge loop emits for one joined let — its two
arguments are the IRs of the if-side and else-side contributing
expressions (read in the state `s0` the loop started from) and its two
predecessor targets are `if_end` then `else_end`. -/
def expectedIfPhi (s0 : St) (if_end else_end v : Nat) (subs : List ASTExpr) :
    Option IRStmt :=
  match GetIRStmt s0 (subs.getD 0 dummyE).data.eid,
        GetIRStmt s0 (subs.getD 1 dummyE).data.eid with
  | some if_val, some else_val =>
    some { valnum := v, type := .IRStmtPhi, width := if_val.width,
           args := [if_val.valnum, else_val.valnum],
           arg_nums := [if_val.valnum, else_val.valnum],
           targets := [if_end, else_end],
           target_names := [bbLabel s0 if_end, bbLabel s0 else_end] }
  | _, _ => none

/-- A one-BB-plus-empty-merge state used to exercise the if/else merge
loop on concrete data: BB 0 holds the value-1 statement that expression
5 maps to, BB 1 is the (empty) merge block. -/
def sW : St :=
  { prog := { bbs := [ { id := 0, label := "f", is_entry := true,
                         stmts := [{ valnum := 1, type := .IRStmtExpr }] },
                       { id := 1, label := "m" } ],
              entries := [0], next_valnum := 2 },
    exprToIR := [(5, 1)], nextExprId := 100 }

/-- The merge BB of `sW`. -/
def mbbW : IRBB := { id := 1, label := "m" }

/-- One joined let (id 7) whose two contributors are both expression 5. -/
def phi_mapW : List (Nat × List ASTExpr) :=
  [(7, [.mk { eid := 5 } [] [], .mk { eid := 5 } [] []])]

/-- The first BB of `sW` (the current BB of that state). -/
def bb0W : IRBB :=
  { id := 0, label := "f", is_entry := true,
    stmts := [{ valnum := 1, type := .IRStmtExpr }] }

/-- `sW` with one visible let (id 7) bound to expression 5. -/
def sW3 : St := { sW with bindings := [[(7, .mk { eid := 5 } [] [])]] }

/-- A one-BB state whose statement 2 is an empty phi, used to exercise
the phi-input append loop. -/
def sWp : St :=
  { prog := { bbs := [ { id := 0, label := "f", is_entry := true,
                         stmts := [{ valnum := 1, type := .IRStmtExpr },
                                   { valnum := 2, type := .IRStmtPhi }] } ],
              entries := [0], next_valnum := 3 },
    exprToIR := [(0, 1)] }

/-- The empty phi statement of `sWp` (value number 2). -/
def pW : IRStmt := { valnum := 2, type := .IRStmtPhi }

/-- How one IR statement may evolve under later lowering: its value
number and kind never change, and a non-phi statement never changes at
all (only phis are mutated in place, by
`AddWhileLoopPhiNodeInputs`). -/
def stmtExt (a b : IRStmt) : Prop :=
  a.valnum = b.valnum ∧ a.type = b.type ∧ (¬ a.type = .IRStmtPhi → a = b)

/-- How one BB may evolve under later lowering: same id, and its
statement list is extended at the end, each already-present statement
evolving per `stmtExt`. -/
def bbExt (a b : IRBB) : Prop :=
  a.id = b.id ∧
  ∃ pre suf, b.stmts = pre ++ suf ∧ List.Forall₂ stmtExt a.stmts pre

/-- How the program may evolve under later lowering: `next_valnum` is
monotone, BBs are only appended, and each existing BB evolves per
`bbExt`. -/
def progExt (p q : IRProgram) : Prop :=
  p.next_valnum ≤ q.next_valnum ∧
  ∃ pre suf, q.bbs = pre ++ suf ∧ List.Forall₂ bbExt p.bbs pre

/-- The lowering-step relation the engine preserves: the program only
grows (`progExt`) and the value-number dominance invariant is carried
along. -/
def stOK (s s' : St) : Prop :=
  progExt s.prog s'.prog ∧ (validVal s → validVal s')

/-! ## Helper lemmas -/

/-- Changing only `next_valnum` changes no expression-to-IR lookup. -/
theorem GetIRStmt_set_next (s : St) (k e : Nat) :
    GetIRStmt { s with prog := { s.prog with next_valnum := k } } e = GetIRStmt s e := rfl

/-- `pushStmtToBB` changes only the `bbs` field. -/
theorem pushStmtToBB_next_valnum (i : Nat) (st : IRStmt) (p : IRProgram) :
    (pushStmtToBB i st p).next_valnum = p.next_valnum := rfl

/-- `pushStmtToBB` changes only the `bbs` field. -/
theorem pushStmtToBB_timevars (i : Nat) (st : IRStmt) (p : IRProgram) :
    (pushStmtToBB i st p).timevars = p.timevars := rfl

/-- `pushStmtToBB` changes only the `bbs` field. -/
theorem pushStmtToBB_entries (i : Nat) (st : IRStmt) (p : IRProgram) :
    (pushStmtToBB i st p).entries = p.entries := rfl

/-- The list-level effect of `pushStmtToBB` on a lookup of the same id. -/
theorem find?_pushList (l : List IRBB) (i : Nat) (st : IRStmt) :
    (l.map (fun b => if b.id = i then { b with stmts := b.stmts ++ [st] } else b)).find?
        (fun bb => bb.id = i)
      = (l.find? (fun bb => bb.id = i)).map
          (fun bb => { bb with stmts := bb.stmts ++ [st] }) := by
  induction l with
  | nil => rfl
  | cons bb rest ih =>
    simp only [List.map_cons, List.find?_cons]
    by_cases h : bb.id = i
    · simp [h]
    · simp [h, ih]

/-- The list-level effect of `pushStmtToBB` on a lookup of another id. -/
theorem find?_pushList_ne (l : List IRBB) (i j : Nat) (st : IRStmt) (hne : j ≠ i) :
    (l.map (fun b => if b.id = i then { b with stmts := b.stmts ++ [st] } else b)).find?
        (fun bb => bb.id = j)
      = l.find? (fun bb => bb.id = j) := by
  induction l with
  | nil => rfl
  | cons bb rest ih =>
    simp only [List.map_cons, List.find?_cons]
    by_cases h : bb.id = i
    · have hbbj : ¬ bb.id = j := fun hc => hne (by rw [← hc, h])
      have hij : ¬ i = j := fun hc => hne hc.symm
      simp [h, hbbj, hij, ih]
    · by_cases hj : bb.id = j
      · simp [h, hj, hne]
      · simp [h, hj, ih]

/-- Appending a statement to BB `i` extends `i`'s statement list. -/
theorem findBB_pushStmtToBB (p : IRProgram) (i : Nat) (st : IRStmt) :
    findBB (pushStmtToBB i st p) i
      = (findBB p i).map (fun bb => { bb with stmts := bb.stmts ++ [st] }) := by
  simpa [findBB, pushStmtToBB] using find?_pushList p.bbs i st

/-- Appending a statement to BB `i` does not change a lookup of `j ≠ i`. -/
theorem findBB_pushStmtToBB_ne (p : IRProgram) (i j : Nat) (st : IRStmt) (hne : j ≠ i) :
    findBB (pushStmtToBB i st p) j = findBB p j := by
  simpa [findBB, pushStmtToBB] using find?_pushList_ne p.bbs i j st hne

/-! ## C10 — `ParseTypeDef` dereferences an unallocated field -/

/-- C10: for every token stream in which the type definition's body
contains at least one field (the token after the opening brace is not a
closing brace), `ParseTypeDef` dereferences the null `ASTTypeField`
reference when assigning the field's identifier. -/
theorem claim_C10 (name : String) (t : Token) (rest : List Token)
    (h : t.type ≠ TokType.RBRACE) :
    ParseTypeDef
      ({ type := .IDENT, s := name } :: { type := .LBRACE, s := "" } :: t :: rest)
      = .nullDeref := by
  simp [ParseTypeDef, ParseIdentTok, curTok, h]

/-- Witness for C10 at the concrete stream `T { x`. -/
theorem claim_C10_witness :
    (Token.type { type := .IDENT, s := "x" } ≠ TokType.RBRACE)
    ∧ ParseTypeDef
        [{ type := .IDENT, s := "T" }, { type := .LBRACE, s := "" },
         { type := .IDENT, s := "x" }] = .nullDeref :=
  ⟨by decide, claim_C10 "T" { type := .IDENT, s := "x" } [] (by decide)⟩

/-! ## C6 — kill-if side-effect verification -/

/-- Membership in the fold used by `exprNodes`. -/
theorem mem_exprNodes_foldr {x : ASTExpr} {ops : List ASTExpr}
    (l : List { y : ASTExpr // y ∈ ops }) :
    x ∈ l.foldr (fun o acc => exprNodes o.1 ++ acc) [] ↔ ∃ o ∈ l, x ∈ exprNodes o.1 := by
  induction l with
  | nil => simp
  | cons o rest ih =>
    simp only [List.foldr_cons, List.mem_append, ih, List.mem_cons]
    constructor
    · rintro (h | ⟨o2, ho2, hx⟩)
      · exact ⟨o, Or.inl rfl, h⟩
      · exact ⟨o2, Or.inr ho2, hx⟩
    · rintro ⟨o2, ho2 | ho2, hx⟩
      · rw [ho2] at hx
        exact Or.inl hx
      · exact Or.inr ⟨o2, ho2, hx⟩

/-- `VerifyNoSideEffects` accepts exactly the subtrees without a
`STMTBLOCK` or `ARRAY_REF` node anywhere within them. -/
theorem VerifyNoSideEffects_iff (e : ASTExpr) :
    VerifyNoSideEffects e = true ↔
      ∀ x ∈ exprNodes e, x.data.op ≠ .STMTBLOCK ∧ x.data.op ≠ .ARRAY_REF := by
  suffices H : ∀ n (e : ASTExpr), sizeOf e < n →
      (VerifyNoSideEffects e = true ↔
        ∀ x ∈ exprNodes e, x.data.op ≠ .STMTBLOCK ∧ x.data.op ≠ .ARRAY_REF) by
    exact H (sizeOf e + 1) e (by omega)
  intro n
  induction n with
  | zero => intro e h; omega
  | succ n ih =>
    intro e he
    match e with
    | .mk d ops blk =>
      rw [VerifyNoSideEffects, exprNodes]
      by_cases hbad : d.op = .STMTBLOCK ∨ d.op = .ARRAY_REF
      · simp only [if_pos hbad]
        constructor
        · intro h; exact absurd h (by simp)
        · intro h
          have := h (.mk d ops blk) (by simp)
          simp only [ASTExpr.data] at this
          rcases hbad with hb | hb
          · exact absurd hb this.1
          · exact absurd hb this.2
      · simp only [if_neg hbad]
        push_neg at hbad
        have hsub : ∀ o ∈ ops, sizeOf o < n := by
          intro o ho
          have h1 := List.sizeOf_lt_of_mem ho
          have h2 : sizeOf (ASTExpr.mk d ops blk) < n + 1 := he
          simp only [ASTExpr.mk.sizeOf_spec] at h2
          omega
        constructor
        · intro hall x hx
          rcases List.mem_cons.mp hx with rfl | hx2
          · simpa [ASTExpr.data] using hbad
          · rcases (mem_exprNodes_foldr ops.attach).mp hx2 with ⟨o, _, hxo⟩
            have hver : VerifyNoSideEffects o.1 = true := by
              rw [List.all_eq_true] at hall
              exact hall o (List.mem_attach _ _)
            exact ((ih o.1 (hsub o.1 o.2)).mp hver) x hxo
        · intro hall
          rw [List.all_eq_true]
          intro o _
          refine (ih o.1 (hsub o.1 o.2)).mpr ?_
          intro x hx
          refine hall x (List.mem_cons.mpr (Or.inr ?_))
          exact (mem_exprNodes_foldr ops.attach).mpr ⟨o, List.mem_attach _ _, hx⟩

/-- C6: a `KillIf` statement is lowered to a `KillIf` IR statement with
the condition's IR value as its single argument if and only if the
condition's subtree contains no `STMTBLOCK` and no `ARRAY_REF` node;
otherwise an error is reported and no IR statement is emitted at all. -/
theorem claim_C6 :
    (∀ e : ASTExpr, VerifyNoSideEffects e = true ↔
        ∀ x ∈ exprNodes e, x.data.op ≠ .STMTBLOCK ∧ x.data.op ≠ .ARRAY_REF)
    ∧ (∀ (cond : ASTExpr) (s : St) (c : IRStmt),
        GetIRStmt s cond.data.eid = some c →
        VerifyNoSideEffects cond = true →
        ModifyASTStmtKillIfPost cond s =
          .ok (AddIRStmt s.curbb
            { valnum := s.prog.next_valnum, type := .IRStmtKillIf,
              args := [c.valnum], arg_nums := [c.valnum] } none
            { s with prog := { s.prog with next_valnum := s.prog.next_valnum + 1 } }))
    ∧ (∀ (cond : ASTExpr) (s : St),
        VerifyNoSideEffects cond = false →
        ModifyASTStmtKillIfPost cond s
          = .error (addError
              "Expression contains a potential side-effect, which is not allowed in a kill-if condition."
              s)
          ∧ (ModifyASTStmtKillIfPost cond s).st.prog = s.prog) := by
  refine ⟨VerifyNoSideEffects_iff, ?_, ?_⟩
  · intro cond s c hget hver
    have hget2 : GetIRStmt
        { s with prog := { s.prog with next_valnum := s.prog.next_valnum + 1 } }
        cond.data.eid = some c := hget
    simp only [ModifyASTStmtKillIfPost, Valnum, hver, if_true, hget2]
  · intro cond s hver
    unfold ModifyASTStmtKillIfPost
    rw [if_neg (by simp [hver])]
    exact ⟨rfl, rfl⟩

/-- Witness for C6 on `kill_if <const>` in a one-statement state. -/
theorem claim_C6_witness :
    GetIRStmt killIfSt (constE 7 1 1).data.eid
        = some { valnum := 1, type := .IRStmtExpr, op := .IRStmtOpConst }
    ∧ VerifyNoSideEffects (constE 7 1 1) = true
    ∧ ModifyASTStmtKillIfPost (constE 7 1 1) killIfSt
      = .ok (AddIRStmt 0
          { valnum := 2, type := .IRStmtKillIf, args := [1], arg_nums := [1] } none
          { killIfSt with prog := { killIfSt.prog with next_valnum := 3 } }) := by
  refine ⟨by decide, ?_, ?_⟩
  · simp [constE, VerifyNoSideEffects]
  · exact claim_C6.2.1 (constE 7 1 1) killIfSt
      { valnum := 1, type := .IRStmtExpr, op := .IRStmtOpConst }
      (by decide) (by simp [constE, VerifyNoSideEffects])

/-! ## C5 — stage statements -/

/-- C5: with a non-empty timing stack, lowering a stage statement appends
exactly two timing barriers to the current BB — first at the previous
`last_stage` offset, then at the node's offset — registers both in the
timing variable's uses, and updates `last_stage` to the node's offset;
with an empty timing stack it reports an error and emits nothing. -/
theorem claim_C5 :
    (∀ (off : Int) (s : St) (tv : Nat) (last : Int) (stk : List Nat) (lstk : List Int)
        (bb : IRBB),
      (backCtx s).timing_stack = tv :: stk →
      (backCtx s).timing_last_stage = last :: lstk →
      findBB s.prog s.curbb = some bb →
      (ModifyASTStmtStagePost off s).isOk = true ∧
      bbStmts (ModifyASTStmtStagePost off s).st s.curbb = bb.stmts ++
        [ { valnum := s.prog.next_valnum, type := .IRStmtTimingBarrier,
            timevar := some tv, time_offset := last },
          { valnum := s.prog.next_valnum + 1, type := .IRStmtTimingBarrier,
            timevar := some tv, time_offset := off } ] ∧
      (backCtx (ModifyASTStmtStagePost off s).st).timing_last_stage = off :: lstk ∧
      (backCtx (ModifyASTStmtStagePost off s).st).timing_stack = tv :: stk ∧
      (ModifyASTStmtStagePost off s).st.prog.timevars[tv]?
        = (s.prog.timevars[tv]?).map
            (fun t => { t with
              uses := t.uses ++ [s.prog.next_valnum, s.prog.next_valnum + 1] }) ∧
      (ModifyASTStmtStagePost off s).st.errors = s.errors)
    ∧ (∀ (off : Int) (s : St),
      (backCtx s).timing_stack = [] →
      ModifyASTStmtStagePost off s
        = .error { s with
            errors := s.errors ++ ["stage statement appears outside of a timing block"] }) := by
  constructor
  · intro off s tv last stk lstk bb hstk hlast hbb
    rcases hc : s.fctx with _ | ⟨c, cr⟩
    · rw [backCtx, hc] at hstk
      simp at hstk
    · have hcstk : c.timing_stack = tv :: stk := by
        rw [backCtx, hc] at hstk
        simpa using hstk
      have hclast : c.timing_last_stage = last :: lstk := by
        rw [backCtx, hc] at hlast
        simpa using hlast
      unfold ModifyASTStmtStagePost
      rw [if_neg (by rw [hstk]; simp)]
      simp only [hstk, hlast, List.head?_cons, Option.getD_some, Valnum, AddIRStmt,
        addTimevarUse, updBack, hc, pushStmtToBB_next_valnum, pushStmtToBB_timevars]
      rw [if_neg (show ¬ s.prog.next_valnum ≥ s.prog.next_valnum + 1 by omega)]
      rw [if_neg (show ¬ s.prog.next_valnum + 1 ≥ s.prog.next_valnum + 2 by omega)]
      refine ⟨rfl, ?_, ?_, ?_, ?_, rfl⟩
      · simp only [Res.st, bbStmts]
        have hbb1 : findBB
            (pushStmtToBB s.curbb
              { valnum := s.prog.next_valnum, type := .IRStmtTimingBarrier,
                timevar := some tv, time_offset := last }
              { s.prog with
                next_valnum := s.prog.next_valnum + 1,
                timevars := s.prog.timevars.modify
                  (fun t => { t with uses := t.uses ++ [s.prog.next_valnum] }) tv })
            s.curbb
            = some { bb with stmts := bb.stmts ++
                [{ valnum := s.prog.next_valnum, type := .IRStmtTimingBarrier,
                   timevar := some tv, time_offset := last }] } := by
          rw [findBB_pushStmtToBB]
          have : findBB
              { s.prog with
                next_valnum := s.prog.next_valnum + 1,
                timevars := s.prog.timevars.modify
                  (fun t => { t with uses := t.uses ++ [s.prog.next_valnum] }) tv }
              s.curbb = some bb := hbb
          rw [this, Option.map_some']
        have h2 := findBB_pushStmtToBB
          { pushStmtToBB s.curbb
              { valnum := s.prog.next_valnum, type := .IRStmtTimingBarrier,
                timevar := some tv, time_offset := last }
              { s.prog with
                next_valnum := s.prog.next_valnum + 1,
                timevars := s.prog.timevars.modify
                  (fun t => { t with uses := t.uses ++ [s.prog.next_valnum] }) tv }
            with
            next_valnum := s.prog.next_valnum + 2,
            timevars :=
              ((s.prog.timevars.modify
                (fun t => { t with uses := t.uses ++ [s.prog.next_valnum] }) tv).modify
                (fun t => { t with uses := t.uses ++ [s.prog.next_valnum + 1] }) tv) }
          s.curbb
          { valnum := s.prog.next_valnum + 1, type := .IRStmtTimingBarrier,
            timevar := some tv, time_offset := off }
        have hbb2 : findBB
            { pushStmtToBB s.curbb
                { valnum := s.prog.next_valnum, type := .IRStmtTimingBarrier,
                  timevar := some tv, time_offset := last }
                { s.prog with
                  next_valnum := s.prog.next_valnum + 1,
                  timevars := s.prog.timevars.modify
                    (fun t => { t with uses := t.uses ++ [s.prog.next_valnum] }) tv }
              with
              next_valnum := s.prog.next_valnum + 2,
              timevars :=
                ((s.prog.timevars.modify
                  (fun t => { t with uses := t.uses ++ [s.prog.next_valnum] }) tv).modify
                  (fun t => { t with uses := t.uses ++ [s.prog.next_valnum + 1] }) tv) }
            s.curbb
            = some { bb with stmts := bb.stmts ++
                [{ valnum := s.prog.next_valnum, type := .IRStmtTimingBarrier,
                   timevar := some tv, time_offset := last }] } := hbb1
        rw [hbb2, Option.map_some'] at h2
        rw [h2]
        simp
      · simp [Res.st, backCtx, hclast]
      · simp [Res.st, backCtx, hcstk]
      · simp only [Res.st, pushStmtToBB_timevars]
        rw [List.getElem?_modify, List.getElem?_modify]
        rcases s.prog.timevars[tv]? with _ | t
        · rfl
        · simp
  · intro off s hstk
    unfold ModifyASTStmtStagePost
    rw [if_pos (by rw [hstk]; rfl)]
    rfl

/-- Witness for C5: one stage statement at offset 3 inside a timing
block whose `last_stage` is 0. -/
theorem claim_C5_witness :
    (backCtx stageSt).timing_stack = [0]
    ∧ (backCtx stageSt).timing_last_stage = [0]
    ∧ findBB stageSt.prog stageSt.curbb = some { id := 0, label := "f" }
    ∧ (ModifyASTStmtStagePost 3 stageSt).isOk = true
    ∧ (backCtx (ModifyASTStmtStagePost 3 stageSt).st).timing_last_stage = [3] :=
  ⟨by decide, by decide, by decide,
   (claim_C5.1 3 stageSt 0 0 [] [] { id := 0, label := "f" }
     (by decide) (by decide) (by decide)).1,
   (claim_C5.1 3 stageSt 0 0 [] [] { id := 0, label := "f" }
     (by decide) (by decide) (by decide)).2.2.1⟩

/-! ## C4 — function-definition lowering -/

/-- Lowering an empty statement list with positive fuel is the identity. -/
theorem lowerStmts_nil (f : Nat) (s : St) : lowerStmts (f + 1) [] s = .ok s := rfl

/-- C4: a non-entry function definition is skipped entirely, emitting no
IR; an entry function definition (whatever its body) opens a fresh BB
labelled with the function name, marks it as an entry, registers it on
the entry list, lowers the body from that state, and, when the body
lowers successfully, appends an unconditional `Done` to the then-current
BB — so an empty entry function yields exactly one new BB labelled with
its name containing only `Done`. -/
theorem claim_C4 :
    (∀ (f : Nat) (fd : FuncDef) (s : St), fd.is_entry = false →
        ModifyASTFunctionDef f fd s = .ok s)
    ∧ (∀ (f : Nat) (fd : FuncDef) (s : St), fd.is_entry = true →
        (∀ bb ∈ s.prog.bbs, bb.id < s.prog.bbs.length) →
        ModifyASTFunctionDef f fd s
          = match lowerStmts f fd.body (entryPreSt fd s) with
            | .error s2 => .error s2
            | .ok s2 => .ok (AddIRStmt s2.curbb
                { valnum := s2.prog.next_valnum, type := .IRStmtDone } none
                { s2 with prog := { s2.prog with next_valnum := s2.prog.next_valnum + 1 } }))
    ∧ (∀ (f : Nat) (fd : FuncDef) (s s2 : St) (cbb : IRBB), fd.is_entry = true →
        (∀ bb ∈ s.prog.bbs, bb.id < s.prog.bbs.length) →
        lowerStmts f fd.body (entryPreSt fd s) = .ok s2 →
        findBB s2.prog s2.curbb = some cbb →
        ∃ sF, ModifyASTFunctionDef f fd s = .ok sF ∧
          bbStmts sF s2.curbb
            = cbb.stmts ++ [{ valnum := s2.prog.next_valnum, type := .IRStmtDone }])
    ∧ (∀ (f : Nat) (name : String) (s : St),
        (∀ bb ∈ s.prog.bbs, bb.id < s.prog.bbs.length) →
        ModifyASTFunctionDef (f + 1) { name := name, is_entry := true, body := [] } s
          = .ok { s with
              gensym := s.gensym + 1,
              curbb := s.prog.bbs.length,
              prog := { s.prog with
                bbs := s.prog.bbs ++
                  [{ id := s.prog.bbs.length, label := name, is_entry := true,
                     stmts := [{ valnum := s.prog.next_valnum, type := .IRStmtDone }] }],
                entries := s.prog.entries ++ [s.prog.bbs.length],
                next_valnum := s.prog.next_valnum + 1 } }) := by
  have hkey : ∀ (f : Nat) (fd : FuncDef) (s : St), fd.is_entry = true →
      (∀ bb ∈ s.prog.bbs, bb.id < s.prog.bbs.length) →
      ModifyASTFunctionDef f fd s
        = match lowerStmts f fd.body (entryPreSt fd s) with
          | .error s2 => .error s2
          | .ok s2 => .ok (AddIRStmt s2.curbb
              { valnum := s2.prog.next_valnum, type := .IRStmtDone } none
              { s2 with prog := { s2.prog with next_valnum := s2.prog.next_valnum + 1 } }) := by
    intro f fd s hent hwf
    unfold ModifyASTFunctionDef
    rw [if_pos hent]
    dsimp only
    have hmap1 : s.prog.bbs.map (fun b =>
        if b.id = s.prog.bbs.length then { b with label := fd.name, is_entry := true } else b)
        = s.prog.bbs := by
      conv_rhs => rw [← List.map_id s.prog.bbs]
      refine List.map_congr_left ?_
      intro b hb
      rw [if_neg (by have := hwf b hb; omega)]
      rfl
    have hpre : SetCurBB (AddBB none s).1 (AddEntry (AddBB none s).1 { (AddBB none s).2 with prog := { (AddBB none s).2.prog with bbs := (AddBB none s).2.prog.bbs.map (fun b => if b.id = (AddBB none s).1 then { b with label := fd.name, is_entry := true } else b) } })
        = entryPreSt fd s := by
      show ({ s with gensym := s.gensym + 1, curbb := s.prog.bbs.length, prog := { s.prog with bbs := (s.prog.bbs ++ [({ id := s.prog.bbs.length, label := "__codegen_gensym__" ++ toString s.gensym } : IRBB)]).map (fun b : IRBB => if b.id = s.prog.bbs.length then { b with label := fd.name, is_entry := true } else b), entries := s.prog.entries ++ [s.prog.bbs.length] } } : St)
        = entryPreSt fd s
      rw [List.map_append, hmap1, List.map_cons, List.map_nil]
      rw [if_pos (show ({ id := s.prog.bbs.length, label := "__codegen_gensym__" ++ toString s.gensym } : IRBB).id = s.prog.bbs.length from rfl)]
      rfl
    rw [hpre]
    cases lowerStmts f fd.body (entryPreSt fd s) with
    | error s2 => rfl
    | ok s2 => rfl
  refine ⟨?_, hkey, ?_, ?_⟩
  · intro f fd s h
    unfold ModifyASTFunctionDef
    rw [if_neg (by rw [h]; simp)]
  · intro f fd s s2 cbb hent hwf hlow hfind
    have hA : AddIRStmt s2.curbb { valnum := s2.prog.next_valnum, type := .IRStmtDone } none { s2 with prog := { s2.prog with next_valnum := s2.prog.next_valnum + 1 } }
        = { s2 with prog := pushStmtToBB s2.curbb { valnum := s2.prog.next_valnum, type := .IRStmtDone } { s2.prog with next_valnum := s2.prog.next_valnum + 1 } } := by
      unfold AddIRStmt
      dsimp only
      rw [if_neg (show ¬ s2.prog.next_valnum ≥ s2.prog.next_valnum + 1 by omega)]
    refine ⟨AddIRStmt s2.curbb { valnum := s2.prog.next_valnum, type := .IRStmtDone } none { s2 with prog := { s2.prog with next_valnum := s2.prog.next_valnum + 1 } }, ?_, ?_⟩
    · rw [hkey f fd s hent hwf, hlow]
    · rw [hA]
      unfold bbStmts
      rw [show ({ s2 with prog := pushStmtToBB s2.curbb { valnum := s2.prog.next_valnum, type := .IRStmtDone } { s2.prog with next_valnum := s2.prog.next_valnum + 1 } } : St).prog = pushStmtToBB s2.curbb { valnum := s2.prog.next_valnum, type := .IRStmtDone } { s2.prog with next_valnum := s2.prog.next_valnum + 1 } from rfl]
      rw [findBB_pushStmtToBB]
      rw [show findBB { s2.prog with next_valnum := s2.prog.next_valnum + 1 } s2.curbb = findBB s2.prog s2.curbb from rfl]
      rw [hfind]
      rfl
  · intro f name s hwf
    unfold ModifyASTFunctionDef
    rw [if_pos rfl]
    simp only [lowerStmts_nil]
    simp only [AddBB, GenSym, AddEntry, SetCurBB, Valnum, AddIRStmt, pushStmtToBB,
      List.map_append, List.map_cons, List.map_nil, if_true]
    rw [if_neg (show ¬ s.prog.next_valnum ≥ s.prog.next_valnum + 1 by omega)]
    dsimp only
    simp only [List.map_append, List.map_cons, List.map_nil]
    have hmap1 : s.prog.bbs.map (fun b =>
        if b.id = s.prog.bbs.length then { b with label := name, is_entry := true } else b)
        = s.prog.bbs := by
      conv_rhs => rw [← List.map_id s.prog.bbs]
      refine List.map_congr_left ?_
      intro b hb
      rw [if_neg (by have := hwf b hb; omega)]
      rfl
    have hmap2 : ∀ l : List IRBB, (∀ b ∈ l, b.id < s.prog.bbs.length) →
        l.map (fun b => if b.id = s.prog.bbs.length
            then { b with stmts := b.stmts ++
              [{ valnum := s.prog.next_valnum, type := IRStmtType.IRStmtDone }] }
            else b)
          = l := by
      intro l hl
      conv_rhs => rw [← List.map_id l]
      refine List.map_congr_left ?_
      intro b hb
      rw [if_neg (by have := hl b hb; omega)]
      rfl
    rw [hmap1, hmap2 s.prog.bbs hwf]
    simp

/-- Witness for C4: the skipped non-entry function, the general entry
characterization and the Done-append at the one-statement entry function
`fdW`, and the empty entry function from the empty state. -/
theorem claim_C4_witness :
    ModifyASTFunctionDef 5 { name := "g", is_entry := false, body := [] } initSt = .ok initSt
    ∧ (∀ bb ∈ initSt.prog.bbs, bb.id < initSt.prog.bbs.length)
    ∧ ModifyASTFunctionDef 5 fdW initSt
      = (match lowerStmts 5 fdW.body (entryPreSt fdW initSt) with
         | .error s2 => .error s2
         | .ok s2 => .ok (AddIRStmt s2.curbb
             { valnum := s2.prog.next_valnum, type := .IRStmtDone } none
             { s2 with prog := { s2.prog with next_valnum := s2.prog.next_valnum + 1 } }))
    ∧ (lowerStmts 5 fdW.body (entryPreSt fdW initSt) = .ok s2W
       ∧ findBB s2W.prog s2W.curbb = some cbbW
       ∧ ∃ sF, ModifyASTFunctionDef 5 fdW initSt = .ok sF
           ∧ bbStmts sF s2W.curbb
             = cbbW.stmts ++ [{ valnum := s2W.prog.next_valnum, type := .IRStmtDone }])
    ∧ ModifyASTFunctionDef 5 { name := "f", is_entry := true, body := [] } initSt
      = .ok { initSt with
          gensym := 2,
          curbb := 0,
          prog := { initSt.prog with
            bbs := [{ id := 0, label := "f", is_entry := true,
                      stmts := [{ valnum := 1, type := .IRStmtDone }] }],
            entries := [0],
            next_valnum := 2 } } := by
  have hwf : ∀ bb ∈ initSt.prog.bbs, bb.id < initSt.prog.bbs.length := by decide
  have hlow : lowerStmts 5 fdW.body (entryPreSt fdW initSt) = .ok s2W := by rfl
  have hfind : findBB s2W.prog s2W.curbb = some cbbW := by rfl
  exact ⟨claim_C4.1 5 { name := "g", is_entry := false, body := [] } initSt rfl,
    hwf,
    claim_C4.2.1 5 fdW initSt rfl hwf,
    ⟨hlow, hfind, claim_C4.2.2.1 5 fdW initSt s2W cbbW rfl hwf hlow hfind⟩,
    claim_C4.2.2.2 4 "f" initSt hwf⟩

/-! ## C3 — error handling: stop signals vs. the port/chan-misuse errors -/

/-- C3 (counterexample): lowering `entry f { let p = <non-port,non-chan
def>; write p, 1; }` reports "Write to something not a port or chan" but
does NOT stop — the result is `ok`, and a write statement (with its kind
never assigned) IS emitted for the erroneous construct (value number 3,
between the constant and the closing `Done`).  The read variant behaves
the same way. -/
theorem claim_C3_counterexample :
    badWriteRes.isOk = true
    ∧ badWriteRes.st.errors = ["Write to something not a port or chan"]
    ∧ (bbStmts badWriteRes.st 0).map (fun st => (st.valnum, st.type, st.port_name))
      = [(1, .IRStmtPortExport, "p"), (2, .IRStmtExpr, ""),
         (3, .IRStmtNone, "p"), (4, .IRStmtDone, "")]
    ∧ badReadRes.isOk = true
    ∧ badReadRes.st.errors = ["Read from something not a port or chan"]
    ∧ (bbStmts badReadRes.st 0).map (fun st => (st.valnum, st.type, st.port_name))
      = [(1, .IRStmtPortExport, "p"), (2, .IRStmtNone, "p"), (3, .IRStmtDone, "")] := by
  refine ⟨by decide, by decide, by decide, by decide, by decide, by decide⟩

/-- C3 (amended): errors normally stop lowering of the affected subtree
with no IR statement emitted for the erroneous construct — shown here for
an unresolvable write target and for an invalid assignment lvalue — but
the two port/chan-misuse errors are the exception: the write and read
post-hooks report them and continue, still emitting the (kindless)
statement. -/
theorem claim_C3 :
    (∀ (fuel : Nat) (port rhs : ASTExpr) (s : St) (portdef : ASTExpr) (val : IRStmt),
      FindEntityDef fuel port .PORTDEF
          { s with prog := { s.prog with next_valnum := s.prog.next_valnum + 1 } }
        = ({ s with prog := { s.prog with next_valnum := s.prog.next_valnum + 1 } },
           some portdef) →
      portdef.data.ty.is_port = false →
      portdef.data.ty.is_chan = false →
      GetIRStmt s rhs.data.eid = some val →
      ModifyASTStmtWritePost fuel port rhs s
        = .ok (AddIRStmt s.curbb
            { valnum := s.prog.next_valnum, type := .IRStmtNone,
              port_name := effName s portdef,
              args := [val.valnum], arg_nums := [val.valnum],
              width := rhs.data.ty.width,
              port_default := portdef.data.constant,
              port_has_default := portdef.data.has_constant } none
            (addError "Write to something not a port or chan"
              { s with prog := { s.prog with
                  next_valnum := s.prog.next_valnum + 1 } })))
    ∧ (∀ (fuel : Nat) (d : ExprData) (p0 : ASTExpr) (s : St) (portdef : ASTExpr),
      d.op = .PORTREAD →
      FindEntityDef fuel p0 .PORTDEF s = (s, some portdef) →
      portdef.data.ty.is_port = false →
      portdef.data.ty.is_chan = false →
      ModifyASTExprPost fuel (.mk d [p0] []) s
        = .ok (AddIRStmt s.curbb
            { valnum := s.prog.next_valnum, type := .IRStmtNone,
              port_name := effName s portdef,
              width := portdef.data.ty.width } (some d.eid)
            (addError "Read from something not a port or chan"
              { s with prog := { s.prog with
                  next_valnum := s.prog.next_valnum + 1 } })))
    ∧ (∀ (fuel : Nat) (port rhs : ASTExpr) (s : St) (s1 : St),
      FindEntityDef fuel port .PORTDEF
          { s with prog := { s.prog with next_valnum := s.prog.next_valnum + 1 } }
        = (s1, none) →
      ModifyASTStmtWritePost fuel port rhs s = .error s1)
    ∧ (∀ (fuel : Nat) (lhs rhs : ASTExpr) (s : St),
      lhs.data.op = .CONST →
      lowerAssignPost (fuel + 1) lhs rhs s
        = .error (addError
            "Cannot assign to non-variable, non-array-slot, non-field-slot lvalue." s)) := by
  refine ⟨?_, ?_, ?_, ?_⟩
  · intro fuel port rhs s portdef val hfind hp hc hval
    have hval2 : GetIRStmt
        (addError "Write to something not a port or chan"
          { s with prog := { s.prog with next_valnum := s.prog.next_valnum + 1 } })
        rhs.data.eid = some val := hval
    unfold ModifyASTStmtWritePost
    simp only [Valnum, hfind, hp, hc, Bool.false_eq_true, if_false, hval2]
    rfl
  · intro fuel d p0 s portdef hop hfind hp hc
    rcases portdef with ⟨pd, pops, pblk⟩
    simp only [ASTExpr.data] at hp hc
    unfold ModifyASTExprPost
    simp only [ASTExpr.data, ASTExpr.ops, hop]
    rw [if_neg (by simp [ExprTypeToOpType])]
    simp only [ExprTypeToOpType, List.head?_cons, hfind, Valnum, ASTExpr.data, hp, hc,
      Bool.false_eq_true, if_false]
    rfl
  · intro fuel port rhs s s1 hfind
    unfold ModifyASTStmtWritePost
    simp only [Valnum, hfind]
  · intro fuel lhs rhs s hop
    show engineGo (fuel + 1) (.jassignPost lhs rhs) s = _
    show lowerAssignPostStep fuel (engineGo fuel) lhs rhs s = _
    unfold lowerAssignPostStep
    rw [hop]

/-- Witness for C3's amended statement at a concrete state: `p` bound to
a definition that is neither port nor chan. -/
theorem claim_C3_witness :
    (FindEntityDef 50 (.mk { eid := 40, op := .VAR, defLet := 5 } [] []) .PORTDEF
        { killIfSt with
          prog := { killIfSt.prog with next_valnum := 3 },
          bindings := [[(5, badPortDef)]],
          exprToIR := [(41, 1)] }
      = ({ killIfSt with
            prog := { killIfSt.prog with next_valnum := 3 },
            bindings := [[(5, badPortDef)]],
            exprToIR := [(41, 1)] }, some badPortDef))
    ∧ badPortDef.data.ty.is_port = false
    ∧ badPortDef.data.ty.is_chan = false
    ∧ (ModifyASTStmtWritePost 50 (.mk { eid := 40, op := .VAR, defLet := 5 } [] [])
          (constE 41 1 8)
          { killIfSt with bindings := [[(5, badPortDef)]], exprToIR := [(41, 1)] }).isOk
        = true := by
  refine ⟨rfl, by decide, by decide, ?_⟩
  rw [claim_C3.1 50 (.mk { eid := 40, op := .VAR, defLet := 5 } [] []) (constE 41 1 8)
    { killIfSt with bindings := [[(5, badPortDef)]], exprToIR := [(41, 1)] }
    badPortDef { valnum := 1, type := .IRStmtExpr, op := .IRStmtOpConst }
    rfl (by decide) (by decide) (by decide)]
  rfl

/-! ## Stability lemmas for phi-emission loops -/

/-- `mapInsert` with a different key does not affect a lookup. -/
theorem mapLookup_mapInsert_ne {α : Type} (k k1 : Nat) (v : α) (m : List (Nat × α))
    (h : k ≠ k1) : mapLookup k (mapInsert k1 v m) = mapLookup k m := by
  induction m with
  | nil => simp [mapInsert, mapLookup, h]
  | cons kv rest ih =>
    rcases kv with ⟨k2, v2⟩
    unfold mapInsert
    by_cases h1 : k1 < k2
    · simp only [if_pos h1]
      unfold mapLookup
      rw [if_neg h]
      rfl
    · rw [if_neg h1]
      by_cases h2 : k1 = k2
      · rw [if_pos h2]
        unfold mapLookup
        rw [if_neg (by omega), if_neg (by omega)]
      · rw [if_neg h2]
        unfold mapLookup
        by_cases h3 : k = k2
        · simp [h3]
        · simp only [if_neg h3]
          exact ih

/-- A contributor list produced by `JoinOverlays` on two overlays always
has exactly two entries. -/
theorem joinOverlays_pair_length (b : Bindings) (m1 m2 : Overlay) (k : Nat)
    (vs : List ASTExpr) (h : (k, vs) ∈ b.joinOverlays [m1, m2]) : vs.length = 2 := by
  unfold Bindings.joinOverlays at h
  rw [List.mem_filterMap] at h
  rcases h with ⟨k1, _, hf⟩
  rcases hm1 : (mapLookup k1 m1).orElse (fun _ => b.get k1) with _ | a
  · simp [List.mapM, List.mapM.loop, hm1] at hf
  · rcases hm2 : (mapLookup k1 m2).orElse (fun _ => b.get k1) with _ | a2
    · simp [List.mapM, List.mapM.loop, hm1, hm2] at hf
    · simp only [List.mapM, List.mapM.loop, hm1, hm2, Option.map_some'] at hf
      rcases hf with ⟨h1', h2'⟩
      simp_all

/-- A statement lookup by value number survives appending a statement
with a different value number. -/
theorem findSome_push_stable (l : List IRBB) (i : Nat) (phi : IRStmt) (w : Nat)
    (st0 : IRStmt)
    (hfound : l.findSome? (fun bb => bb.stmts.find? (fun st => st.valnum = w))
      = some st0)
    (hne : ¬ phi.valnum = w) :
    (l.map (fun b => if b.id = i then { b with stmts := b.stmts ++ [phi] } else b)).findSome?
        (fun bb => bb.stmts.find? (fun st => st.valnum = w)) = some st0 := by
  induction l with
  | nil => simp at hfound
  | cons bb rest ih =>
    rw [List.findSome?_cons] at hfound
    rcases hhead : bb.stmts.find? (fun st => st.valnum = w) with _ | sthd
    · rw [hhead] at hfound
      rw [List.map_cons, List.findSome?_cons]
      by_cases hid : bb.id = i
      · have : ({ bb with stmts := bb.stmts ++ [phi] } : IRBB).stmts.find?
            (fun st => st.valnum = w) = none := by
          simp only [List.find?_append, hhead]
          simp [hne]
        simp only [hid, if_pos, this]
        exact ih hfound
      · simp only [if_neg hid, hhead]
        exact ih hfound
    · rw [hhead] at hfound
      rw [List.map_cons, List.findSome?_cons]
      by_cases hid : bb.id = i
      · have : ({ bb with stmts := bb.stmts ++ [phi] } : IRBB).stmts.find?
            (fun st => st.valnum = w) = some sthd := by
          simp only [List.find?_append, hhead]
          rfl
        simp only [hid, if_pos, this]
        exact hfound
      · simp only [if_neg hid, hhead]
        exact hfound

/-- `AddIRStmt` never disturbs the label of any BB. -/
theorem bbLabel_AddIRStmt (i : Nat) (st : IRStmt) (ass : Option Nat) (s : St) (j : Nat) :
    bbLabel (AddIRStmt i st ass s) j = bbLabel s j := by
  rcases ass with _ | e
  all_goals
    unfold bbLabel AddIRStmt
    by_cases hj : j = i
    · subst hj
      rw [show findBB (pushStmtToBB j st (if st.valnum ≥ s.prog.next_valnum
            then { s.prog with next_valnum := st.valnum + 1 } else s.prog)) j
          = (findBB (if st.valnum ≥ s.prog.next_valnum
              then { s.prog with next_valnum := st.valnum + 1 } else s.prog) j).map
              (fun bb => { bb with stmts := bb.stmts ++ [st] })
          from findBB_pushStmtToBB _ j st]
      have : findBB (if st.valnum ≥ s.prog.next_valnum
          then { s.prog with next_valnum := st.valnum + 1 } else s.prog) j
          = findBB s.prog j := by
        split <;> rfl
      rw [this]
      rcases findBB s.prog j with _ | bb <;> rfl
    · rw [show findBB (pushStmtToBB i st (if st.valnum ≥ s.prog.next_valnum
            then { s.prog with next_valnum := st.valnum + 1 } else s.prog)) j
          = findBB (if st.valnum ≥ s.prog.next_valnum
              then { s.prog with next_valnum := st.valnum + 1 } else s.prog) j
          from findBB_pushStmtToBB_ne _ i j st hj]
      have : findBB (if st.valnum ≥ s.prog.next_valnum
          then { s.prog with next_valnum := st.valnum + 1 } else s.prog) j
          = findBB s.prog j := by
        split <;> rfl
      rw [this]

/-- Inversion for `findSome?`: a successful search exhibits a member on
which the function succeeds. -/
theorem exists_of_findSome_mem {α β : Type} (l : List α) (f : α → Option β)
    (b : β) (h : l.findSome? f = some b) : ∃ a ∈ l, f a = some b := by
  induction l with
  | nil => simp at h
  | cons x xs ih =>
    rw [List.findSome?_cons] at h
    cases hx : f x with
    | none =>
      rw [hx] at h
      obtain ⟨a, ha, hfa⟩ := ih h
      exact ⟨a, List.mem_cons_of_mem _ ha, hfa⟩
    | some y =>
      rw [hx] at h
      exact ⟨x, List.mem_cons_self x xs, hx.trans h⟩

/-- A successful statement lookup locates a member statement with the
looked-up value number. -/
theorem findStmtByValnum_mem (p : IRProgram) (w : Nat) (st0 : IRStmt)
    (h : findStmtByValnum p w = some st0) :
    ∃ bb ∈ p.bbs, st0 ∈ bb.stmts ∧ st0.valnum = w := by
  unfold findStmtByValnum at h
  obtain ⟨bb, hbb, hf⟩ := exists_of_findSome_mem p.bbs _ st0 h
  refine ⟨bb, hbb, List.mem_of_find?_eq_some hf, ?_⟩
  have := List.find?_some hf
  simpa using this

/-- Appending one statement below the bound keeps every value number of a
program below that bound. -/
theorem validVal_pushProg (p : IRProgram) (mb : Nat) (phi : IRStmt) (N : Nat)
    (h : ∀ bb ∈ p.bbs, ∀ st ∈ bb.stmts, st.valnum < N) (hphi : phi.valnum < N) :
    ∀ bb ∈ (pushStmtToBB mb phi p).bbs, ∀ st ∈ bb.stmts, st.valnum < N := by
  intro bb hbb st hst
  rw [pushStmtToBB] at hbb
  simp only [List.mem_map] at hbb
  rcases hbb with ⟨b0, hb0, rfl⟩
  by_cases hid : b0.id = mb
  · rw [if_pos hid] at hst
    rcases List.mem_append.mp hst with h1 | h1
    · exact h b0 hb0 st h1
    · rw [List.mem_singleton] at h1
      subst h1
      exact hphi
  · rw [if_neg hid] at hst
    exact h b0 hb0 st hst

/-- Labels are untouched by appending a statement to a BB. -/
theorem findBB_label_push (p : IRProgram) (i j : Nat) (st : IRStmt) :
    ((findBB (pushStmtToBB i st p) j).map (fun bb => bb.label)).getD ""
      = ((findBB p j).map (fun bb => bb.label)).getD "" := by
  by_cases hj : j = i
  · subst hj
    rw [findBB_pushStmtToBB]
    cases findBB p j <;> rfl
  · rw [findBB_pushStmtToBB_ne _ i j st hj]

/-- `expectedIfPhi` depends on the state only through the two contributor
lookups and the two end-BB labels. -/
theorem expectedIfPhi_congr (s s1 : St) (if_end else_end v : Nat)
    (subs : List ASTExpr) (x1 x2 : IRStmt)
    (h1 : GetIRStmt s (subs.getD 0 dummyE).data.eid = some x1)
    (h2 : GetIRStmt s (subs.getD 1 dummyE).data.eid = some x2)
    (h1' : GetIRStmt s1 (subs.getD 0 dummyE).data.eid = some x1)
    (h2' : GetIRStmt s1 (subs.getD 1 dummyE).data.eid = some x2)
    (hl1 : bbLabel s1 if_end = bbLabel s if_end)
    (hl2 : bbLabel s1 else_end = bbLabel s else_end) :
    expectedIfPhi s1 if_end else_end v subs
      = expectedIfPhi s if_end else_end v subs := by
  unfold expectedIfPhi
  rw [h1, h2, h1', h2', hl1, hl2]

/-- The if/else merge-phi loop (codegen.cc:833–859): on a state whose
value numbers are all in use below `next_valnum` and whose contributing
expressions all have IR, it succeeds, and it appends to the merge BB
exactly one phi per joined let, the `i`-th phi carrying value number
`next_valnum + i`, the if-side then else-side contributor IR values as its
two arguments, and `if_end` then `else_end` as its two predecessor
targets. -/
theorem emitIfMergePhis_spec (if_end else_end mb : Nat)
    (phi_map : List (Nat × List ASTExpr)) (s : St) (mbb : IRBB)
    (hval : validVal s)
    (hfresh : ∀ p ∈ phi_map, (p.2.getD 0 dummyE).data.eid < s.nextExprId
        ∧ (p.2.getD 1 dummyE).data.eid < s.nextExprId)
    (hsome : ∀ p ∈ phi_map, (GetIRStmt s (p.2.getD 0 dummyE).data.eid).isSome
        ∧ (GetIRStmt s (p.2.getD 1 dummyE).data.eid).isSome)
    (hmb : findBB s.prog mb = some mbb) :
    ∃ s', emitIfMergePhis if_end else_end mb phi_map s = .ok s' ∧
      ∃ tl, bbStmts s' mb = mbb.stmts ++ tl ∧ tl.length = phi_map.length ∧
        ∀ i (hi : i < phi_map.length) (hi2 : i < tl.length),
          some (tl.get ⟨i, hi2⟩)
            = expectedIfPhi s if_end else_end (s.prog.next_valnum + i)
                ((phi_map.get ⟨i, hi⟩).2) := by
  induction phi_map generalizing s mbb with
  | nil =>
    refine ⟨s, rfl, [], ?_, rfl, ?_⟩
    · simp [bbStmts, hmb]
    · intro i hi hi2
      simp at hi
  | cons p rest ih =>
    obtain ⟨hif0, helse0⟩ := hsome p (List.mem_cons_self p rest)
    obtain ⟨if_val, hif⟩ := Option.isSome_iff_exists.mp hif0
    obtain ⟨else_val, helse⟩ := Option.isSome_iff_exists.mp helse0
    set phiStmt : IRStmt :=
      { valnum := s.prog.next_valnum, type := .IRStmtPhi, width := if_val.width,
        args := [if_val.valnum, else_val.valnum],
        arg_nums := [if_val.valnum, else_val.valnum],
        targets := [if_end, else_end],
        target_names := [bbLabel s if_end, bbLabel s else_end] } with hphiStmt
    set s1 : St :=
      { s with
        prog := pushStmtToBB mb phiStmt
          { s.prog with next_valnum := s.prog.next_valnum + 1 },
        exprToIR := mapInsert s.nextExprId s.prog.next_valnum s.exprToIR,
        nextExprId := s.nextExprId + 1,
        bindings := s.bindings.set p.1
          (.mk { eid := s.nextExprId, op := .NOP,
                 ty := (p.2.getD 0 dummyE).data.ty } [] []) } with hs1
    have hstep : emitIfMergePhis if_end else_end mb (p :: rest) s
        = emitIfMergePhis if_end else_end mb rest s1 := by
      simp only [emitIfMergePhis]
      simp only [dummyE] at hif helse
      rw [hif, helse]
      simp only [Valnum, AddIRStmt, AssocIRStmt]
      have hge : ¬ s.prog.next_valnum ≥ s.prog.next_valnum + 1 := by omega
      rw [if_neg hge]
      rfl
    have hval1 : validVal s1 := by
      intro bb hbb st hst
      exact validVal_pushProg s.prog mb phiStmt (s.prog.next_valnum + 1)
        (fun b hb t ht => Nat.lt_succ_of_lt (hval b hb t ht))
        (Nat.lt_succ_self _) bb hbb st hst
    have hstable : ∀ eid, eid < s.nextExprId → ∀ st0,
        GetIRStmt s eid = some st0 → GetIRStmt s1 eid = some st0 := by
      intro eid hlt st0 h
      unfold GetIRStmt at h ⊢
      rw [show s1.exprToIR
          = mapInsert s.nextExprId s.prog.next_valnum s.exprToIR from rfl]
      rw [mapLookup_mapInsert_ne eid s.nextExprId _ _ (by omega)]
      obtain ⟨w, hw⟩ : ∃ w, mapLookup eid s.exprToIR = some w := by
        cases hml : mapLookup eid s.exprToIR
        · rw [hml] at h
          simp at h
        · exact ⟨_, rfl⟩
      rw [hw] at h ⊢
      simp only [Option.some_bind] at h ⊢
      obtain ⟨bb0, hbb0, hmem0, hvn0⟩ := findStmtByValnum_mem s.prog w st0 h
      have hwlt : w < s.prog.next_valnum := hvn0 ▸ hval bb0 hbb0 st0 hmem0
      exact findSome_push_stable s.prog.bbs mb phiStmt w st0 h
        (show ¬ s.prog.next_valnum = w by omega)
    have hlab : ∀ j, bbLabel s1 j = bbLabel s j := by
      intro j
      show ((findBB s1.prog j).map (fun bb => bb.label)).getD ""
        = ((findBB s.prog j).map (fun bb => bb.label)).getD ""
      exact findBB_label_push _ mb j phiStmt
    have hmb1 : findBB s1.prog mb
        = some { mbb with stmts := mbb.stmts ++ [phiStmt] } := by
      rw [show s1.prog = pushStmtToBB mb phiStmt
          { s.prog with next_valnum := s.prog.next_valnum + 1 } from rfl]
      rw [findBB_pushStmtToBB]
      rw [show findBB { s.prog with next_valnum := s.prog.next_valnum + 1 } mb
          = findBB s.prog mb from rfl, hmb]
      rfl
    have hfresh1 : ∀ p' ∈ rest, (p'.2.getD 0 dummyE).data.eid < s1.nextExprId
        ∧ (p'.2.getD 1 dummyE).data.eid < s1.nextExprId := by
      intro p' hp'
      obtain ⟨e1, e2⟩ := hfresh p' (List.mem_cons_of_mem _ hp')
      exact ⟨Nat.lt_succ_of_lt e1, Nat.lt_succ_of_lt e2⟩
    have hsome1 : ∀ p' ∈ rest,
        (GetIRStmt s1 (p'.2.getD 0 dummyE).data.eid).isSome
        ∧ (GetIRStmt s1 (p'.2.getD 1 dummyE).data.eid).isSome := by
      intro p' hp'
      obtain ⟨h1, h2⟩ := hsome p' (List.mem_cons_of_mem _ hp')
      obtain ⟨e1, e2⟩ := hfresh p' (List.mem_cons_of_mem _ hp')
      obtain ⟨x1, hx1⟩ := Option.isSome_iff_exists.mp h1
      obtain ⟨x2, hx2⟩ := Option.isSome_iff_exists.mp h2
      rw [hstable _ e1 _ hx1, hstable _ e2 _ hx2]
      exact ⟨rfl, rfl⟩
    obtain ⟨s', hrun, tl', hstmts, hlen, hidx⟩ :=
      ih s1 { mbb with stmts := mbb.stmts ++ [phiStmt] }
        hval1 hfresh1 hsome1 hmb1
    refine ⟨s', by rw [hstep]; exact hrun, phiStmt :: tl', ?_, ?_, ?_⟩
    · rw [hstmts]
      simp
    · simp [hlen]
    · intro i hi hi2
      cases i with
      | zero =>
        show some phiStmt = _
        unfold expectedIfPhi
        rw [show ((p :: rest).get ⟨0, hi⟩) = p from rfl]
        rw [hif, helse, Nat.add_zero]
      | succ i' =>
        have hi' : i' < rest.length := by simpa using hi
        have hi2' : i' < tl'.length := by simpa using hi2
        have hrec := hidx i' hi' hi2'
        obtain ⟨h1, h2⟩ := hsome (rest.get ⟨i', hi'⟩)
          (List.mem_cons_of_mem _ (rest.get_mem i' hi'))
        obtain ⟨e1, e2⟩ := hfresh (rest.get ⟨i', hi'⟩)
          (List.mem_cons_of_mem _ (rest.get_mem i' hi'))
        obtain ⟨x1, hx1⟩ := Option.isSome_iff_exists.mp h1
        obtain ⟨x2, hx2⟩ := Option.isSome_iff_exists.mp h2
        have hcongr := expectedIfPhi_congr s s1 if_end else_end
          (s1.prog.next_valnum + i') ((rest.get ⟨i', hi'⟩).2) x1 x2
          hx1 hx2 (hstable _ e1 _ hx1) (hstable _ e2 _ hx2)
          (hlab if_end) (hlab else_end)
        rw [show ((phiStmt :: tl').get ⟨i' + 1, hi2⟩)
            = tl'.get ⟨i', hi2'⟩ from rfl]
        rw [show ((p :: rest).get ⟨i' + 1, hi⟩)
            = rest.get ⟨i', hi'⟩ from rfl]
        rw [hrec, hcongr]
        have hnum : s1.prog.next_valnum + i'
            = s.prog.next_valnum + (i' + 1) := by
          show s.prog.next_valnum + 1 + i' = s.prog.next_valnum + (i' + 1)
          omega
        rw [hnum]

/-- C2: lowering an if/else emits, for every let rebound on either side
(the joined overlay entries) and only those, exactly one phi in the merge
BB whose two arguments are the IRs of the if-side then else-side
contributing expressions and whose two predecessor targets are `if_end`
then `else_end`; and when neither side rebinds a let (as in
`entry f { if (1) {} else {} }`), the merge BB contains zero phis while
both sides' end BBs end with a jump to the merge BB. -/
theorem claim_C2 :
    (∀ (if_end else_end mb : Nat) (phi_map : List (Nat × List ASTExpr))
        (s : St) (mbb : IRBB),
      validVal s →
      (∀ p ∈ phi_map, (p.2.getD 0 dummyE).data.eid < s.nextExprId
          ∧ (p.2.getD 1 dummyE).data.eid < s.nextExprId) →
      (∀ p ∈ phi_map, (GetIRStmt s (p.2.getD 0 dummyE).data.eid).isSome
          ∧ (GetIRStmt s (p.2.getD 1 dummyE).data.eid).isSome) →
      findBB s.prog mb = some mbb →
      ∃ s', emitIfMergePhis if_end else_end mb phi_map s = .ok s' ∧
        ∃ tl, bbStmts s' mb = mbb.stmts ++ tl ∧ tl.length = phi_map.length ∧
          ∀ i (hi : i < phi_map.length) (hi2 : i < tl.length),
            some (tl.get ⟨i, hi2⟩)
              = expectedIfPhi s if_end else_end (s.prog.next_valnum + i)
                  ((phi_map.get ⟨i, hi⟩).2))
    ∧ (ModifyASTFunctionDef 50 emptyIfProg initSt).isOk = true
    ∧ ((bbStmts emptyIfRun 3).filter (fun st => st.type = .IRStmtPhi)).length = 0
    ∧ (bbStmts emptyIfRun 1).map (fun st => (st.type, st.targets))
        = [(.IRStmtJmp, [3])]
    ∧ (bbStmts emptyIfRun 2).map (fun st => (st.type, st.targets))
        = [(.IRStmtJmp, [3])] :=
  ⟨fun if_end else_end mb phi_map s mbb =>
      emitIfMergePhis_spec if_end else_end mb phi_map s mbb,
    by decide, by decide, by decide, by decide⟩

/-- The general part of `claim_C2` at concrete input: the single joined
let of `phi_mapW` yields exactly one appended merge phi in `sW`. -/
theorem claim_C2_witness :
    validVal sW ∧
    (∃ s', emitIfMergePhis 0 0 1 phi_mapW sW = .ok s' ∧
      ∃ tl, bbStmts s' 1 = mbbW.stmts ++ tl ∧ tl.length = phi_mapW.length ∧
        ∀ i (hi : i < phi_mapW.length) (hi2 : i < tl.length),
          some (tl.get ⟨i, hi2⟩)
            = expectedIfPhi sW 0 0 (sW.prog.next_valnum + i)
                ((phi_mapW.get ⟨i, hi⟩).2)) :=
  ⟨by unfold validVal; decide,
    claim_C2.1 0 0 1 phi_mapW sW mbbW (by unfold validVal; decide) (by decide)
      (by decide) (by decide)⟩

/-! ## The growth relation `stOK`: basic theory -/

/-- `Forall₂` along a transitive relation composes. -/
theorem forall2_trans {α : Type} {R : α → α → Prop}
    (hR : ∀ a b c, R a b → R b c → R a c) :
    ∀ {l1 l2 l3 : List α}, List.Forall₂ R l1 l2 → List.Forall₂ R l2 l3 →
      List.Forall₂ R l1 l3 := by
  intro l1 l2 l3 h12
  induction h12 generalizing l3 with
  | nil => intro h23; cases h23; exact .nil
  | cons hab h12' ih =>
    intro h23
    cases h23 with
    | cons hbc h23' => exact .cons (hR _ _ _ hab hbc) (ih h23')

/-- Splitting `Forall₂` along an appended left list. -/
theorem forall2_append_split {α : Type} {R : α → α → Prop} :
    ∀ {x y z : List α}, List.Forall₂ R (x ++ y) z →
      ∃ z1 z2, z = z1 ++ z2 ∧ List.Forall₂ R x z1 ∧ List.Forall₂ R y z2 := by
  intro x
  induction x with
  | nil => intro y z h; exact ⟨[], z, rfl, .nil, h⟩
  | cons a xs ih =>
    intro y z h
    cases h with
    | cons hab h' =>
      obtain ⟨z1, z2, rfl, h1, h2⟩ := ih h'
      exact ⟨_ :: z1, z2, rfl, .cons hab h1, h2⟩

/-- `Forall₂` along a reflexive relation holds on the diagonal. -/
theorem forall2_refl_of {α : Type} {R : α → α → Prop} (hR : ∀ a, R a a) :
    ∀ l : List α, List.Forall₂ R l l := by
  intro l
  induction l with
  | nil => exact .nil
  | cons a l ih => exact .cons (hR a) ih

/-- `Forall₂` between a list and its image under a pointwise-related map. -/
theorem forall2_map_of {α : Type} {R : α → α → Prop} (f : α → α) :
    ∀ (l : List α), (∀ a ∈ l, R a (f a)) → List.Forall₂ R l (l.map f) := by
  intro l
  induction l with
  | nil => intro _; exact .nil
  | cons a rest ih =>
    intro h
    exact .cons (h a (List.mem_cons_self a rest))
      (ih (fun x hx => h x (List.mem_cons_of_mem _ hx)))

theorem stmtExt_refl (a : IRStmt) : stmtExt a a := ⟨rfl, rfl, fun _ => rfl⟩

theorem stmtExt_trans {a b c : IRStmt} (h1 : stmtExt a b) (h2 : stmtExt b c) :
    stmtExt a c :=
  ⟨h1.1.trans h2.1, h1.2.1.trans h2.2.1,
   fun hn => (h1.2.2 hn).trans (h2.2.2 (h1.2.1 ▸ hn))⟩

theorem bbExt_refl (a : IRBB) : bbExt a a :=
  ⟨rfl, a.stmts, [], (List.append_nil _).symm, forall2_refl_of stmtExt_refl _⟩

theorem bbExt_trans {a b c : IRBB} (h1 : bbExt a b) (h2 : bbExt b c) :
    bbExt a c := by
  obtain ⟨hid1, pre1, suf1, hb, hf1⟩ := h1
  obtain ⟨hid2, pre2, suf2, hc, hf2⟩ := h2
  rw [hb] at hf2
  obtain ⟨q1, q2, rfl, hq1, _⟩ := forall2_append_split hf2
  exact ⟨hid1.trans hid2, q1, q2 ++ suf2, by rw [hc, List.append_assoc],
    forall2_trans (R := stmtExt) (fun _ _ _ h1 h2 => stmtExt_trans h1 h2) hf1 hq1⟩

theorem progExt_refl (p : IRProgram) : progExt p p :=
  ⟨le_refl _, p.bbs, [], (List.append_nil _).symm, forall2_refl_of bbExt_refl _⟩

theorem progExt_trans {p q r : IRProgram} (h1 : progExt p q) (h2 : progExt q r) :
    progExt p r := by
  obtain ⟨hn1, pre1, suf1, hq, hf1⟩ := h1
  obtain ⟨hn2, pre2, suf2, hr, hf2⟩ := h2
  rw [hq] at hf2
  obtain ⟨q1, q2, rfl, hq1, _⟩ := forall2_append_split hf2
  exact ⟨hn1.trans hn2, q1, q2 ++ suf2, by rw [hr, List.append_assoc],
    forall2_trans (R := bbExt) (fun _ _ _ h1 h2 => bbExt_trans h1 h2) hf1 hq1⟩

theorem stOK_refl (s : St) : stOK s s := ⟨progExt_refl _, fun h => h⟩

theorem stOK_trans {s1 s2 s3 : St} (h1 : stOK s1 s2) (h2 : stOK s2 s3) :
    stOK s1 s3 :=
  ⟨progExt_trans h1.1 h2.1, fun h => h2.2 (h1.2 h)⟩

/-- Any state change that keeps the BB list and does not decrease
`next_valnum` satisfies `stOK`. -/
theorem stOK_of_parts {s s' : St} (hb : s'.prog.bbs = s.prog.bbs)
    (hn : s.prog.next_valnum ≤ s'.prog.next_valnum) : stOK s s' := by
  constructor
  · exact ⟨hn, s.prog.bbs, [], by rw [hb, List.append_nil],
      forall2_refl_of bbExt_refl _⟩
  · intro hval bb hbb st hst
    rw [hb] at hbb
    exact lt_of_lt_of_le (hval bb hbb st hst) hn

theorem stOK_Valnum (s : St) : stOK s (Valnum s).2 :=
  stOK_of_parts rfl (Nat.le_succ _)

theorem stOK_GenSym (pfx : Option String) (s : St) : stOK s (GenSym pfx s).2 :=
  stOK_of_parts rfl (le_refl _)

theorem stOK_AddBB (pfx : Option String) (s : St) : stOK s (AddBB pfx s).2 := by
  constructor
  · exact ⟨le_refl _, s.prog.bbs, [_], rfl, forall2_refl_of bbExt_refl _⟩
  · intro hval bb hbb st hst
    rcases List.mem_append.mp hbb with h | h
    · exact hval bb h st hst
    · rw [List.mem_singleton] at h
      subst h
      simp at hst

theorem stOK_AddIRStmt (bb : Nat) (st : IRStmt) (ass : Option Nat) (s : St) :
    stOK s (AddIRStmt bb st ass s) := by
  have key : ∀ (s0 : St), s0.prog = s.prog →
      stOK s { s0 with prog := pushStmtToBB bb st (if st.valnum ≥ s0.prog.next_valnum then { s0.prog with next_valnum := st.valnum + 1 } else s0.prog) } := by
    intro s0 hp
    rw [hp]
    by_cases hge : st.valnum ≥ s.prog.next_valnum
    · rw [if_pos hge]
      constructor
      · refine ⟨by show s.prog.next_valnum ≤ st.valnum + 1; omega, _, [], (List.append_nil _).symm, ?_⟩
        refine forall2_map_of _ _ (fun b _ => ?_)
        by_cases hid : b.id = bb
        · rw [if_pos hid]
          exact ⟨rfl, b.stmts, [st], rfl, forall2_refl_of stmtExt_refl _⟩
        · rw [if_neg hid]
          exact bbExt_refl b
      · intro hval
        exact validVal_pushProg s.prog bb st (st.valnum + 1)
          (fun b hb t ht => by have := hval b hb t ht; omega) (by omega)
    · rw [if_neg hge]
      constructor
      · refine ⟨le_refl _, _, [], (List.append_nil _).symm, ?_⟩
        refine forall2_map_of _ _ (fun b _ => ?_)
        by_cases hid : b.id = bb
        · rw [if_pos hid]
          exact ⟨rfl, b.stmts, [st], rfl, forall2_refl_of stmtExt_refl _⟩
        · rw [if_neg hid]
          exact bbExt_refl b
      · intro hval
        exact validVal_pushProg s.prog bb st s.prog.next_valnum
          (fun b hb t ht => hval b hb t ht) (by omega)
  unfold AddIRStmt
  cases ass with
  | none => exact key s rfl
  | some e => exact key { s with exprToIR := mapInsert e st.valnum s.exprToIR } rfl

theorem stOK_appendPhiInput (v a t : Nat) (nm : String) (w : Nat) (s : St) :
    stOK s { s with prog := appendPhiInput v a t nm w s.prog } := by
  constructor
  · refine ⟨le_refl _, _, [], (List.append_nil _).symm, ?_⟩
    refine forall2_map_of _ _ (fun b _ => ?_)
    refine ⟨rfl, _, [], (List.append_nil _).symm, ?_⟩
    refine forall2_map_of _ _ (fun st _ => ?_)
    by_cases hg : st.valnum = v ∧ st.type = .IRStmtPhi
    · rw [if_pos hg]
      exact ⟨rfl, rfl, fun hn => absurd hg.2 hn⟩
    · rw [if_neg hg]
      exact stmtExt_refl st
  · intro hval bb hbb st hst
    simp only [appendPhiInput, List.mem_map] at hbb
    obtain ⟨b0, hb0, rfl⟩ := hbb
    simp only [List.mem_map] at hst
    obtain ⟨t0, ht0, rfl⟩ := hst
    have := hval b0 hb0 t0 ht0
    by_cases hg : t0.valnum = v ∧ t0.type = .IRStmtPhi
    · rw [if_pos hg]
      exact this
    · rw [if_neg hg]
      exact this

/-- A `Res`-valued fold whose body propagates errors leaves an error
untouched. -/
theorem foldl_res_error {β : Type} (g : Res → β → Res)
    (herr : ∀ s b, g (.error s) b = .error s) :
    ∀ (l : List β) (s : St), l.foldl g (.error s) = .error s := by
  intro l
  induction l with
  | nil => intro s; rfl
  | cons b rest ih =>
    intro s
    rw [List.foldl_cons, herr]
    exact ih s

/-- A `Res`-valued fold whose every step satisfies `stOK` satisfies
`stOK` end to end. -/
theorem stOK_foldl_res {β : Type} (g : Res → β → Res)
    (herr : ∀ s b, g (.error s) b = .error s)
    (hstep : ∀ s b, stOK s (g (.ok s) b).st) :
    ∀ (l : List β) (s : St), stOK s ((l.foldl g (.ok s)).st) := by
  intro l
  induction l with
  | nil => intro s; exact stOK_refl s
  | cons b rest ih =>
    intro s
    rw [List.foldl_cons]
    cases hgb : g (.ok s) b with
    | error s2 =>
      rw [foldl_res_error g herr rest s2]
      have h1 := hstep s b
      rw [hgb] at h1
      exact h1
    | ok s2 =>
      have h1 := hstep s b
      rw [hgb] at h1
      exact stOK_trans h1 (ih s2)

/-- A state-and-accumulator fold whose every step satisfies `stOK`
satisfies `stOK` end to end. -/
theorem stOK_foldl_pair {β γ : Type} (g : St × γ → β → St × γ)
    (hstep : ∀ a b, stOK a.1 (g a b).1) :
    ∀ (l : List β) (a : St × γ), stOK a.1 ((l.foldl g a).1) := by
  intro l
  induction l with
  | nil => intro a; exact stOK_refl a.1
  | cons b rest ih =>
    intro a
    rw [List.foldl_cons]
    exact stOK_trans (hstep a b) (ih (g a b))

/-! ## stOK for the handlers and the engine -/

theorem stOK_FindEntityDef : ∀ (fuel : Nat) (node : ASTExpr) (dt : ExprOp) (s : St),
    stOK s (FindEntityDef fuel node dt s).1 := by
  intro fuel
  induction fuel with
  | zero => intro node dt s; exact stOK_refl s
  | succ f ih =>
    intro node dt s
    unfold FindEntityDef
    by_cases h1 : node.data.op = dt
    · rw [if_pos h1]
      exact stOK_refl s
    · rw [if_neg h1]
      by_cases h2 : node.data.op = .VAR
      · rw [if_pos h2]
        cases s.bindings.get node.data.defLet with
        | none => exact stOK_refl s
        | some b => exact ih b dt s
      · rw [if_neg h2]
        exact stOK_of_parts rfl (le_refl _)

theorem stOK_Valnum_pair {s sv : St} {v : Nat} (h : Valnum s = (v, sv)) : stOK s sv := by
  have h2 := stOK_Valnum s
  rw [h] at h2
  exact h2

theorem stOK_GenSym_pair {pfx : Option String} {s sv : St} {nm : String}
    (h : GenSym pfx s = (nm, sv)) : stOK s sv := by
  have h2 := stOK_GenSym pfx s
  rw [h] at h2
  exact h2

theorem stOK_AddBB_pair {pfx : Option String} {s sv : St} {i : Nat}
    (h : AddBB pfx s = (i, sv)) : stOK s sv := by
  have h2 := stOK_AddBB pfx s
  rw [h] at h2
  exact h2

theorem stOK_FindEntityDef_pair {fuel : Nat} {node : ASTExpr} {dt : ExprOp}
    {s s1 : St} {opt : Option ASTExpr}
    (h : FindEntityDef fuel node dt s = (s1, opt)) : stOK s s1 := by
  have h2 := stOK_FindEntityDef fuel node dt s
  rw [h] at h2
  exact h2

theorem stOK_addError (msg : String) (s : St) : stOK s (addError msg s) :=
  stOK_of_parts rfl (le_refl _)

theorem stOK_AssocIRStmt (v : Option Nat) (e : Nat) (s : St) :
    stOK s (AssocIRStmt v e s) := by
  cases v with
  | none => exact stOK_refl s
  | some v0 => exact stOK_of_parts rfl (le_refl _)

theorem stOK_ModifyASTExprPost (fuel : Nat) (e : ASTExpr) (s : St) :
    stOK s (ModifyASTExprPost fuel e s).st := by
  unfold ModifyASTExprPost
  by_cases hop : ExprTypeToOpType e.data.op = .IRStmtOpNone
  · rw [if_neg (not_not_intro hop)]
    dsimp only
    cases hdop : e.data.op
    all_goals try { rw [hdop] at hop; exact absurd hop (by decide) }
    -- CONST
    · rcases hv : Valnum s with ⟨v, s2⟩
      dsimp only [Res.st]
      exact stOK_trans (stOK_Valnum_pair hv) (stOK_AddIRStmt _ _ _ _)
    -- VAR
    · cases hb : s.bindings.get e.data.defLet with
      | none => exact stOK_refl s
      | some b =>
        dsimp only
        cases hg : GetIRStmt s b.data.eid with
        | none => exact stOK_refl s
        | some ir =>
          dsimp only [Res.st]
          exact stOK_AssocIRStmt _ _ s
    -- PORTDEF
    · by_cases hnm : effName s e = ""
      · rw [if_neg (not_not_intro hnm)]
        rcases hg : GenSym none s with ⟨nm, s2⟩
        dsimp only [Res.st]
        exact stOK_trans (stOK_GenSym_pair hg) (stOK_of_parts rfl (le_refl _))
      · rw [if_pos hnm]
        by_cases hch : e.data.ty.is_chan = true
        · rw [if_pos hch]
          dsimp only [Res.st]
          exact stOK_addError _ s
        · rw [if_neg hch]
          rcases hv : Valnum s with ⟨v, s2⟩
          dsimp only [Res.st]
          exact stOK_trans (stOK_Valnum_pair hv) (stOK_AddIRStmt _ _ _ _)
    -- PORTREAD
    · cases hh : e.ops.head? with
      | none => exact stOK_refl s
      | some p0 =>
        dsimp only
        rcases hfe : FindEntityDef fuel p0 .PORTDEF s with ⟨s1, _ | portdef⟩
        · dsimp only [Res.st]
          exact stOK_FindEntityDef_pair hfe
        · dsimp only
          rcases hv : Valnum s1 with ⟨v, s2⟩
          dsimp only
          by_cases hp : portdef.data.ty.is_port = true
          · rw [if_pos hp]
            dsimp only [Res.st]
            exact stOK_trans (stOK_FindEntityDef_pair hfe)
              (stOK_trans (stOK_Valnum_pair hv) (stOK_AddIRStmt _ _ _ _))
          · rw [if_neg hp]
            by_cases hc2 : portdef.data.ty.is_chan = true
            · rw [if_pos hc2]
              dsimp only [Res.st]
              exact stOK_trans (stOK_FindEntityDef_pair hfe)
                (stOK_trans (stOK_Valnum_pair hv) (stOK_AddIRStmt _ _ _ _))
            · rw [if_neg hc2]
              dsimp only [Res.st]
              exact stOK_trans (stOK_FindEntityDef_pair hfe)
                (stOK_trans (stOK_Valnum_pair hv)
                  (stOK_trans (stOK_addError _ _) (stOK_AddIRStmt _ _ _ _)))
    -- ARRAY_INIT
    · rcases hg : GenSym "array" s with ⟨nm, s2⟩
      dsimp only
      rcases hv : Valnum { s2 with names := mapInsert e.data.eid nm s2.names } with ⟨v, s3⟩
      dsimp only [Res.st]
      have h1 := stOK_GenSym_pair hg
      have h2 : stOK s2 { s2 with names := mapInsert e.data.eid nm s2.names } :=
        stOK_of_parts rfl (le_refl _)
      have h3 := stOK_Valnum_pair hv
      exact stOK_trans h1 (stOK_trans h2 (stOK_trans h3 (stOK_AddIRStmt _ _ _ _)))
    -- ARRAY_REF
    · cases hh : e.ops.head? with
      | none => exact stOK_refl s
      | some p0 =>
        dsimp only
        rcases hfe : FindEntityDef fuel p0 .ARRAY_INIT s with ⟨s1, _ | arraydef⟩
        · dsimp only [Res.st]
          exact stOK_FindEntityDef_pair hfe
        · dsimp only
          rcases hv : Valnum s1 with ⟨v, s2⟩
          dsimp only
          cases hix : (e.ops.get? 1).bind (fun ix => GetIRStmt s2 ix.data.eid) with
          | none =>
            dsimp only [Res.st]
            exact stOK_trans (stOK_FindEntityDef_pair hfe) (stOK_Valnum_pair hv)
          | some index_arg =>
            dsimp only [Res.st]
            exact stOK_trans (stOK_FindEntityDef_pair hfe)
              (stOK_trans (stOK_Valnum_pair hv) (stOK_AddIRStmt _ _ _ _))
    -- REG_INIT
    · rcases hg : GenSym "reg" s with ⟨nm, s2⟩
      dsimp only [Res.st]
      exact stOK_trans (stOK_GenSym_pair hg) (stOK_of_parts rfl (le_refl _))
    -- REG_REF
    · cases hh : e.ops.head? with
      | none => exact stOK_refl s
      | some p0 =>
        dsimp only
        rcases hfe : FindEntityDef fuel p0 .REG_INIT s with ⟨s1, _ | regdef⟩
        · dsimp only [Res.st]
          exact stOK_FindEntityDef_pair hfe
        · dsimp only
          rcases hv : Valnum s1 with ⟨v, s2⟩
          dsimp only [Res.st]
          exact stOK_trans (stOK_FindEntityDef_pair hfe)
            (stOK_trans (stOK_Valnum_pair hv) (stOK_AddIRStmt _ _ _ _))
    -- BYPASSDEF
    · rcases hg : GenSym "bypass" s with ⟨nm, s2⟩
      dsimp only [Res.st]
      exact stOK_trans (stOK_GenSym_pair hg) (stOK_of_parts rfl (le_refl _))
    -- BYPASSPRESENT
    · cases hh : e.ops.head? with
      | none => exact stOK_refl s
      | some p0 =>
        dsimp only
        rcases hfe : FindEntityDef fuel p0 .BYPASSDEF s with ⟨s1, _ | bypassdef⟩
        · dsimp only [Res.st]
          exact stOK_FindEntityDef_pair hfe
        · dsimp only
          rcases hv : Valnum s1 with ⟨v, s2⟩
          dsimp only
          cases hix : (e.ops.get? 1).bind (fun ix => GetIRStmt s2 ix.data.eid) with
          | none =>
            dsimp only [Res.st]
            exact stOK_trans (stOK_FindEntityDef_pair hfe) (stOK_Valnum_pair hv)
          | some index_arg =>
            dsimp only [Res.st]
            exact stOK_trans (stOK_FindEntityDef_pair hfe)
              (stOK_trans (stOK_Valnum_pair hv) (stOK_AddIRStmt _ _ _ _))
    -- BYPASSREADY
    · cases hh : e.ops.head? with
      | none => exact stOK_refl s
      | some p0 =>
        dsimp only
        rcases hfe : FindEntityDef fuel p0 .BYPASSDEF s with ⟨s1, _ | bypassdef⟩
        · dsimp only [Res.st]
          exact stOK_FindEntityDef_pair hfe
        · dsimp only
          rcases hv : Valnum s1 with ⟨v, s2⟩
          dsimp only
          cases hix : (e.ops.get? 1).bind (fun ix => GetIRStmt s2 ix.data.eid) with
          | none =>
            dsimp only [Res.st]
            exact stOK_trans (stOK_FindEntityDef_pair hfe) (stOK_Valnum_pair hv)
          | some index_arg =>
            dsimp only [Res.st]
            exact stOK_trans (stOK_FindEntityDef_pair hfe)
              (stOK_trans (stOK_Valnum_pair hv) (stOK_AddIRStmt _ _ _ _))
    -- BYPASSREAD
    · cases hh : e.ops.head? with
      | none => exact stOK_refl s
      | some p0 =>
        dsimp only
        rcases hfe : FindEntityDef fuel p0 .BYPASSDEF s with ⟨s1, _ | bypassdef⟩
        · dsimp only [Res.st]
          exact stOK_FindEntityDef_pair hfe
        · dsimp only
          rcases hv : Valnum s1 with ⟨v, s2⟩
          dsimp only
          cases hix : (e.ops.get? 1).bind (fun ix => GetIRStmt s2 ix.data.eid) with
          | none =>
            dsimp only [Res.st]
            exact stOK_trans (stOK_FindEntityDef_pair hfe) (stOK_Valnum_pair hv)
          | some index_arg =>
            dsimp only [Res.st]
            exact stOK_trans (stOK_FindEntityDef_pair hfe)
              (stOK_trans (stOK_Valnum_pair hv) (stOK_AddIRStmt _ _ _ _))
    -- STMTBLOCK
    · cases hgl : e.blk.getLast? with
      | none =>
        dsimp only [Res.st]
        exact stOK_addError _ s
      | some stl =>
        cases stl <;> dsimp only [Res.st] <;>
          first
            | exact stOK_addError _ s
            | exact stOK_AssocIRStmt _ _ s
    -- CAST
    · cases hh : e.ops.head? with
      | none => exact stOK_refl s
      | some p0 =>
        dsimp only [Res.st]
        exact stOK_AssocIRStmt _ _ s
    -- FIELD_REF
    · dsimp only [Res.st]
      exact stOK_addError _ s
    -- NOP
    · dsimp only [Res.st]
      exact stOK_addError _ s
  · rw [if_pos hop]
    rcases hv : Valnum s with ⟨v, s2⟩
    dsimp only
    cases hc : childArgNums s2 e.ops with
    | none => exact stOK_Valnum_pair hv
    | some argVs =>
      dsimp only [Res.st]
      exact stOK_trans (stOK_Valnum_pair hv) (stOK_AddIRStmt _ _ _ _)

theorem stOK_ModifyASTStmtLetPost (l : Nat) (ty : TypeInfo) (rhs : ASTExpr) (s : St) :
    stOK s (ModifyASTStmtLetPost l ty rhs s).st :=
  stOK_of_parts rfl (le_refl _)

theorem stOK_ModifyASTStmtWritePost (fuel : Nat) (port rhs : ASTExpr) (s : St) :
    stOK s (ModifyASTStmtWritePost fuel port rhs s).st := by
  unfold ModifyASTStmtWritePost
  rcases hv : Valnum s with ⟨v, s1⟩
  dsimp only
  rcases hfe : FindEntityDef fuel port .PORTDEF s1 with ⟨s2, _ | portdef⟩
  · dsimp only [Res.st]
    exact stOK_trans (stOK_Valnum_pair hv) (stOK_FindEntityDef_pair hfe)
  · dsimp only
    by_cases hp : portdef.data.ty.is_port = true
    · rw [if_pos hp]
      dsimp only
      cases hg : GetIRStmt s2 rhs.data.eid with
      | none =>
        dsimp only [Res.st]
        exact stOK_trans (stOK_Valnum_pair hv) (stOK_FindEntityDef_pair hfe)
      | some val =>
        dsimp only [Res.st]
        exact stOK_trans (stOK_Valnum_pair hv)
          (stOK_trans (stOK_FindEntityDef_pair hfe) (stOK_AddIRStmt _ _ _ _))
    · rw [if_neg hp]
      by_cases hc : portdef.data.ty.is_chan = true
      · rw [if_pos hc]
        dsimp only
        cases hg : GetIRStmt s2 rhs.data.eid with
        | none =>
          dsimp only [Res.st]
          exact stOK_trans (stOK_Valnum_pair hv) (stOK_FindEntityDef_pair hfe)
        | some val =>
          dsimp only [Res.st]
          exact stOK_trans (stOK_Valnum_pair hv)
            (stOK_trans (stOK_FindEntityDef_pair hfe) (stOK_AddIRStmt _ _ _ _))
      · rw [if_neg hc]
        dsimp only
        cases hg : GetIRStmt (addError "Write to something not a port or chan" s2) rhs.data.eid with
        | none =>
          dsimp only [Res.st]
          exact stOK_trans (stOK_Valnum_pair hv)
            (stOK_trans (stOK_FindEntityDef_pair hfe) (stOK_addError _ _))
        | some val =>
          dsimp only [Res.st]
          exact stOK_trans (stOK_Valnum_pair hv)
            (stOK_trans (stOK_FindEntityDef_pair hfe)
              (stOK_trans (stOK_addError _ _) (stOK_AddIRStmt _ _ _ _)))

theorem stOK_ModifyASTStmtKillPost (s : St) : stOK s (ModifyASTStmtKillPost s).st := by
  unfold ModifyASTStmtKillPost
  rcases hv : Valnum s with ⟨v, s1⟩
  dsimp only [Res.st]
  exact stOK_trans (stOK_Valnum_pair hv) (stOK_AddIRStmt _ _ _ _)

theorem stOK_ModifyASTStmtKillIfPost (cond : ASTExpr) (s : St) :
    stOK s (ModifyASTStmtKillIfPost cond s).st := by
  unfold ModifyASTStmtKillIfPost
  by_cases hok : VerifyNoSideEffects cond = true
  · rw [if_pos hok]
    rcases hv : Valnum s with ⟨v, s1⟩
    dsimp only
    cases hg : GetIRStmt s1 cond.data.eid with
    | none =>
      dsimp only [Res.st]
      exact stOK_Valnum_pair hv
    | some c =>
      dsimp only [Res.st]
      exact stOK_trans (stOK_Valnum_pair hv) (stOK_AddIRStmt _ _ _ _)
  · rw [if_neg hok]
    exact stOK_addError _ s

theorem stOK_addTimevarUse (i v : Nat) (s : St) : stOK s (addTimevarUse i v s) :=
  stOK_of_parts rfl (le_refl _)

theorem stOK_ModifyASTStmtTimingPre (s : St) : stOK s (ModifyASTStmtTimingPre s).st := by
  unfold ModifyASTStmtTimingPre
  rcases hg : GenSym "timing" s with ⟨nm, s1⟩
  dsimp only
  rcases hv : Valnum (updBack (fun c => { c with timing_stack := s1.prog.timevars.length :: c.timing_stack, timing_last_stage := 0 :: c.timing_last_stage }) s1) with ⟨v, s2⟩
  dsimp only [Res.st]
  have h1 := stOK_GenSym_pair hg
  have h2 : stOK s1 (updBack (fun c => { c with timing_stack := s1.prog.timevars.length :: c.timing_stack, timing_last_stage := 0 :: c.timing_last_stage }) s1) := by
    unfold updBack
    exact stOK_of_parts rfl (le_refl _)
  have h3 := stOK_Valnum_pair hv
  have h4 := stOK_AddIRStmt s2.curbb { valnum := v, type := .IRStmtTimingBarrier, timevar := some s1.prog.timevars.length, time_offset := 0 } none s2
  have h5 : stOK (AddIRStmt s2.curbb { valnum := v, type := .IRStmtTimingBarrier, timevar := some s1.prog.timevars.length, time_offset := 0 } none s2) { AddIRStmt s2.curbb { valnum := v, type := .IRStmtTimingBarrier, timevar := some s1.prog.timevars.length, time_offset := 0 } none s2 with prog := { (AddIRStmt s2.curbb { valnum := v, type := .IRStmtTimingBarrier, timevar := some s1.prog.timevars.length, time_offset := 0 } none s2).prog with timevars := (AddIRStmt s2.curbb { valnum := v, type := .IRStmtTimingBarrier, timevar := some s1.prog.timevars.length, time_offset := 0 } none s2).prog.timevars ++ [{ name := nm, uses := [v] }] } } :=
    stOK_of_parts rfl (le_refl _)
  exact stOK_trans h1 (stOK_trans h2 (stOK_trans h3 (stOK_trans h4 h5)))

theorem stOK_ModifyASTStmtTimingPost (s : St) : stOK s (ModifyASTStmtTimingPost s).st := by
  unfold ModifyASTStmtTimingPost
  cases hh : (backCtx s).timing_stack.head? with
  | none => exact stOK_refl s
  | some tv =>
    dsimp only
    rcases hv : Valnum s with ⟨v, s1⟩
    dsimp only [Res.st]
    have h1 := stOK_Valnum_pair hv
    have h2 := stOK_addTimevarUse tv v s1
    have h3 := stOK_AddIRStmt (addTimevarUse tv v s1).curbb { valnum := v, type := .IRStmtTimingBarrier, timevar := some tv, time_offset := ((backCtx s).timing_last_stage.head?).getD 0 } none (addTimevarUse tv v s1)
    have h4 : stOK (AddIRStmt (addTimevarUse tv v s1).curbb { valnum := v, type := .IRStmtTimingBarrier, timevar := some tv, time_offset := ((backCtx s).timing_last_stage.head?).getD 0 } none (addTimevarUse tv v s1)) (updBack (fun c => { c with timing_stack := c.timing_stack.tail, timing_last_stage := c.timing_last_stage.tail }) (AddIRStmt (addTimevarUse tv v s1).curbb { valnum := v, type := .IRStmtTimingBarrier, timevar := some tv, time_offset := ((backCtx s).timing_last_stage.head?).getD 0 } none (addTimevarUse tv v s1))) := by
      unfold updBack
      exact stOK_of_parts rfl (le_refl _)
    exact stOK_trans h1 (stOK_trans h2 (stOK_trans h3 h4))

theorem stOK_updBack (f : FuncCtx → FuncCtx) (s : St) : stOK s (updBack f s) := by
  unfold updBack
  exact stOK_of_parts rfl (le_refl _)

theorem stOK_updLoopFrame (i : Nat) (f : LoopFrame → LoopFrame) (s : St) :
    stOK s (updLoopFrame i f s) := by
  unfold updLoopFrame updBack
  exact stOK_of_parts rfl (le_refl _)

theorem stOK_SetCurBB (bb : Nat) (s : St) : stOK s (SetCurBB bb s) :=
  stOK_of_parts rfl (le_refl _)

theorem stOK_ModifyASTStmtStagePost (off : Int) (s : St) :
    stOK s (ModifyASTStmtStagePost off s).st := by
  unfold ModifyASTStmtStagePost
  by_cases he : (backCtx s).timing_stack.isEmpty = true
  · rw [if_pos he]
    exact stOK_addError _ s
  · rw [if_neg he]
    rcases hv1 : Valnum s with ⟨v1, s1⟩
    dsimp only
    rcases hv2 : Valnum (AddIRStmt (addTimevarUse (((backCtx s).timing_stack.head?).getD 0) v1 s1).curbb { valnum := v1, type := .IRStmtTimingBarrier, timevar := some (((backCtx s).timing_stack.head?).getD 0), time_offset := ((backCtx s).timing_last_stage.head?).getD 0 } none (addTimevarUse (((backCtx s).timing_stack.head?).getD 0) v1 s1)) with ⟨v2, s2⟩
    dsimp only [Res.st]
    have h1 := stOK_Valnum_pair hv1
    have h2 := stOK_addTimevarUse (((backCtx s).timing_stack.head?).getD 0) v1 s1
    have h3 := stOK_AddIRStmt (addTimevarUse (((backCtx s).timing_stack.head?).getD 0) v1 s1).curbb { valnum := v1, type := .IRStmtTimingBarrier, timevar := some (((backCtx s).timing_stack.head?).getD 0), time_offset := ((backCtx s).timing_last_stage.head?).getD 0 } none (addTimevarUse (((backCtx s).timing_stack.head?).getD 0) v1 s1)
    have h4 := stOK_Valnum_pair hv2
    have h5 := stOK_addTimevarUse (((backCtx s).timing_stack.head?).getD 0) v2 s2
    have h6 := stOK_updBack (fun c => { c with timing_last_stage := match c.timing_last_stage with | [] => [] | _ :: rest => off :: rest }) (addTimevarUse (((backCtx s).timing_stack.head?).getD 0) v2 s2)
    have h7 := stOK_AddIRStmt (updBack (fun c => { c with timing_last_stage := match c.timing_last_stage with | [] => [] | _ :: rest => off :: rest }) (addTimevarUse (((backCtx s).timing_stack.head?).getD 0) v2 s2)).curbb { valnum := v2, type := .IRStmtTimingBarrier, timevar := some (((backCtx s).timing_stack.head?).getD 0), time_offset := off } none (updBack (fun c => { c with timing_last_stage := match c.timing_last_stage with | [] => [] | _ :: rest => off :: rest }) (addTimevarUse (((backCtx s).timing_stack.head?).getD 0) v2 s2))
    exact stOK_trans h1 (stOK_trans h2 (stOK_trans h3 (stOK_trans h4 (stOK_trans h5 (stOK_trans h6 h7)))))


theorem stOK_FindLoopFrame (label : Option String) (s : St) :
    stOK s (FindLoopFrame label s).1 := by
  unfold FindLoopFrame
  cases label with
  | some l =>
    dsimp only
    cases hfi : (backCtx s).loop_frames.findIdx? (fun fr => fr.whileLabel = some l) with
    | some i => exact stOK_refl s
    | none => exact stOK_addError _ s
  | none =>
    dsimp only
    by_cases he : (backCtx s).loop_frames.isEmpty = true
    · rw [if_pos he]
      exact stOK_addError _ s
    · rw [if_neg he]
      exact stOK_refl s

theorem stOK_HandleBreakContinue (i : Nat) (isBreak : Bool) (s : St) :
    stOK s (HandleBreakContinue i isBreak s) := by
  unfold HandleBreakContinue
  split
  all_goals
    dsimp only
    refine stOK_trans ?_ (stOK_SetCurBB _ _)
    refine stOK_trans ?_ (stOK_AddBB _ _)
    refine stOK_trans ?_ (stOK_AddIRStmt _ _ _ _)
    refine stOK_trans ?_ (stOK_Valnum _)
    exact stOK_of_parts rfl (le_refl _)

theorem stOK_ModifyASTStmtBreakPost (label : Option String) (s : St) :
    stOK s (ModifyASTStmtBreakPost label s).st := by
  unfold ModifyASTStmtBreakPost
  rcases hf : FindLoopFrame label s with ⟨s1, _ | i⟩
  · dsimp only [Res.st]
    have h := stOK_FindLoopFrame label s
    rw [hf] at h
    exact h
  · dsimp only [Res.st]
    have h := stOK_FindLoopFrame label s
    rw [hf] at h
    exact stOK_trans h (stOK_HandleBreakContinue i true s1)

theorem stOK_ModifyASTStmtContinuePost (label : Option String) (s : St) :
    stOK s (ModifyASTStmtContinuePost label s).st := by
  unfold ModifyASTStmtContinuePost
  rcases hf : FindLoopFrame label s with ⟨s1, _ | i⟩
  · dsimp only [Res.st]
    have h := stOK_FindLoopFrame label s
    rw [hf] at h
    exact h
  · dsimp only [Res.st]
    have h := stOK_FindLoopFrame label s
    rw [hf] at h
    exact stOK_trans h (stOK_HandleBreakContinue i false s1)

theorem stOK_addIR_bind (bb : Nat) (stm : IRStmt) (ass : Option Nat) (l : Nat) (ne : ASTExpr) (s : St) :
    stOK s { AddIRStmt bb stm ass s with bindings := (AddIRStmt bb stm ass s).bindings.set l ne } :=
  stOK_trans (stOK_AddIRStmt bb stm ass s) (stOK_of_parts rfl (le_refl _))

theorem stOK_emitWhileHeaderPhisGo (in_bb header : Nat) :
    ∀ (ks : List Nat) (acc : St × List (Nat × Nat)),
    stOK acc.1 (emitWhileHeaderPhisGo in_bb header ks acc).1 := by
  intro ks
  induction ks with
  | nil => intro acc; exact stOK_refl acc.1
  | cons l rest ih =>
    intro acc
    unfold emitWhileHeaderPhisGo
    refine stOK_trans ?_ (ih _)
    dsimp only
    by_cases hh : acc.1.bindings.has l = true
    · rw [if_pos hh]
      cases hg : acc.1.bindings.get l with
      | none => exact stOK_refl acc.1
      | some binding =>
        dsimp only
        cases hg2 : GetIRStmt acc.1 binding.data.eid with
        | none => exact stOK_refl acc.1
        | some binding_ir =>
          dsimp only
          rcases hv : Valnum acc.1 with ⟨v, s2⟩
          dsimp only
          have h1 := stOK_Valnum_pair hv
          have h2 : stOK s2 { s2 with nextExprId := s2.nextExprId + 1 } :=
            stOK_of_parts rfl (le_refl _)
          exact stOK_trans h1 (stOK_trans h2 (stOK_addIR_bind _ _ _ _ _ _))
    · rw [if_neg hh]
      exact stOK_refl acc.1

theorem stOK_emitWhileHeaderPhis (in_bb header : Nat) (s : St) :
    stOK s (emitWhileHeaderPhis in_bb header s).1 := by
  unfold emitWhileHeaderPhis
  exact stOK_emitWhileHeaderPhisGo in_bb header (s.bindings.keys) (s, [])

theorem stOK_appendPhiContribs (phiV : Nat) (exprs : List ASTExpr)
    (in_bbs : List Nat) (s : St) : stOK s (appendPhiContribs phiV exprs in_bbs s).st := by
  unfold appendPhiContribs
  refine stOK_foldl_res _ (fun s b => rfl) ?_ (exprs.zip in_bbs) s
  intro s0 b
  dsimp only
  cases hg : GetIRStmt s0 b.1.data.eid with
  | none => exact stOK_refl s0
  | some in_val =>
    dsimp only [Res.st]
    exact stOK_appendPhiInput _ _ _ _ _ s0

theorem stOK_AddWhileLoopPhiNodeInputs (binding_phis : Option (List (Nat × Nat)))
    (binding_phi_bb : Option Nat) (in_edges : List (Nat × Overlay)) (s : St) :
    stOK s (AddWhileLoopPhiNodeInputs binding_phis binding_phi_bb in_edges s).st := by
  unfold AddWhileLoopPhiNodeInputs
  refine stOK_foldl_res _ (fun s b => rfl) ?_ _ s
  intro s0 p
  dsimp only
  cases binding_phis with
  | some m =>
    dsimp only
    cases hl : mapLookup p.1 m with
    | none =>
      dsimp only [Res.st]
      exact stOK_addError _ s0
    | some phiV =>
      dsimp only
      exact stOK_appendPhiContribs _ _ _ s0
  | none =>
    dsimp only
    refine stOK_trans ?_ (stOK_appendPhiContribs _ _ _ _)
    refine stOK_trans ?_ (stOK_AddIRStmt _ _ _ _)
    exact stOK_of_parts rfl (Nat.le_succ _)

theorem stOK_emitIfMergePhis (if_end else_end mb : Nat) :
    ∀ (phi_map : List (Nat × List ASTExpr)) (s : St),
    stOK s (emitIfMergePhis if_end else_end mb phi_map s).st := by
  intro phi_map
  induction phi_map with
  | nil => intro s; exact stOK_refl s
  | cons p rest ih =>
    intro s
    unfold emitIfMergePhis
    dsimp only
    cases h1 : GetIRStmt s (p.2.getD 0 (.mk {} [] [])).data.eid with
    | none =>
      cases h2 : GetIRStmt s (p.2.getD 1 (.mk {} [] [])).data.eid with
      | none =>
        dsimp only [Res.st]
        exact stOK_addError _ s
      | some x =>
        dsimp only [Res.st]
        exact stOK_addError _ s
    | some if_val =>
      cases h2 : GetIRStmt s (p.2.getD 1 (.mk {} [] [])).data.eid with
      | none =>
        dsimp only [Res.st]
        exact stOK_addError _ s
      | some else_val =>
        dsimp only
        refine stOK_trans ?_ (ih _)
        refine stOK_trans (stOK_Valnum s) ?_
        refine stOK_trans (stOK_AddIRStmt mb { valnum := (Valnum s).1, type := .IRStmtPhi, width := if_val.width, args := [if_val.valnum, else_val.valnum], arg_nums := [if_val.valnum, else_val.valnum], targets := [if_end, else_end], target_names := [bbLabel (Valnum s).2 if_end, bbLabel (Valnum s).2 else_end] } none (Valnum s).2) ?_
        exact stOK_of_parts rfl (le_refl _)


theorem stOK_of_ih {ih : EngineIH} (hih : ∀ job s, stOK s (ih job s).st)
    {job : EngineJob} {s0 s1 : St} (h : ih job s0 = .ok s1) : stOK s0 s1 := by
  have h2 := hih job s0
  rw [h] at h2
  exact h2

theorem stOK_of_ih_err {ih : EngineIH} (hih : ∀ job s, stOK s (ih job s).st)
    {job : EngineJob} {s0 s1 : St} (h : ih job s0 = .error s1) : stOK s0 s1 := by
  have h2 := hih job s0
  rw [h] at h2
  exact h2

theorem stOK_res_of {s0 : St} {r : Res} {s1 : St} (hr : stOK s0 r.st)
    (h : r = .ok s1) : stOK s0 s1 := by
  rw [h] at hr
  exact hr

theorem stOK_lowerExprStep (f : Nat) (ih : EngineIH)
    (hih : ∀ job s, stOK s (ih job s).st) (e : ASTExpr) (s : St) :
    stOK s (lowerExprStep f ih e s).st := by
  unfold lowerExprStep
  split
  case _ s2 heq =>
    exact stOK_of_ih_err hih heq
  case _ s2 heq =>
    split
    case _ s3 heq2 =>
      exact stOK_trans (stOK_of_ih hih heq) (stOK_of_ih_err hih heq2)
    case _ s3 heq2 =>
      exact stOK_trans (stOK_of_ih hih heq)
        (stOK_trans (stOK_of_ih hih heq2) (stOK_ModifyASTExprPost (f + 1) e s3))

theorem stOK_lowerExprListStep (ih : EngineIH)
    (hih : ∀ job s, stOK s (ih job s).st) (es : List ASTExpr) (s : St) :
    stOK s (lowerExprListStep ih es s).st := by
  unfold lowerExprListStep
  split
  · exact stOK_refl _
  · split
    case _ s2 heq => exact stOK_of_ih_err hih heq
    case _ s2 heq =>
      exact stOK_trans (stOK_of_ih hih heq) (hih _ s2)

theorem stOK_lowerStmtsStep (ih : EngineIH)
    (hih : ∀ job s, stOK s (ih job s).st) (sts : List ASTStmt) (s : St) :
    stOK s (lowerStmtsStep ih sts s).st := by
  unfold lowerStmtsStep
  split
  · exact stOK_refl _
  · split
    case _ s2 heq => exact stOK_of_ih_err hih heq
    case _ s2 heq =>
      exact stOK_trans (stOK_of_ih hih heq) (hih _ s2)

theorem stOK_lowerReplayStep (ih : EngineIH)
    (hih : ∀ job s, stOK s (ih job s).st) (sts : List ASTStmt) (s : St) :
    stOK s (lowerReplayStep ih sts s).st := by
  unfold lowerReplayStep
  split
  · exact stOK_refl _
  · split
    case _ s2 heq => exact stOK_of_ih_err hih heq
    case _ s2 heq =>
      exact stOK_trans (stOK_of_ih hih heq) (hih _ s2)


theorem stOK_of_ok {s0 s1 : St} {r : Res} (hr : stOK s0 r.st) (h : r = .ok s1) :
    stOK s0 s1 := by
  rw [h] at hr
  exact hr

theorem stOK_of_error {s0 s1 : St} {r : Res} (hr : stOK s0 r.st)
    (h : r = .error s1) : stOK s0 s1 := by
  rw [h] at hr
  exact hr

theorem stOK_lowerAssignPostStep (f : Nat) (ih : EngineIH)
    (hih : ∀ job s, stOK s (ih job s).st) (lhs rhs : ASTExpr) (s : St) :
    stOK s (lowerAssignPostStep f ih lhs rhs s).st := by
  unfold lowerAssignPostStep
  cases hdop : lhs.data.op
  all_goals try { dsimp only [Res.st]; exact stOK_addError _ s }
  -- VAR
  · dsimp only [Res.st]
    exact stOK_of_parts rfl (le_refl _)
  -- ARRAY_REF
  · cases hh : lhs.ops.head? with
    | none => exact stOK_refl s
    | some p0 =>
      try dsimp only
      split
      case _ s1 heq =>
        dsimp only [Res.st]
        exact stOK_FindEntityDef_pair heq
      case _ s1 arraydef heq =>
        try dsimp only
        cases hx : lhs.ops.get? 1 with
        | none =>
          dsimp only [Res.st]
          exact stOK_trans (stOK_FindEntityDef_pair heq) (stOK_Valnum s1)
        | some ixExpr =>
          try dsimp only
          split
          case _ s2 heq2 =>
            exact stOK_trans (stOK_FindEntityDef_pair heq)
              (stOK_trans (stOK_Valnum s1) (stOK_of_ih_err hih heq2))
          case _ s2 heq2 =>
            split
            case _ index_arg value heq3 heq4 =>
              dsimp only [Res.st]
              exact stOK_trans (stOK_FindEntityDef_pair heq)
                (stOK_trans (stOK_Valnum s1)
                  (stOK_trans (stOK_of_ih hih heq2) (stOK_AddIRStmt _ _ _ _)))
            case _ =>
              dsimp only [Res.st]
              exact stOK_trans (stOK_FindEntityDef_pair heq)
                (stOK_trans (stOK_Valnum s1) (stOK_of_ih hih heq2))
  -- REG_REF
  · cases hh : lhs.ops.head? with
    | none => exact stOK_refl s
    | some p0 =>
      try dsimp only
      split
      case _ s1 heq =>
        dsimp only [Res.st]
        exact stOK_FindEntityDef_pair heq
      case _ s1 regdef heq =>
        try dsimp only
        cases hg : GetIRStmt (Valnum s1).2 rhs.data.eid with
        | none =>
          dsimp only [Res.st]
          exact stOK_trans (stOK_FindEntityDef_pair heq) (stOK_Valnum s1)
        | some value =>
          dsimp only [Res.st]
          exact stOK_trans (stOK_FindEntityDef_pair heq)
            (stOK_trans (stOK_Valnum s1) (stOK_AddIRStmt _ _ _ _))
  -- FIELD_REF
  · exact stOK_refl s


theorem stOK_set_bindings (b : Bindings) (s : St) : stOK s { s with bindings := b } :=
  stOK_of_parts rfl (le_refl _)

theorem stOK_SetCurBB_bind (bb : Nat) (b : Bindings) (s : St) :
    stOK s (SetCurBB bb { s with bindings := b }) :=
  stOK_of_parts rfl (le_refl _)

theorem stOK_set_continueLog (l : List Nat) (s : St) :
    stOK s { s with continueLog := l } :=
  stOK_of_parts rfl (le_refl _)

theorem stOK_lowerStmtStep (f : Nat) (ih : EngineIH)
    (hih : ∀ job s, stOK s (ih job s).st) (st : ASTStmt) (s : St) :
    stOK s (lowerStmtStep f ih st s).st := by
  unfold lowerStmtStep
  cases st with
  | block stmts =>
    try dsimp only
    exact hih _ s
  | slet l ty rhs =>
    try dsimp only
    split
    case _ s2 heq => exact stOK_of_ih_err hih heq
    case _ s2 heq =>
      exact stOK_trans (stOK_of_ih hih heq) (stOK_ModifyASTStmtLetPost l ty rhs s2)
  | assign lhs rhs =>
    try dsimp only
    split
    case _ s2 heq => exact stOK_of_ih_err hih heq
    case _ s2 heq =>
      exact stOK_trans (stOK_of_ih hih heq) (hih _ s2)
  | sbreak lbl =>
    try dsimp only
    exact stOK_ModifyASTStmtBreakPost lbl s
  | scontinue lbl =>
    try dsimp only
    exact stOK_ModifyASTStmtContinuePost lbl s
  | write port rhs =>
    try dsimp only
    split
    case _ s2 heq => exact stOK_of_ih_err hih heq
    case _ s2 heq =>
      split
      case _ s3 heq2 =>
        exact stOK_trans (stOK_of_ih hih heq) (stOK_of_ih_err hih heq2)
      case _ s3 heq2 =>
        exact stOK_trans (stOK_of_ih hih heq)
          (stOK_trans (stOK_of_ih hih heq2) (stOK_ModifyASTStmtWritePost (f + 1) port rhs s3))
  | kill =>
    try dsimp only
    exact stOK_ModifyASTStmtKillPost s
  | killYounger =>
    try dsimp only
    split
    case _ s4 heq =>
      dsimp only [Res.st]
      refine stOK_trans ?_ (stOK_of_ih_err hih heq)
      refine stOK_trans ?_ (stOK_AddIRStmt _ _ _ _)
      exact stOK_Valnum s
    case _ s4 heq =>
      dsimp only [Res.st]
      refine stOK_trans ?_ (stOK_of_ih hih heq)
      refine stOK_trans ?_ (stOK_AddIRStmt _ _ _ _)
      exact stOK_Valnum s
  | killIf cond =>
    try dsimp only
    split
    case _ s2 heq => exact stOK_of_ih_err hih heq
    case _ s2 heq =>
      exact stOK_trans (stOK_of_ih hih heq) (stOK_ModifyASTStmtKillIfPost cond s2)
  | onKillYounger body =>
    try dsimp only
    exact stOK_updBack _ s
  | stage off =>
    try dsimp only
    exact stOK_ModifyASTStmtStagePost off s
  | timing body =>
    try dsimp only
    split
    case _ s2 heq =>
      exact stOK_of_error (stOK_ModifyASTStmtTimingPre s) heq
    case _ s2 heq =>
      split
      case _ s3 heq2 =>
        exact stOK_trans (stOK_of_ok (stOK_ModifyASTStmtTimingPre s) heq)
          (stOK_of_ih_err hih heq2)
      case _ s3 heq2 =>
        exact stOK_trans (stOK_of_ok (stOK_ModifyASTStmtTimingPre s) heq)
          (stOK_trans (stOK_of_ih hih heq2) (stOK_ModifyASTStmtTimingPost s3))
  | sexpr e =>
    try dsimp only
    exact hih _ s
  | sif cond ifB elseB =>
    try dsimp only
    split
    case _ s2 heq =>
      refine stOK_trans ?_ (stOK_of_ih_err hih heq)
      refine stOK_trans ?_ (stOK_AddBB _ _)
      exact stOK_AddBB _ _
    case _ s2 heq =>
      have hpre : stOK s s2 := by
        refine stOK_trans ?_ (stOK_of_ih hih heq)
        refine stOK_trans ?_ (stOK_AddBB _ _)
        exact stOK_AddBB _ _
      try dsimp only
      cases hg : GetIRStmt s2 cond.data.eid with
      | none => exact hpre
      | some conditional =>
        try dsimp only
        split
        case _ s3 heq2 =>
          refine stOK_trans hpre ?_
          refine stOK_trans ?_ (stOK_of_ih_err hih heq2)
          refine stOK_trans ?_ (stOK_SetCurBB_bind _ _ _)
          refine stOK_trans ?_ (stOK_AddIRStmt _ _ _ _)
          exact stOK_Valnum s2
        case _ s3 heq2 =>
          have hpre2 : stOK s s3 := by
            refine stOK_trans hpre ?_
            refine stOK_trans ?_ (stOK_of_ih hih heq2)
            refine stOK_trans ?_ (stOK_SetCurBB_bind _ _ _)
            refine stOK_trans ?_ (stOK_AddIRStmt _ _ _ _)
            exact stOK_Valnum s2
          try dsimp only
          cases elseB with
          | none =>
            try dsimp only
            refine stOK_trans hpre2 ?_
            refine stOK_trans ?_ (stOK_emitIfMergePhis _ _ _ _ _)
            refine stOK_trans ?_ (stOK_AddIRStmt _ _ _ _)
            refine stOK_trans ?_ (stOK_Valnum _)
            refine stOK_trans ?_ (stOK_AddIRStmt _ _ _ _)
            refine stOK_trans ?_ (stOK_Valnum _)
            refine stOK_trans ?_ (stOK_SetCurBB _ _)
            refine stOK_trans ?_ (stOK_AddBB _ _)
            refine stOK_trans ?_ (stOK_set_bindings _ _)
            refine stOK_trans ?_ (stOK_SetCurBB_bind _ _ _)
            exact stOK_set_bindings _ _
          | some eb =>
            try dsimp only
            split
            case _ s4 heq3 =>
              refine stOK_trans hpre2 ?_
              refine stOK_trans ?_ (stOK_of_ih_err hih heq3)
              refine stOK_trans ?_ (stOK_SetCurBB_bind _ _ _)
              exact stOK_set_bindings _ _
            case _ s4 heq3 =>
              have hpre3 : stOK s s4 := by
                refine stOK_trans hpre2 ?_
                refine stOK_trans ?_ (stOK_of_ih hih heq3)
                refine stOK_trans ?_ (stOK_SetCurBB_bind _ _ _)
                exact stOK_set_bindings _ _
              try dsimp only
              refine stOK_trans hpre3 ?_
              refine stOK_trans ?_ (stOK_emitIfMergePhis _ _ _ _ _)
              refine stOK_trans ?_ (stOK_AddIRStmt _ _ _ _)
              refine stOK_trans ?_ (stOK_Valnum _)
              refine stOK_trans ?_ (stOK_AddIRStmt _ _ _ _)
              refine stOK_trans ?_ (stOK_Valnum _)
              refine stOK_trans ?_ (stOK_SetCurBB _ _)
              refine stOK_trans ?_ (stOK_AddBB _ _)
              exact stOK_set_bindings _ _
  | swhile lbl cond body =>
    try dsimp only
    split
    case _ s2 heq =>
      refine stOK_trans ?_ (stOK_of_ih_err hih heq)
      refine stOK_trans ?_ (stOK_emitWhileHeaderPhis _ _ _)
      refine stOK_trans ?_ (stOK_SetCurBB _ _)
      refine stOK_trans ?_ (stOK_AddIRStmt _ _ _ _)
      refine stOK_trans ?_ (stOK_Valnum _)
      refine stOK_trans ?_ (stOK_updLoopFrame _ _ _)
      refine stOK_trans ?_ (stOK_AddBB _ _)
      refine stOK_trans ?_ (stOK_AddBB _ _)
      refine stOK_trans ?_ (stOK_updBack _ _)
      exact stOK_set_bindings _ _
    case _ s2 heq =>
      have hpre : stOK s s2 := by
        refine stOK_trans ?_ (stOK_of_ih hih heq)
        refine stOK_trans ?_ (stOK_emitWhileHeaderPhis _ _ _)
        refine stOK_trans ?_ (stOK_SetCurBB _ _)
        refine stOK_trans ?_ (stOK_AddIRStmt _ _ _ _)
        refine stOK_trans ?_ (stOK_Valnum _)
        refine stOK_trans ?_ (stOK_updLoopFrame _ _ _)
        refine stOK_trans ?_ (stOK_AddBB _ _)
        refine stOK_trans ?_ (stOK_AddBB _ _)
        refine stOK_trans ?_ (stOK_updBack _ _)
        exact stOK_set_bindings _ _
      try dsimp only
      cases hg : GetIRStmt s2 cond.data.eid with
      | none => exact hpre
      | some loop_cond_br_arg =>
        try dsimp only
        split
        case _ s3 heq2 =>
          refine stOK_trans hpre ?_
          refine stOK_trans ?_ (stOK_of_ih_err hih heq2)
          refine stOK_trans ?_ (stOK_SetCurBB _ _)
          refine stOK_trans ?_ (stOK_updLoopFrame _ _ _)
          refine stOK_trans ?_ (stOK_AddIRStmt _ _ _ _)
          refine stOK_trans ?_ (stOK_Valnum _)
          exact stOK_AddBB _ _
        case _ s3 heq2 =>
          have hpre2 : stOK s s3 := by
            refine stOK_trans hpre ?_
            refine stOK_trans ?_ (stOK_of_ih hih heq2)
            refine stOK_trans ?_ (stOK_SetCurBB _ _)
            refine stOK_trans ?_ (stOK_updLoopFrame _ _ _)
            refine stOK_trans ?_ (stOK_AddIRStmt _ _ _ _)
            refine stOK_trans ?_ (stOK_Valnum _)
            exact stOK_AddBB _ _
          try dsimp only
          have hmid : stOK s3 { updLoopFrame 0 (fun fr => { fr with continue_edges := mapInsertNoReplace s3.curbb (s3.bindings.overlayAt ((((backCtx (AddIRStmt s3.curbb { valnum := (Valnum s3).1, type := .IRStmtJmp, targets := [((((backCtx s3).loop_frames.head?).getD {}).header)], target_names := [bbLabel (Valnum s3).2 ((((backCtx s3).loop_frames.head?).getD {}).header)] } none (Valnum s3).2)).loop_frames.head?).getD {}).overlayDepth)) fr.continue_edges }) (AddIRStmt s3.curbb { valnum := (Valnum s3).1, type := .IRStmtJmp, targets := [((((backCtx s3).loop_frames.head?).getD {}).header)], target_names := [bbLabel (Valnum s3).2 ((((backCtx s3).loop_frames.head?).getD {}).header)] } none (Valnum s3).2) with continueLog := (updLoopFrame 0 (fun fr => { fr with continue_edges := mapInsertNoReplace s3.curbb (s3.bindings.overlayAt ((((backCtx (AddIRStmt s3.curbb { valnum := (Valnum s3).1, type := .IRStmtJmp, targets := [((((backCtx s3).loop_frames.head?).getD {}).header)], target_names := [bbLabel (Valnum s3).2 ((((backCtx s3).loop_frames.head?).getD {}).header)] } none (Valnum s3).2)).loop_frames.head?).getD {}).overlayDepth)) fr.continue_edges }) (AddIRStmt s3.curbb { valnum := (Valnum s3).1, type := .IRStmtJmp, targets := [((((backCtx s3).loop_frames.head?).getD {}).header)], target_names := [bbLabel (Valnum s3).2 ((((backCtx s3).loop_frames.head?).getD {}).header)] } none (Valnum s3).2)).continueLog ++ [s3.curbb] } := by
            refine stOK_trans ?_ (stOK_set_continueLog _ _)
            refine stOK_trans ?_ (stOK_updLoopFrame _ _ _)
            refine stOK_trans ?_ (stOK_AddIRStmt _ _ _ _)
            exact stOK_Valnum _
          split
          case _ s5 heq3 =>
            refine stOK_trans hpre2 ?_
            refine stOK_trans ?_ (stOK_of_error (stOK_AddWhileLoopPhiNodeInputs _ _ _ _) heq3)
            refine stOK_trans hmid ?_
            exact stOK_set_bindings _ _
          case _ s5 heq3 =>
            have hpre3 : stOK s s5 := by
              refine stOK_trans hpre2 ?_
              refine stOK_trans ?_ (stOK_of_ok (stOK_AddWhileLoopPhiNodeInputs _ _ _ _) heq3)
              refine stOK_trans hmid ?_
              exact stOK_set_bindings _ _
            try dsimp only
            split
            case _ s6 heq4 =>
              exact stOK_trans hpre3
                (stOK_of_error (stOK_AddWhileLoopPhiNodeInputs _ _ _ _) heq4)
            case _ s6 heq4 =>
              refine stOK_trans hpre3 ?_
              refine stOK_trans (stOK_of_ok (stOK_AddWhileLoopPhiNodeInputs _ _ _ _) heq4) ?_
              exact stOK_trans (stOK_SetCurBB _ _) (stOK_updBack _ _)


/-- The engine only grows the program and preserves the value-number
dominance invariant, for every job, at every fuel level, whether it
succeeds or stops. -/
theorem stOK_engineGo : ∀ (f : Nat) (job : EngineJob) (s : St),
    stOK s (engineGo f job s).st := by
  intro f
  induction f with
  | zero => intro job s; exact stOK_refl s
  | succ f ihf =>
    intro job s
    cases job with
    | jexpr e => exact stOK_lowerExprStep f (engineGo f) ihf e s
    | jexprs es => exact stOK_lowerExprListStep (engineGo f) ihf es s
    | jstmt st => exact stOK_lowerStmtStep f (engineGo f) ihf st s
    | jstmts sts => exact stOK_lowerStmtsStep (engineGo f) ihf sts s
    | jreplay sts => exact stOK_lowerReplayStep (engineGo f) ihf sts s
    | jassignPost lhs rhs => exact stOK_lowerAssignPostStep f (engineGo f) ihf lhs rhs s

/-- `stOK` across a whole function-definition lowering. -/
theorem stOK_ModifyASTFunctionDef (fuel : Nat) (fd : FuncDef) (s : St) :
    stOK s (ModifyASTFunctionDef fuel fd s).st := by
  unfold ModifyASTFunctionDef
  by_cases hent : fd.is_entry = true
  · rw [if_pos hent]
    try dsimp only
    split
    case _ s2 heq =>
      try dsimp only [Res.st]
      refine stOK_trans ?_ (stOK_of_error (stOK_engineGo fuel (.jstmts fd.body) _) heq)
      refine stOK_trans ?_ (stOK_SetCurBB _ _)
      refine stOK_trans ?_ (stOK_of_parts rfl (le_refl _) :
        stOK _ (AddEntry (AddBB none s).1 _))
      refine stOK_trans (stOK_AddBB none s) ?_
      constructor
      · refine ⟨le_refl _, _, [], (List.append_nil _).symm, ?_⟩
        refine forall2_map_of _ _ (fun b _ => ?_)
        split
        · exact ⟨rfl, b.stmts, [], (List.append_nil _).symm,
            forall2_refl_of stmtExt_refl _⟩
        · exact bbExt_refl b
      · intro hval bb hbb stm hstm
        have hbb2 : bb ∈ List.map (fun b => if b.id = (AddBB none s).1 then { b with label := fd.name, is_entry := true } else b) (AddBB none s).2.prog.bbs := hbb
        rw [List.mem_map] at hbb2
        obtain ⟨b0, hb0, rfl⟩ := hbb2
        have : (if b0.id = (AddBB none s).1 then { b0 with label := fd.name, is_entry := true } else b0).stmts = b0.stmts := by
          split <;> rfl
        rw [this] at hstm
        exact hval b0 hb0 stm hstm
    case _ s2 heq =>
      try dsimp only [Res.st]
      refine stOK_trans ?_ (stOK_AddIRStmt _ _ _ _)
      refine stOK_trans ?_ (stOK_Valnum _)
      refine stOK_trans ?_ (stOK_of_ok (stOK_engineGo fuel (.jstmts fd.body) _) heq)
      refine stOK_trans ?_ (stOK_SetCurBB _ _)
      refine stOK_trans ?_ (stOK_of_parts rfl (le_refl _) :
        stOK _ (AddEntry (AddBB none s).1 _))
      refine stOK_trans (stOK_AddBB none s) ?_
      constructor
      · refine ⟨le_refl _, _, [], (List.append_nil _).symm, ?_⟩
        refine forall2_map_of _ _ (fun b _ => ?_)
        split
        · exact ⟨rfl, b.stmts, [], (List.append_nil _).symm,
            forall2_refl_of stmtExt_refl _⟩
        · exact bbExt_refl b
      · intro hval bb hbb stm hstm
        have hbb2 : bb ∈ List.map (fun b => if b.id = (AddBB none s).1 then { b with label := fd.name, is_entry := true } else b) (AddBB none s).2.prog.bbs := hbb
        rw [List.mem_map] at hbb2
        obtain ⟨b0, hb0, rfl⟩ := hbb2
        have : (if b0.id = (AddBB none s).1 then { b0 with label := fd.name, is_entry := true } else b0).stmts = b0.stmts := by
          split <;> rfl
        rw [this] at hstm
        exact hval b0 hb0 stm hstm
  · rw [if_neg hent]
    exact stOK_refl s

/-- C7: after an insertion via `AddIRStmt` the program's `next_valnum`
strictly dominates every value number in the program (and, when the
inserted statement carries the freshly allocated number `next_valnum - 1`,
it equals the maximum value number in use plus one: all numbers are below
it and it is one past a number actually in use); the dominance invariant
is preserved by the whole lowering pass — every engine job at every fuel
level and every function-definition lowering, on success and on error
alike. -/
theorem claim_C7 :
    (∀ (bb : Nat) (stm : IRStmt) (ass : Option Nat) (s : St),
      validVal s → validVal (AddIRStmt bb stm ass s))
    ∧ (∀ (bb : Nat) (stm : IRStmt) (ass : Option Nat) (s : St),
      (∃ b ∈ s.prog.bbs, b.id = bb) → s.prog.next_valnum = stm.valnum + 1 →
      (AddIRStmt bb stm ass s).prog.next_valnum = stm.valnum + 1 ∧
      ∃ b ∈ (AddIRStmt bb stm ass s).prog.bbs, ∃ t ∈ b.stmts,
        t.valnum + 1 = (AddIRStmt bb stm ass s).prog.next_valnum)
    ∧ (∀ (f : Nat) (job : EngineJob) (s : St),
      validVal s → validVal (engineGo f job s).st)
    ∧ (∀ (fuel : Nat) (fd : FuncDef) (s : St),
      validVal s → validVal (ModifyASTFunctionDef fuel fd s).st) := by
  refine ⟨?_, ?_, ?_, ?_⟩
  · intro bb stm ass s hval
    exact (stOK_AddIRStmt bb stm ass s).2 hval
  · intro bb stm ass s hex hnext
    obtain ⟨b0, hb0, hid⟩ := hex
    have hge : ¬ stm.valnum ≥ s.prog.next_valnum := by omega
    constructor
    · unfold AddIRStmt
      cases ass with
      | none =>
        try dsimp only
        rw [if_neg hge]
        exact hnext
      | some e =>
        try dsimp only
        rw [if_neg hge]
        exact hnext
    · unfold AddIRStmt
      cases ass with
      | none =>
        try dsimp only
        rw [if_neg hge]
        refine ⟨{ b0 with stmts := b0.stmts ++ [stm] },
          List.mem_map.mpr ⟨b0, hb0, by rw [if_pos hid]⟩, stm,
          List.mem_append.mpr (Or.inr (List.mem_singleton.mpr rfl)), ?_⟩
        exact hnext.symm
      | some e =>
        try dsimp only
        rw [if_neg hge]
        refine ⟨{ b0 with stmts := b0.stmts ++ [stm] },
          List.mem_map.mpr ⟨b0, hb0, by rw [if_pos hid]⟩, stm,
          List.mem_append.mpr (Or.inr (List.mem_singleton.mpr rfl)), ?_⟩
        exact hnext.symm
  · intro f job s hval
    exact (stOK_engineGo f job s).2 hval
  · intro fuel fd s hval
    exact (stOK_ModifyASTFunctionDef fuel fd s).2 hval

/-- `claim_C7` at concrete input: the invariant holds of `sW` and is
carried through a concrete insertion and a concrete engine run. -/
theorem claim_C7_witness :
    validVal sW ∧
    validVal (engineGo 5 (.jstmt .kill) sW).st ∧
    ((AddIRStmt 0 { valnum := 1, type := .IRStmtKill } none sW).prog.next_valnum
        = 1 + 1 ∧
      ∃ b ∈ (AddIRStmt 0 { valnum := 1, type := .IRStmtKill } none sW).prog.bbs,
        ∃ t ∈ b.stmts, t.valnum + 1
          = (AddIRStmt 0 { valnum := 1, type := .IRStmtKill } none sW).prog.next_valnum) :=
  ⟨by unfold validVal; decide,
   claim_C7.2.2.1 5 (.jstmt .kill) sW (by unfold validVal; decide),
   claim_C7.2.1 0 { valnum := 1, type := .IRStmtKill } none sW (by decide) (by decide)⟩

/-- A by-id BB lookup transported along `Forall₂ bbExt`. -/
theorem find_forall2_bbExt : ∀ {l1 l2 : List IRBB}, List.Forall₂ bbExt l1 l2 →
    ∀ {i : Nat} {bb : IRBB}, l1.find? (fun b => b.id = i) = some bb →
    ∃ bb', l2.find? (fun b => b.id = i) = some bb' ∧ bbExt bb bb' := by
  intro l1 l2 hf
  induction hf with
  | nil =>
    intro i bb h
    simp at h
  | cons hab hrest ih =>
    rename_i a b l1' l2'
    intro i bb h
    by_cases hid : a.id = i
    · have hb : b.id = i := by rw [← hab.1]; exact hid
      rw [List.find?_cons_of_pos _ (by simpa using hid)] at h
      refine ⟨b, ?_, ?_⟩
      · rw [List.find?_cons_of_pos _ (by simpa using hb)]
      · rw [show bb = a from (Option.some_inj.mp h).symm]
        exact hab
    · have hb : ¬ b.id = i := by rw [← hab.1]; exact hid
      rw [List.find?_cons_of_neg _ (by simpa using hid)] at h
      obtain ⟨bb', hfind, hext⟩ := ih h
      refine ⟨bb', ?_, hext⟩
      rw [List.find?_cons_of_neg _ (by simpa using hb)]
      exact hfind

/-- A by-id BB lookup transported along `progExt`: the BB survives, only
grows, and its existing statements evolve per `stmtExt`. -/
theorem findBB_progExt {p q : IRProgram} (hpe : progExt p q) {i : Nat} {bb : IRBB}
    (h : findBB p i = some bb) :
    ∃ bb', findBB q i = some bb' ∧ bb.stmts.length ≤ bb'.stmts.length ∧
      ∀ j (hj : j < bb.stmts.length) (hj' : j < bb'.stmts.length),
        stmtExt (bb.stmts.get ⟨j, hj⟩) (bb'.stmts.get ⟨j, hj'⟩) := by
  obtain ⟨hn, pre, suf, hq, hf⟩ := hpe
  obtain ⟨bb', hfind, hext⟩ := find_forall2_bbExt hf h
  obtain ⟨hid, spre, ssuf, hbs, hsf⟩ := hext
  have hlen := List.Forall₂.length_eq hsf
  refine ⟨bb', ?_, ?_, ?_⟩
  · unfold findBB
    rw [hq, List.find?_append, hfind]
    rfl
  · rw [hbs, List.length_append]
    omega
  · intro j hj hj'
    have hget := (List.forall₂_iff_get.mp hsf).2 j hj (by omega)
    have hsp : j < spre.length := by omega
    have e1 : bb'.stmts.get ⟨j, hj'⟩ = spre.get ⟨j, hsp⟩ := by
      simp only [List.get_eq_getElem, hbs]
      exact List.getElem_append_left hsp
    rw [e1]
    exact hget

/-- C9: an `onkillyounger` block is only stashed (cloned onto the current
function frame, appended in registration order) with no IR emitted and no
lowering of its body; `killyounger` first appends the KillYounger IR
statement to the current BB and only then replays the stashed blocks, so
everything they emit lands after it — in the final state the current BB
holds its old statements, then the KillYounger statement, then the
replay's output; concretely,
`entry f { onkillyounger { 7; } onkillyounger { 9; } killyounger; }`
produces KillYounger, then the value-7 expression, then the value-9
expression (registration order), then Done. -/
theorem claim_C9 :
    (∀ (f : Nat) (body : ASTStmt) (s : St),
      engineGo (f + 1) (.jstmt (.onKillYounger body)) s
        = .ok (updBack (fun c =>
            { c with onkillyoungers := c.onkillyoungers ++ [body] }) s))
    ∧ (∀ (f : Nat) (s : St) (cbb : IRBB), findBB s.prog s.curbb = some cbb →
      ∃ sF, engineGo (f + 1) (.jstmt .killYounger) s = .ok sF ∧
        ∃ cbb', findBB sF.prog s.curbb = some cbb' ∧
          cbb.stmts.length + 1 ≤ cbb'.stmts.length ∧
          (∀ j (hj : j < cbb.stmts.length) (hj' : j < cbb'.stmts.length),
            stmtExt (cbb.stmts.get ⟨j, hj⟩) (cbb'.stmts.get ⟨j, hj'⟩)) ∧
          ∀ (hk : cbb.stmts.length < cbb'.stmts.length),
            cbb'.stmts.get ⟨cbb.stmts.length, hk⟩
              = { valnum := s.prog.next_valnum, type := .IRStmtKillYounger })
    ∧ (bbStmts killYoungerRun 0).map (fun t => (t.type, t.constant))
        = [(.IRStmtKillYounger, 0), (.IRStmtExpr, 7), (.IRStmtExpr, 9),
           (.IRStmtDone, 0)]
    ∧ killYoungerRun.errors = [] := by
  refine ⟨fun f body s => rfl, ?_, by decide, by decide⟩
  intro f s cbb hmb
  set ky : IRStmt := { valnum := s.prog.next_valnum, type := .IRStmtKillYounger } with hky
  set s1 : St := AddIRStmt s.curbb ky none
    { s with prog := { s.prog with next_valnum := s.prog.next_valnum + 1 } } with hs1
  have hvk : ¬ ky.valnum ≥ s.prog.next_valnum + 1 := by
    show ¬ s.prog.next_valnum ≥ s.prog.next_valnum + 1
    omega
  have hfind1 : findBB s1.prog s.curbb
      = some { cbb with stmts := cbb.stmts ++ [ky] } := by
    have hpr : s1.prog = pushStmtToBB s.curbb ky
        { s.prog with next_valnum := s.prog.next_valnum + 1 } := by
      rw [hs1]
      unfold AddIRStmt
      dsimp only
      rw [if_neg hvk]
    rw [hpr, findBB_pushStmtToBB]
    rw [show findBB { s.prog with next_valnum := s.prog.next_valnum + 1 } s.curbb
        = findBB s.prog s.curbb from rfl, hmb]
    rfl
  have hunf : engineGo (f + 1) (.jstmt .killYounger) s
      = (match engineGo f (.jreplay (backCtx s1).onkillyoungers) s1 with
         | .error s => (.ok s : Res)
         | .ok s => .ok s) := rfl
  have main : ∀ (sF : St), stOK s1 sF →
      engineGo (f + 1) (.jstmt .killYounger) s = .ok sF →
      ∃ sF2, engineGo (f + 1) (.jstmt .killYounger) s = .ok sF2 ∧
        ∃ cbb', findBB sF2.prog s.curbb = some cbb' ∧
          cbb.stmts.length + 1 ≤ cbb'.stmts.length ∧
          (∀ j (hj : j < cbb.stmts.length) (hj' : j < cbb'.stmts.length),
            stmtExt (cbb.stmts.get ⟨j, hj⟩) (cbb'.stmts.get ⟨j, hj'⟩)) ∧
          ∀ (hk : cbb.stmts.length < cbb'.stmts.length),
            cbb'.stmts.get ⟨cbb.stmts.length, hk⟩
              = { valnum := s.prog.next_valnum, type := .IRStmtKillYounger } := by
    intro sF hOK hrun
    obtain ⟨cbb', hfind', hlen, hidx⟩ := findBB_progExt hOK.1 hfind1
    have hlen2 : cbb.stmts.length + 1 ≤ cbb'.stmts.length := by
      have := hlen
      simp only [List.length_append, List.length_cons, List.length_nil] at this
      omega
    refine ⟨sF, hrun, cbb', hfind', hlen2, ?_, ?_⟩
    · intro j hj hj'
      have hjb : j < ({ cbb with stmts := cbb.stmts ++ [ky] } : IRBB).stmts.length := by
        show j < (cbb.stmts ++ [ky]).length
        simp only [List.length_append, List.length_cons, List.length_nil]
        omega
      have h2 := hidx j hjb hj'
      have e1 : ({ cbb with stmts := cbb.stmts ++ [ky] } : IRBB).stmts.get ⟨j, hjb⟩
          = cbb.stmts.get ⟨j, hj⟩ := by
        show (cbb.stmts ++ [ky]).get ⟨j, hjb⟩ = cbb.stmts.get ⟨j, hj⟩
        rw [List.get_eq_getElem, List.get_eq_getElem]
        exact List.getElem_append_left hj
      rw [e1] at h2
      exact h2
    · intro hk
      have hjb : cbb.stmts.length
          < ({ cbb with stmts := cbb.stmts ++ [ky] } : IRBB).stmts.length := by
        show cbb.stmts.length < (cbb.stmts ++ [ky]).length
        simp only [List.length_append, List.length_cons, List.length_nil]
        omega
      have h2 := hidx cbb.stmts.length hjb hk
      have e1 : ({ cbb with stmts := cbb.stmts ++ [ky] } : IRBB).stmts.get
          ⟨cbb.stmts.length, hjb⟩ = ky := by
        show (cbb.stmts ++ [ky]).get ⟨cbb.stmts.length, hjb⟩ = ky
        rw [List.get_eq_getElem, List.getElem_append_right (le_refl _)]
        simp
      rw [e1] at h2
      exact (h2.2.2 (by intro hph; exact IRStmtType.noConfusion hph)).symm
  cases hr : engineGo f (.jreplay (backCtx s1).onkillyoungers) s1 with
  | error sF =>
    have hOK : stOK s1 sF := by
      have h2 := stOK_engineGo f (.jreplay (backCtx s1).onkillyoungers) s1
      rw [hr] at h2
      exact h2
    exact main sF hOK (by rw [hunf, hr])
  | ok sF =>
    have hOK : stOK s1 sF := by
      have h2 := stOK_engineGo f (.jreplay (backCtx s1).onkillyoungers) s1
      rw [hr] at h2
      exact h2
    exact main sF hOK (by rw [hunf, hr])

/-- The KillYounger part of `claim_C9` at concrete input: lowering
`killyounger` in `sW` appends the KillYounger statement right after BB 0's
existing statement. -/
theorem claim_C9_witness :
    findBB sW.prog sW.curbb = some bb0W ∧
    (∃ sF, engineGo (4 + 1) (.jstmt .killYounger) sW = .ok sF ∧
      ∃ cbb', findBB sF.prog sW.curbb = some cbb' ∧
        bb0W.stmts.length + 1 ≤ cbb'.stmts.length ∧
        (∀ j (hj : j < bb0W.stmts.length) (hj' : j < cbb'.stmts.length),
          stmtExt (bb0W.stmts.get ⟨j, hj⟩) (cbb'.stmts.get ⟨j, hj'⟩)) ∧
        ∀ (hk : bb0W.stmts.length < cbb'.stmts.length),
          cbb'.stmts.get ⟨bb0W.stmts.length, hk⟩
            = { valnum := sW.prog.next_valnum, type := .IRStmtKillYounger }) :=
  ⟨by decide, claim_C9.2.1 4 sW bb0W (by decide)⟩

/-- Lookup after an insertion at the same key. -/
theorem mapLookup_mapInsert_self {α : Type} (k : Nat) (v : α) (m : List (Nat × α)) :
    mapLookup k (mapInsert k v m) = some v := by
  induction m with
  | nil => simp [mapInsert, mapLookup]
  | cons kv rest ih =>
    rcases kv with ⟨k1, v1⟩
    unfold mapInsert
    by_cases h1 : k < k1
    · rw [if_pos h1]
      unfold mapLookup
      rw [if_pos rfl]
    · rw [if_neg h1]
      by_cases h2 : k = k1
      · rw [if_pos h2]
        unfold mapLookup
        rw [if_pos rfl]
      · rw [if_neg h2]
        unfold mapLookup
        rw [if_neg h2]
        exact ih

/-- Setting one let does not change another let's binding. -/
theorem Bindings.get_set_ne (b : Bindings) (k k1 : Nat) (e : ASTExpr)
    (h : ¬ k = k1) : (b.set k1 e).get k = b.get k := by
  cases b with
  | nil =>
    show Bindings.get ([[(k1, e)]] : Bindings) k = Bindings.get ([] : Bindings) k
    unfold Bindings.get
    rw [List.findSome?_cons]
    rw [List.find?_cons_of_neg _ (by simpa using fun hh => h hh.symm)]
    rfl
  | cons top rest =>
    show Bindings.get ((((k1, e) :: top) :: rest : List (List (Nat × ASTExpr))) : Bindings) k
      = Bindings.get ((top :: rest : List (List (Nat × ASTExpr))) : Bindings) k
    unfold Bindings.get
    rw [List.findSome?_cons, List.findSome?_cons]
    rw [List.find?_cons_of_neg _ (by simpa using fun hh => h hh.symm)]

/-- `find?` by value number commutes with a valnum-preserving map. -/
theorem find_map_invariant (l : List IRStmt) (g : IRStmt → IRStmt)
    (hg : ∀ st, (g st).valnum = st.valnum) (u : Nat) :
    (l.map g).find? (fun st => st.valnum = u)
      = (l.find? (fun st => st.valnum = u)).map g := by
  induction l with
  | nil => rfl
  | cons st rest ih =>
    by_cases hu : st.valnum = u
    · rw [List.map_cons,
        List.find?_cons_of_pos _ (by simp [hg, hu]),
        List.find?_cons_of_pos _ (by simp [hu])]
      rfl
    · rw [List.map_cons,
        List.find?_cons_of_neg _ (by simp [hg, hu]),
        List.find?_cons_of_neg _ (by simp [hu])]
      exact ih

/-- Statement lookup commutes with a per-statement valnum-preserving map
over every BB. -/
theorem findSome_find_map (l : List IRBB) (g : IRStmt → IRStmt)
    (hg : ∀ st, (g st).valnum = st.valnum) (u : Nat) :
    (l.map (fun b => { b with stmts := b.stmts.map g })).findSome?
        (fun bb => bb.stmts.find? (fun st => st.valnum = u))
      = (l.findSome? (fun bb => bb.stmts.find? (fun st => st.valnum = u))).map g := by
  induction l with
  | nil => rfl
  | cons bb rest ih =>
    rw [List.map_cons, List.findSome?_cons, List.findSome?_cons]
    have hhead : ({ bb with stmts := bb.stmts.map g } : IRBB).stmts.find?
        (fun st => st.valnum = u)
        = (bb.stmts.find? (fun st => st.valnum = u)).map g :=
      find_map_invariant bb.stmts g hg u
    rw [hhead]
    cases bb.stmts.find? (fun st => st.valnum = u) with
    | none => exact ih
    | some st => rfl

/-- Effect of `appendPhiInput` on a statement lookup: the found statement
is the old one, modified in place exactly when it is the targeted phi. -/
theorem findStmtByValnum_appendPhiInput (p : IRProgram) (v a t : Nat)
    (nm : String) (w u : Nat) :
    findStmtByValnum (appendPhiInput v a t nm w p) u
      = (findStmtByValnum p u).map (fun st =>
          if st.valnum = v ∧ st.type = .IRStmtPhi then
            { st with args := st.args ++ [a], arg_nums := st.arg_nums ++ [a],
                      targets := st.targets ++ [t],
                      target_names := st.target_names ++ [nm], width := w }
          else st) := by
  unfold findStmtByValnum appendPhiInput
  exact findSome_find_map p.bbs _ (fun st => by split <;> rfl) u

/-- Membership in a no-replace insertion. -/
theorem mem_mapInsertNoReplace {α : Type} (k : Nat) (v : α)
    (m : List (Nat × α)) (x : Nat × α) (h : x ∈ mapInsertNoReplace k v m) :
    x = (k, v) ∨ x ∈ m := by
  induction m with
  | nil =>
    unfold mapInsertNoReplace at h
    rw [List.mem_singleton] at h
    exact Or.inl h
  | cons kv rest ih =>
    rcases kv with ⟨k1, v1⟩
    unfold mapInsertNoReplace at h
    by_cases h1 : k < k1
    · rw [if_pos h1] at h
      rcases List.mem_cons.mp h with h3 | h3
      · exact Or.inl h3
      · exact Or.inr h3
    · rw [if_neg h1] at h
      by_cases h2 : k = k1
      · rw [if_pos h2] at h
        exact Or.inr h
      · rw [if_neg h2] at h
        rcases List.mem_cons.mp h with h3 | h3
        · exact Or.inr (by rw [h3]; exact List.mem_cons_self _ _)
        · rcases ih h3 with h4 | h4
          · exact Or.inl h4
          · exact Or.inr (List.mem_cons_of_mem _ h4)

/-- `std::map::insert` keeps the map sorted by key: the ascending-key
iteration order of the continue/break edge maps. -/
theorem mapInsertNoReplace_sorted {α : Type} (k : Nat) (v : α)
    (m : List (Nat × α)) (h : m.Pairwise (fun x y => x.1 < y.1)) :
    (mapInsertNoReplace k v m).Pairwise (fun x y => x.1 < y.1) := by
  induction m with
  | nil => simp [mapInsertNoReplace]
  | cons kv rest ih =>
    rcases kv with ⟨k1, v1⟩
    rw [List.pairwise_cons] at h
    unfold mapInsertNoReplace
    by_cases h1 : k < k1
    · rw [if_pos h1]
      rw [List.pairwise_cons]
      constructor
      · intro x hx
        rcases List.mem_cons.mp hx with h3 | h3
        · rw [h3]
          exact h1
        · have := h.1 x h3
          omega
      · rw [List.pairwise_cons]
        exact ⟨h.1, h.2⟩
    · rw [if_neg h1]
      by_cases h2 : k = k1
      · rw [if_pos h2]
        rw [List.pairwise_cons]
        exact ⟨h.1, h.2⟩
      · rw [if_neg h2]
        rw [List.pairwise_cons]
        constructor
        · intro x hx
          rcases mem_mapInsertNoReplace k v rest x hx with h3 | h3
          · rw [h3]
            omega
          · exact h.1 x h3
        · exact ih h.2

/-- List level: a fresh-numbered statement pushed to an existing BB is
found by its value number afterwards. -/
theorem findSome_push_new (l : List IRBB) (i : Nat) (phi : IRStmt)
    (hfresh : ∀ bb ∈ l, ∀ st ∈ bb.stmts, ¬ st.valnum = phi.valnum)
    (b0 : IRBB) (hb0 : b0 ∈ l) (hid : b0.id = i) :
    (l.map (fun b => if b.id = i then { b with stmts := b.stmts ++ [phi] } else b)).findSome?
      (fun bb => bb.stmts.find? (fun st => st.valnum = phi.valnum)) = some phi := by
  induction l with
  | nil => simp at hb0
  | cons bb rest ih =>
    rw [List.map_cons, List.findSome?_cons]
    have hnone : bb.stmts.find? (fun st => st.valnum = phi.valnum) = none := by
      rw [List.find?_eq_none]
      intro st hst
      simpa using hfresh bb (List.mem_cons_self _ _) st hst
    by_cases hi : bb.id = i
    · rw [if_pos hi]
      have : ({ bb with stmts := bb.stmts ++ [phi] } : IRBB).stmts.find?
          (fun st => st.valnum = phi.valnum) = some phi := by
        show (bb.stmts ++ [phi]).find? (fun st => st.valnum = phi.valnum) = some phi
        rw [List.find?_append, hnone]
        simp
      rw [this]
    · rw [if_neg hi]
      rw [hnone]
      rcases List.mem_cons.mp hb0 with h3 | h3
      · exact absurd (h3 ▸ hid) hi
      · exact ih (fun b hb st hst => hfresh b (List.mem_cons_of_mem _ hb) st hst) h3

/-- A fresh-numbered statement pushed to an existing BB is found by its
value number afterwards. -/
theorem findStmtByValnum_push_new (p : IRProgram) (i : Nat) (phi : IRStmt)
    (hfresh : ∀ bb ∈ p.bbs, ∀ st ∈ bb.stmts, ¬ st.valnum = phi.valnum)
    (hbb : ∃ b ∈ p.bbs, b.id = i) :
    findStmtByValnum (pushStmtToBB i phi p) phi.valnum = some phi := by
  obtain ⟨b0, hb0, hid⟩ := hbb
  unfold findStmtByValnum pushStmtToBB
  exact findSome_push_new p.bbs i phi hfresh b0 hb0 hid

/-- Setting a let makes it the current binding. -/
theorem Bindings.get_set_self (b : Bindings) (k : Nat) (e : ASTExpr) :
    (b.set k e).get k = some e := by
  cases b with
  | nil =>
    show Bindings.get ([[(k, e)]] : List (List (Nat × ASTExpr))) k = some e
    unfold Bindings.get
    rw [List.findSome?_cons, List.find?_cons_of_pos _ (by simp)]
    rfl
  | cons top rest =>
    show Bindings.get (((k, e) :: top) :: rest : List (List (Nat × ASTExpr))) k = some e
    unfold Bindings.get
    rw [List.findSome?_cons, List.find?_cons_of_pos _ (by simp)]
    rfl

/-- A successful BB lookup is a member with the looked-up id. -/
theorem findBB_some_mem (p : IRProgram) (i : Nat) (bb : IRBB)
    (h : findBB p i = some bb) : bb ∈ p.bbs ∧ bb.id = i := by
  unfold findBB at h
  refine ⟨List.mem_of_find?_eq_some h, ?_⟩
  have := List.find?_some h
  simpa using this

/-- Membership in an ordered-set insertion. -/
theorem mem_setInsert (k : Nat) (l : List Nat) (x : Nat)
    (h : x ∈ setInsert k l) : x = k ∨ x ∈ l := by
  induction l with
  | nil =>
    unfold setInsert at h
    rw [List.mem_singleton] at h
    exact Or.inl h
  | cons k1 rest ih =>
    unfold setInsert at h
    by_cases h1 : k < k1
    · rw [if_pos h1] at h
      rcases List.mem_cons.mp h with h3 | h3
      · exact Or.inl h3
      · exact Or.inr h3
    · rw [if_neg h1] at h
      by_cases h2 : k = k1
      · rw [if_pos h2] at h
        exact Or.inr h
      · rw [if_neg h2] at h
        rcases List.mem_cons.mp h with h3 | h3
        · exact Or.inr (by rw [h3]; exact List.mem_cons_self _ _)
        · rcases ih h3 with h4 | h4
          · exact Or.inl h4
          · exact Or.inr (List.mem_cons_of_mem _ h4)

/-- `std::set` insertion keeps the key list strictly ascending. -/
theorem setInsert_sorted (k : Nat) (l : List Nat)
    (h : l.Pairwise (fun x y => x < y)) :
    (setInsert k l).Pairwise (fun x y => x < y) := by
  induction l with
  | nil => simp [setInsert]
  | cons k1 rest ih =>
    rw [List.pairwise_cons] at h
    unfold setInsert
    by_cases h1 : k < k1
    · rw [if_pos h1]
      rw [List.pairwise_cons]
      constructor
      · intro x hx
        rcases List.mem_cons.mp hx with h3 | h3
        · rw [h3]
          exact h1
        · have := h.1 x h3
          omega
      · rw [List.pairwise_cons]
        exact ⟨h.1, h.2⟩
    · rw [if_neg h1]
      by_cases h2 : k = k1
      · rw [if_pos h2]
        rw [List.pairwise_cons]
        exact ⟨h.1, h.2⟩
      · rw [if_neg h2]
        rw [List.pairwise_cons]
        constructor
        · intro x hx
          rcases mem_setInsert k rest x hx with h3 | h3
          · rw [h3]
            omega
          · exact h.1 x h3
        · exact ih h.2

/-- The visible-let key list (`std::set` iteration) is strictly
ascending, hence duplicate-free. -/
theorem keys_sorted (b : Bindings) :
    (Bindings.keys b).Pairwise (fun x y => x < y) := by
  have inner : ∀ (lvl : List (Nat × ASTExpr)) (acc : List Nat),
      acc.Pairwise (fun x y => x < y) →
      (lvl.foldr (fun kv a => setInsert kv.1 a) acc).Pairwise (fun x y => x < y) := by
    intro lvl
    induction lvl with
    | nil => intro acc h; exact h
    | cons kv rest ih =>
      intro acc h
      exact setInsert_sorted kv.1 _ (ih acc h)
  show (b.foldr (fun lvl acc => lvl.foldr (fun kv a => setInsert kv.1 a) acc) []).Pairwise _
  induction b with
  | nil => simp
  | cons lvl rest ih => exact inner lvl _ ih

theorem keys_nodup (b : Bindings) : (Bindings.keys b).Nodup :=
  (keys_sorted b).imp (fun h => Nat.ne_of_lt h)

/-- The header-phi pre-emission loop: on a state with the value-number
invariant and expression-id freshness for every visible binding, each
processed let whose current binding has an IR producer gets exactly one
fresh phi, recorded in the returned `binding_phis`, whose single argument
is the binding's IR value and whose single predecessor target is `in_bb`;
the phis are appended to the header BB, existing statements survive, and
other `binding_phis` entries are untouched. -/
theorem emitWhileHeaderPhisGo_spec (in_bb header : Nat) :
    ∀ (ks : List Nat) (sA : St) (bpA : List (Nat × Nat)) (hbbA : IRBB),
    ks.Nodup →
    validVal sA →
    (∀ l b, Bindings.get sA.bindings l = some b → b.data.eid < sA.nextExprId) →
    findBB sA.prog header = some hbbA →
    ∃ sF bpF,
      emitWhileHeaderPhisGo in_bb header ks (sA, bpA) = (sF, bpF) ∧
      (∀ l1, ¬ l1 ∈ ks → mapLookup l1 bpF = mapLookup l1 bpA) ∧
      (∀ w st0, findStmtByValnum sA.prog w = some st0 →
        findStmtByValnum sF.prog w = some st0) ∧
      (∀ l ∈ ks, ∀ b ir, Bindings.get sA.bindings l = some b →
        GetIRStmt sA b.data.eid = some ir →
        ∃ v phi1, mapLookup l bpF = some v ∧
          findStmtByValnum sF.prog v = some phi1 ∧
          phi1.type = .IRStmtPhi ∧ phi1.args = [ir.valnum] ∧
          phi1.targets = [in_bb] ∧ phi1.width = ir.width) ∧
      (∃ tl, bbStmts sF header = hbbA.stmts ++ tl) := by
  intro ks
  induction ks with
  | nil =>
    intro sA bpA hbbA hnd hval hfr hfind
    refine ⟨sA, bpA, rfl, fun l1 _ => rfl, fun w st0 h => h, ?_, [], ?_⟩
    · intro l hl
      simp at hl
    · simp [bbStmts, hfind]
  | cons l rest ih =>
    intro sA bpA hbbA hnd hval hfr hfind
    rw [List.nodup_cons] at hnd
    unfold emitWhileHeaderPhisGo
    dsimp only
    cases hget : Bindings.get sA.bindings l with
    | none =>
      have hcond : ¬ (Bindings.has sA.bindings l = true) := by
        unfold Bindings.has
        rw [hget]
        simp
      rw [if_neg hcond]
      obtain ⟨sF, bpF, hrun, hbp, hpers, hmain, htl⟩ :=
        ih sA bpA hbbA hnd.2 hval hfr hfind
      refine ⟨sF, bpF, hrun, ?_, hpers, ?_, htl⟩
      · intro l1 hl1
        exact hbp l1 (fun h => hl1 (List.mem_cons_of_mem _ h))
      · intro l2 hl2 b ir hgb hgir
        rcases List.mem_cons.mp hl2 with h3 | h3
        · subst h3
          rw [hget] at hgb
          exact absurd hgb (by simp)
        · exact hmain l2 h3 b ir hgb hgir
    | some b0 =>
      have hcond : Bindings.has sA.bindings l = true := by
        unfold Bindings.has
        rw [hget]
        rfl
      rw [if_pos hcond]
      dsimp only
      cases hgir : GetIRStmt sA b0.data.eid with
      | none =>
        obtain ⟨sF, bpF, hrun, hbp, hpers, hmain, htl⟩ :=
          ih sA bpA hbbA hnd.2 hval hfr hfind
        refine ⟨sF, bpF, hrun, ?_, hpers, ?_, htl⟩
        · intro l1 hl1
          exact hbp l1 (fun h => hl1 (List.mem_cons_of_mem _ h))
        · intro l2 hl2 b ir hgb hgir2
          rcases List.mem_cons.mp hl2 with h3 | h3
          · subst h3
            have hb : b = b0 := by
              rw [hget] at hgb
              exact (Option.some_inj.mp hgb).symm
            subst hb
            rw [hgir] at hgir2
            exact absurd hgir2 (by simp)
          · exact hmain l2 h3 b ir hgb hgir2
      | some ir0 =>
        dsimp only
        set phiT : IRStmt :=
          { valnum := (Valnum sA).1, type := .IRStmtPhi, width := ir0.width,
            targets := [in_bb], target_names := [bbLabel (Valnum sA).2 in_bb],
            args := [ir0.valnum], arg_nums := [ir0.valnum] } with hphiT
        set plE : ASTExpr := .mk { eid := sA.nextExprId, op := .NOP } [] [] with hplE
        set sMid : St := AddIRStmt header phiT (some (Valnum sA).2.nextExprId)
          { (Valnum sA).2 with nextExprId := (Valnum sA).2.nextExprId + 1 } with hsMid
        set s4 : St := { sMid with bindings := sMid.bindings.set l plE } with hs4
        have hs4prog : s4.prog = pushStmtToBB header phiT
            { sA.prog with next_valnum := sA.prog.next_valnum + 1 } := by
          rw [hs4, hsMid]
          unfold AddIRStmt
          dsimp only
          rw [if_neg (show ¬ phiT.valnum ≥ (Valnum sA).2.prog.next_valnum from
            show ¬ sA.prog.next_valnum ≥ sA.prog.next_valnum + 1 by omega)]
          rfl
        have hpers1 : ∀ w st0, findStmtByValnum sA.prog w = some st0 →
            findStmtByValnum s4.prog w = some st0 := by
          intro w st0 h
          have hw : w < sA.prog.next_valnum := by
            obtain ⟨bbx, hbx, hmem, hvn⟩ := findStmtByValnum_mem sA.prog w st0 h
            exact hvn ▸ hval bbx hbx st0 hmem
          rw [hs4prog]
          exact findSome_push_stable sA.prog.bbs header phiT w st0 h
            (show ¬ sA.prog.next_valnum = w by omega)
        have hnew : findStmtByValnum s4.prog (Valnum sA).1 = some phiT := by
          rw [hs4prog]
          have hmem := findBB_some_mem sA.prog header hbbA hfind
          exact findStmtByValnum_push_new _ header phiT
            (fun bb hbb st hst => show ¬ st.valnum = sA.prog.next_valnum from by
              have := hval bb hbb st hst
              omega)
            ⟨hbbA, hmem.1, hmem.2⟩
        have hfind4 : findBB s4.prog header
            = some { hbbA with stmts := hbbA.stmts ++ [phiT] } := by
          rw [hs4prog, findBB_pushStmtToBB]
          rw [show findBB { sA.prog with next_valnum := sA.prog.next_valnum + 1 } header
              = findBB sA.prog header from rfl, hfind]
          rfl
        have hval4 : validVal s4 := by
          have hchain : stOK sA s4 := by
            refine stOK_trans (stOK_Valnum sA) ?_
            refine stOK_trans (stOK_of_parts rfl (le_refl _) :
              stOK (Valnum sA).2
                { (Valnum sA).2 with nextExprId := (Valnum sA).2.nextExprId + 1 }) ?_
            exact stOK_addIR_bind _ _ _ _ _ _
          exact hchain.2 hval
        have hfr4 : ∀ l1 b, Bindings.get s4.bindings l1 = some b →
            b.data.eid < s4.nextExprId := by
          intro l1 b hb
          by_cases hl1 : l1 = l
          · subst hl1
            rw [show s4.bindings = sMid.bindings.set l1 plE from rfl,
              Bindings.get_set_self] at hb
            rw [show b = plE from (Option.some_inj.mp hb).symm]
            show sA.nextExprId < sA.nextExprId + 1
            omega
          · have he := Bindings.get_set_ne sMid.bindings l1 l plE hl1
            rw [show s4.bindings = sMid.bindings.set l plE from rfl, he] at hb
            have h5 : Bindings.get sA.bindings l1 = some b := hb
            have := hfr l1 b h5
            show b.data.eid < sA.nextExprId + 1
            omega
        have hstab : ∀ e, e < sA.nextExprId → ∀ st0,
            GetIRStmt sA e = some st0 → GetIRStmt s4 e = some st0 := by
          intro e he st0 h
          unfold GetIRStmt at h ⊢
          rw [show s4.exprToIR
              = mapInsert sA.nextExprId (Valnum sA).1 sA.exprToIR from rfl]
          rw [mapLookup_mapInsert_ne e sA.nextExprId _ _ (by omega)]
          cases hml : mapLookup e sA.exprToIR with
          | none =>
            rw [hml] at h
            simp at h
          | some w =>
            rw [hml] at h
            simp only [Option.some_bind] at h ⊢
            exact hpers1 w st0 h
        obtain ⟨sF, bpF, hrun, hbp, hpers, hmain, htl⟩ :=
          ih s4 (mapInsert l (Valnum sA).1 bpA)
            { hbbA with stmts := hbbA.stmts ++ [phiT] } hnd.2 hval4 hfr4 hfind4
        refine ⟨sF, bpF, hrun, ?_, ?_, ?_, ?_⟩
        · intro l1 hl1
          rw [hbp l1 (fun h => hl1 (List.mem_cons_of_mem _ h))]
          exact mapLookup_mapInsert_ne l1 l _ _
            (fun h => hl1 (h ▸ List.mem_cons_self _ _))
        · intro w st0 h
          exact hpers w st0 (hpers1 w st0 h)
        · intro l2 hl2 b ir hgb hgir2
          rcases List.mem_cons.mp hl2 with h3 | h3
          · subst h3
            have hb : b = b0 := by
              rw [hget] at hgb
              exact (Option.some_inj.mp hgb).symm
            subst hb
            have hir : ir = ir0 := by
              rw [hgir] at hgir2
              exact (Option.some_inj.mp hgir2).symm
            subst hir
            refine ⟨(Valnum sA).1, phiT, ?_, hpers _ phiT hnew, rfl, rfl, rfl, rfl⟩
            rw [hbp l2 hnd.1]
            exact mapLookup_mapInsert_self l2 _ bpA
          · have hne : ¬ l2 = l := fun h => hnd.1 (h ▸ h3)
            have he := Bindings.get_set_ne sMid.bindings l2 l plE hne
            have hgb4 : Bindings.get s4.bindings l2 = some b := he.trans hgb
            have hgir4 : GetIRStmt s4 b.data.eid = some ir :=
              hstab b.data.eid (hfr l2 b hgb) ir hgir2
            exact hmain l2 h3 b ir hgb4 hgir4
        · obtain ⟨tl, htl2⟩ := htl
          refine ⟨phiT :: tl, ?_⟩
          rw [htl2]
          simp

/-- The phi-input append loop (codegen.cc:951–961): the contributor
argument/target pairs are appended to the phi in exactly the order of the
input lists. -/
theorem appendPhiContribs_spec :
    ∀ (exprs : List ASTExpr) (in_bbs : List Nat) (s : St) (v : Nat) (phi : IRStmt),
    findStmtByValnum s.prog v = some phi → phi.type = .IRStmtPhi →
    (∀ p ∈ exprs.zip in_bbs, (GetIRStmt s p.1.data.eid).isSome = true) →
    ∃ s1, appendPhiContribs v exprs in_bbs s = .ok s1 ∧
      ∃ phi1, findStmtByValnum s1.prog v = some phi1 ∧
        phi1.type = .IRStmtPhi ∧
        phi1.targets = phi.targets ++ (exprs.zip in_bbs).map (fun p => p.2) ∧
        phi1.args = phi.args ++ (exprs.zip in_bbs).map
          (fun p => ((GetIRStmt s p.1.data.eid).map (fun ir => ir.valnum)).getD 0) := by
  intro exprs
  induction exprs with
  | nil =>
    intro in_bbs s v phi hfind hty hsome
    exact ⟨s, rfl, phi, hfind, hty, by simp, by simp⟩
  | cons e es ihe =>
    intro in_bbs s v phi hfind hty hsome
    cases in_bbs with
    | nil => exact ⟨s, rfl, phi, hfind, hty, by simp, by simp⟩
    | cons b bs =>
      have hv : phi.valnum = v := by
        obtain ⟨bbx, hbx, hmem, hvn⟩ := findStmtByValnum_mem s.prog v phi hfind
        exact hvn
      have hhead := hsome (e, b) (by rw [List.zip_cons_cons]; exact List.mem_cons_self _ _)
      obtain ⟨in_val, hin⟩ := Option.isSome_iff_exists.mp hhead
      have hstep : appendPhiContribs v (e :: es) (b :: bs) s
          = appendPhiContribs v es bs { s with prog := appendPhiInput v in_val.valnum b (bbLabel s b) in_val.width s.prog } := by
        unfold appendPhiContribs
        rw [List.zip_cons_cons, List.foldl_cons]
        dsimp only
        rw [hin]
      set g : IRStmt → IRStmt := fun st =>
        if st.valnum = v ∧ st.type = .IRStmtPhi then
          { st with args := st.args ++ [in_val.valnum],
                    arg_nums := st.arg_nums ++ [in_val.valnum],
                    targets := st.targets ++ [b],
                    target_names := st.target_names ++ [bbLabel s b],
                    width := in_val.width }
        else st with hg
      set s1 : St := { s with prog := appendPhiInput v in_val.valnum b (bbLabel s b) in_val.width s.prog } with hs1
      have hGet : ∀ e1, GetIRStmt s1 e1 = (GetIRStmt s e1).map g := by
        intro e1
        unfold GetIRStmt
        rw [show s1.exprToIR = s.exprToIR from rfl]
        cases hml : mapLookup e1 s.exprToIR with
        | none => rfl
        | some w =>
          show findStmtByValnum s1.prog w = (findStmtByValnum s.prog w).map g
          rw [show s1.prog = appendPhiInput v in_val.valnum b (bbLabel s b) in_val.width s.prog from rfl]
          exact findStmtByValnum_appendPhiInput s.prog v in_val.valnum b
            (bbLabel s b) in_val.width w
      have hfind1 : findStmtByValnum s1.prog v = some (g phi) := by
        rw [show s1.prog = appendPhiInput v in_val.valnum b (bbLabel s b)
            in_val.width s.prog from rfl]
        rw [findStmtByValnum_appendPhiInput, hfind]
        rfl
      have hgphi : g phi = { phi with args := phi.args ++ [in_val.valnum], arg_nums := phi.arg_nums ++ [in_val.valnum], targets := phi.targets ++ [b], target_names := phi.target_names ++ [bbLabel s b], width := in_val.width } := by
        rw [hg]
        dsimp only
        rw [if_pos ⟨hv, hty⟩]
      have hty1 : (g phi).type = .IRStmtPhi := by
        rw [hgphi]
        exact hty
      have hsome1 : ∀ p ∈ es.zip bs, (GetIRStmt s1 p.1.data.eid).isSome = true := by
        intro p hp
        rw [hGet]
        have h6 := hsome p (by rw [List.zip_cons_cons]; exact List.mem_cons_of_mem _ hp)
        cases hx : GetIRStmt s p.1.data.eid with
        | none =>
          rw [hx] at h6
          simp at h6
        | some ir => simp
      obtain ⟨sF, hrun, phi1, hfindF, htyF, htgt, hargs⟩ :=
        ihe bs s1 v (g phi) hfind1 hty1 hsome1
      refine ⟨sF, hstep.trans hrun, phi1, hfindF, htyF, ?_, ?_⟩
      · rw [htgt, hgphi]
        rw [List.zip_cons_cons]
        simp [List.append_assoc]
      · rw [hargs, hgphi]
        have hpt : ∀ p ∈ es.zip bs,
            ((GetIRStmt s1 p.1.data.eid).map (fun ir => ir.valnum)).getD 0
              = ((GetIRStmt s p.1.data.eid).map (fun ir => ir.valnum)).getD 0 := by
          intro p hp
          rw [hGet]
          cases hx : GetIRStmt s p.1.data.eid with
          | none => rfl
          | some ir =>
            show (g ir).valnum = ir.valnum
            rw [hg]
            dsimp only
            split <;> rfl
        rw [List.map_congr_left hpt]
        rw [List.zip_cons_cons]
        simp [List.append_assoc, hin]

/-- Binding lookup in a one-entry scope map. -/
theorem bindings_get_singleton (k l : Nat) (e : ASTExpr) :
    Bindings.get [[(k, e)]] l = if k = l then some e else none := by
  unfold Bindings.get
  by_cases h : k = l
  · rw [if_pos h]
    simp [List.findSome?, List.find?, h]
  · rw [if_neg h]
    simp [List.findSome?, List.find?, h]

/-- C1, counterexample to the original claim: in `whileContinueProg` the
loop body's `continue` statements are inserted into the continue-edge map
chronologically from source BBs 8, then 5, then 11 (the ghost
`continueLog`), but the header phi's argument/target tail is [5, 8, 11] —
the map's ascending-key iteration order, not the insertion order. -/
theorem claim_C1_counterexample :
    (ModifyASTFunctionDef 60 whileContinueProg initSt).isOk = true ∧
    whileContinueRun.errors = [] ∧
    whileContinuePhiTargets = [0, 5, 8, 11] ∧
    whileContinueRun.continueLog = [8, 5, 11] ∧
    ¬ whileContinuePhiTargets.drop 1 = whileContinueRun.continueLog := by
  have h3 : whileContinuePhiTargets = [0, 5, 8, 11] := by decide
  have h4 : whileContinueRun.continueLog = [8, 5, 11] := by decide
  refine ⟨by decide, by decide, h3, h4, ?_⟩
  rw [h3, h4]
  decide

/-- C1 (amended): when lowering a while loop, every let currently in scope
whose current binding has an IR-producing statement (others are skipped)
gets a placeholder phi in the loop header BB before the body is lowered,
with single argument the pre-loop IR value and single predecessor target
`in_bb`; the phi-input loop afterwards appends the contributor
argument/target pairs in the order of the edge list it is given, and the
continue-edge `std::map` iterates in ascending source-BB-id order — so the
phi's remaining pairs follow ascending continue-source BB ids (which is
insertion order only when the continues run in BB-allocation order): in
`whileContinueProg` the tail targets are the sorted [5, 8, 11]. -/
theorem claim_C1 :
    (∀ (in_bb header : Nat) (s : St) (hbb : IRBB),
      validVal s →
      (∀ l b, Bindings.get s.bindings l = some b → b.data.eid < s.nextExprId) →
      findBB s.prog header = some hbb →
      ∃ sF bpF, emitWhileHeaderPhis in_bb header s = (sF, bpF) ∧
        (∀ l ∈ Bindings.keys s.bindings, ∀ b ir,
          Bindings.get s.bindings l = some b →
          GetIRStmt s b.data.eid = some ir →
          ∃ v phi1, mapLookup l bpF = some v ∧
            findStmtByValnum sF.prog v = some phi1 ∧
            phi1.type = .IRStmtPhi ∧ phi1.args = [ir.valnum] ∧
            phi1.targets = [in_bb] ∧ phi1.width = ir.width) ∧
        (∃ tl, bbStmts sF header = hbb.stmts ++ tl)) ∧
    (∀ (exprs : List ASTExpr) (in_bbs : List Nat) (s : St) (v : Nat) (phi : IRStmt),
      findStmtByValnum s.prog v = some phi → phi.type = .IRStmtPhi →
      (∀ p ∈ exprs.zip in_bbs, (GetIRStmt s p.1.data.eid).isSome = true) →
      ∃ s1, appendPhiContribs v exprs in_bbs s = .ok s1 ∧
        ∃ phi1, findStmtByValnum s1.prog v = some phi1 ∧
          phi1.type = .IRStmtPhi ∧
          phi1.targets = phi.targets ++ (exprs.zip in_bbs).map (fun p => p.2) ∧
          phi1.args = phi.args ++ (exprs.zip in_bbs).map
            (fun p => ((GetIRStmt s p.1.data.eid).map (fun ir => ir.valnum)).getD 0)) ∧
    (∀ (k : Nat) (v : Overlay) (m : List (Nat × Overlay)),
      m.Pairwise (fun x y => x.1 < y.1) →
      (mapInsertNoReplace k v m).Pairwise (fun x y => x.1 < y.1)) ∧
    whileContinuePhiTargets = [0, 5, 8, 11] ∧
    (whileContinuePhiTargets.drop 1).Pairwise (fun a b => a < b) := by
  have h3 : whileContinuePhiTargets = [0, 5, 8, 11] := by decide
  refine ⟨?_, appendPhiContribs_spec, ?_, h3, ?_⟩
  · intro in_bb header s hbb hval hfr hfind
    obtain ⟨sF, bpF, hrun, hbp, hpers, hmain, htl⟩ :=
      emitWhileHeaderPhisGo_spec in_bb header (Bindings.keys s.bindings) s [] hbb
        (keys_nodup _) hval hfr hfind
    exact ⟨sF, bpF, hrun, hmain, htl⟩
  · exact fun k v m h => mapInsertNoReplace_sorted k v m h
  · rw [h3]
    decide

/-- C1, witness: the general parts of the amended claim, instantiated at
concrete states — `sW3` (one visible let, bound to an expression with an
IR value) for the header pre-emission, `sWp` (one empty phi) for the
input-append loop. -/
theorem claim_C1_witness :
    validVal sW3 ∧
    findBB sW3.prog 1 = some mbbW ∧
    (∃ sF bpF, emitWhileHeaderPhis 0 1 sW3 = (sF, bpF) ∧
      (∀ l ∈ Bindings.keys sW3.bindings, ∀ b ir,
        Bindings.get sW3.bindings l = some b →
        GetIRStmt sW3 b.data.eid = some ir →
        ∃ v phi1, mapLookup l bpF = some v ∧
          findStmtByValnum sF.prog v = some phi1 ∧
          phi1.type = .IRStmtPhi ∧ phi1.args = [ir.valnum] ∧
          phi1.targets = [0] ∧ phi1.width = ir.width) ∧
      (∃ tl, bbStmts sF 1 = mbbW.stmts ++ tl)) ∧
    (∃ s1, appendPhiContribs 2 [dummyE] [0] sWp = .ok s1 ∧
      ∃ phi1, findStmtByValnum s1.prog 2 = some phi1 ∧
        phi1.type = .IRStmtPhi ∧
        phi1.targets = pW.targets ++ ([dummyE].zip [0]).map (fun p => p.2) ∧
        phi1.args = pW.args ++ ([dummyE].zip [0]).map
          (fun p => ((GetIRStmt sWp p.1.data.eid).map (fun ir => ir.valnum)).getD 0)) := by
  have hval : validVal sW3 := by
    unfold validVal
    decide
  have hfr : ∀ l b, Bindings.get sW3.bindings l = some b →
      b.data.eid < sW3.nextExprId := by
    intro l b hb
    rw [show sW3.bindings = [[(7, ASTExpr.mk { eid := 5 } [] [])]] from rfl] at hb
    rw [bindings_get_singleton] at hb
    by_cases h7 : (7 : Nat) = l
    · rw [if_pos h7] at hb
      injection hb with hb
      subst hb
      decide
    · rw [if_neg h7] at hb
      exact Option.noConfusion hb
  have hfind : findBB sW3.prog 1 = some mbbW := by decide
  have hA := claim_C1.1 0 1 sW3 mbbW hval hfr hfind
  have hB := claim_C1.2.1 [dummyE] [0] sWp 2 pW (by decide) (by decide) (by decide)
  exact ⟨hval, hfind, hA, hB⟩

theorem computeReachable_eq (p : IRProgram) :
    computeReachable p = p.bbs.foldl (perBB p.bbs) [] := rfl

theorem RemoveUnreachable_eq (p : IRProgram) :
    RemoveUnreachableBBsAndPhis p =
      { p with bbs := (p.bbs.map (phiFilterBB (computeReachable p))).filter (fun bb => bb.id ∈ computeReachable p) } := rfl

/-- The walk only appends to `vis`. -/
theorem markSuccs_mem_mono (bbs : List IRBB) :
    ∀ (pending vis : List Nat) (x : Nat), x ∈ vis → x ∈ MarkSuccs bbs pending vis := by
  intro pending vis
  induction pending, vis using MarkSuccs.induct bbs with
  | case1 vis =>
    intro x hx
    rw [MarkSuccs]
    exact hx
  | case2 vis r rest hmem ih =>
    intro x hx
    rw [MarkSuccs, if_pos hmem]
    exact ih x hx
  | case3 vis r rest hmem ih =>
    intro x hx
    rw [MarkSuccs, if_neg hmem]
    exact ih x (List.mem_append_left _ hx)

/-- Every pending root ends up visited. -/
theorem markSuccs_mem_pending (bbs : List IRBB) :
    ∀ (pending vis : List Nat) (x : Nat), x ∈ pending → x ∈ MarkSuccs bbs pending vis := by
  intro pending vis
  induction pending, vis using MarkSuccs.induct bbs with
  | case1 vis =>
    intro x hx
    exact absurd hx (List.not_mem_nil x)
  | case2 vis r rest hmem ih =>
    intro x hx
    rw [MarkSuccs, if_pos hmem]
    rcases List.mem_cons.mp hx with h | h
    · subst h
      exact markSuccs_mem_mono bbs rest vis x hmem
    · exact ih x h
  | case3 vis r rest hmem ih =>
    intro x hx
    rw [MarkSuccs, if_neg hmem]
    rcases List.mem_cons.mp hx with h | h
    · subst h
      exact markSuccs_mem_mono bbs _ _ x (List.mem_append_right _ (List.mem_singleton.mpr rfl))
    · exact ih x (List.mem_append_right _ h)

/-- The walk is insensitive to the BB list as long as the successor lists
agree on every node the walk visits. -/
theorem markSuccs_congr (bbs1 bbs2 : List IRBB) :
    ∀ (pending vis : List Nat),
    (∀ r ∈ MarkSuccs bbs1 pending vis, succsIn bbs2 r = succsIn bbs1 r) →
    MarkSuccs bbs2 pending vis = MarkSuccs bbs1 pending vis := by
  intro pending vis
  induction pending, vis using MarkSuccs.induct bbs1 with
  | case1 vis =>
    intro h
    rw [MarkSuccs, MarkSuccs]
  | case2 vis r rest hmem ih =>
    intro h
    have hrhs : MarkSuccs bbs1 (r :: rest) vis = MarkSuccs bbs1 rest vis := by
      rw [MarkSuccs, if_pos hmem]
    rw [hrhs] at h
    rw [hrhs, MarkSuccs, if_pos hmem]
    exact ih h
  | case3 vis r rest hmem ih =>
    intro h
    have hres : MarkSuccs bbs1 (r :: rest) vis
        = MarkSuccs bbs1 (succsIn bbs1 r ++ rest) (vis ++ [r]) := by
      rw [MarkSuccs, if_neg hmem]
      rfl
    rw [hres] at h
    have hr : succsIn bbs2 r = succsIn bbs1 r :=
      h r (markSuccs_mem_mono bbs1 _ _ r
        (List.mem_append_right _ (List.mem_singleton.mpr rfl)))
    rw [MarkSuccs, if_neg hmem, hres]
    rw [show (((findBBIn bbs2 r).map succsOfBB).getD []) = succsIn bbs2 r from rfl, hr]
    exact ih h

theorem spawnFold_mem_mono (bbs : List IRBB) :
    ∀ (stmts : List IRStmt) (vis : List Nat) (x : Nat),
    x ∈ vis → x ∈ spawnFold bbs stmts vis := by
  intro stmts
  induction stmts with
  | nil =>
    intro vis x hx
    exact hx
  | cons st rest ih =>
    intro vis x hx
    show x ∈ spawnFold bbs rest (if st.type = .IRStmtSpawn then MarkSuccs bbs (st.targets.take 1) vis else vis)
    by_cases hsp : st.type = .IRStmtSpawn
    · rw [if_pos hsp]
      exact ih _ x (markSuccs_mem_mono bbs _ vis x hx)
    · rw [if_neg hsp]
      exact ih _ x hx

theorem perBB_mem_mono (bbs : List IRBB) (vis : List Nat) (bb : IRBB) (x : Nat)
    (hx : x ∈ vis) : x ∈ perBB bbs vis bb := by
  unfold perBB
  by_cases he : bb.is_entry
  · rw [if_pos he]
    exact spawnFold_mem_mono bbs _ _ x (markSuccs_mem_mono bbs _ vis x hx)
  · rw [if_neg he]
    exact spawnFold_mem_mono bbs _ _ x hx

theorem foldl_perBB_mem_mono (bbs : List IRBB) :
    ∀ (l : List IRBB) (vis : List Nat) (x : Nat),
    x ∈ vis → x ∈ l.foldl (perBB bbs) vis := by
  intro l
  induction l with
  | nil =>
    intro vis x hx
    exact hx
  | cons bb rest ih =>
    intro vis x hx
    exact ih _ x (perBB_mem_mono bbs vis bb x hx)

theorem spawnFold_no_spawn (bbs : List IRBB) :
    ∀ (stmts : List IRStmt) (vis : List Nat),
    (∀ st ∈ stmts, ¬ st.type = .IRStmtSpawn) → spawnFold bbs stmts vis = vis := by
  intro stmts
  induction stmts with
  | nil =>
    intro vis h
    rfl
  | cons st rest ih =>
    intro vis h
    show spawnFold bbs rest (if st.type = .IRStmtSpawn then MarkSuccs bbs (st.targets.take 1) vis else vis) = vis
    rw [if_neg (h st (List.mem_cons_self st rest))]
    exact ih vis (fun st2 h2 => h st2 (List.mem_cons_of_mem st h2))

/-- Every entry BB's id gets marked. -/
theorem entry_mem_reach (p : IRProgram) :
    ∀ bb ∈ p.bbs, bb.is_entry = true → bb.id ∈ computeReachable p := by
  intro bb hbb hent
  obtain ⟨l1, l2, hsplit⟩ := List.append_of_mem hbb
  rw [computeReachable_eq, hsplit, List.foldl_append, List.foldl_cons]
  refine foldl_perBB_mem_mono _ l2 _ bb.id ?_
  unfold perBB
  rw [if_pos hent]
  refine spawnFold_mem_mono _ _ _ bb.id ?_
  exact markSuccs_mem_pending _ _ _ bb.id (List.mem_singleton.mpr rfl)

/-- The spawn scan is insensitive to the BB list as long as successor
lists agree on everything it marks. -/
theorem spawnFold_congr (bbs1 bbs2 : List IRBB) :
    ∀ (stmts : List IRStmt) (vis : List Nat),
    (∀ x ∈ spawnFold bbs1 stmts vis, succsIn bbs2 x = succsIn bbs1 x) →
    spawnFold bbs2 stmts vis = spawnFold bbs1 stmts vis := by
  intro stmts
  induction stmts with
  | nil =>
    intro vis h
    rfl
  | cons st rest ih =>
    intro vis h
    show spawnFold bbs2 rest (if st.type = .IRStmtSpawn then MarkSuccs bbs2 (st.targets.take 1) vis else vis)
      = spawnFold bbs1 rest (if st.type = .IRStmtSpawn then MarkSuccs bbs1 (st.targets.take 1) vis else vis)
    have hres : spawnFold bbs1 (st :: rest) vis
        = spawnFold bbs1 rest (if st.type = .IRStmtSpawn then MarkSuccs bbs1 (st.targets.take 1) vis else vis) := rfl
    rw [hres] at h
    by_cases hsp : st.type = .IRStmtSpawn
    · simp only [if_pos hsp]
      rw [if_pos hsp] at h
      have hstep : MarkSuccs bbs2 (st.targets.take 1) vis
          = MarkSuccs bbs1 (st.targets.take 1) vis :=
        markSuccs_congr bbs1 bbs2 _ vis
          (fun r hr => h r (spawnFold_mem_mono bbs1 rest _ r hr))
      rw [hstep]
      exact ih _ h
    · simp only [if_neg hsp]
      rw [if_neg hsp] at h
      exact ih vis h

/-- Filtering phi inputs never changes a statement's type. -/
theorem FilterPhiInputs_type (reach : List Nat) (st : IRStmt) :
    (FilterPhiInputs reach st).type = st.type := rfl

theorem phiFilterBB_stmts (reach : List Nat) (bb : IRBB) :
    (phiFilterBB reach bb).stmts = bb.stmts.map (phiFstmt reach) := rfl

/-- The phi filter touches no spawn statement, so the spawn scan ignores it. -/
theorem spawnFold_map_phiF (bbs : List IRBB) (reach : List Nat) :
    ∀ (stmts : List IRStmt) (vis : List Nat),
    spawnFold bbs (stmts.map (phiFstmt reach)) vis = spawnFold bbs stmts vis := by
  intro stmts
  induction stmts with
  | nil =>
    intro vis
    rfl
  | cons st rest ih =>
    intro vis
    rw [List.map_cons]
    show spawnFold bbs (rest.map (phiFstmt reach))
        (if (phiFstmt reach st).type = .IRStmtSpawn then MarkSuccs bbs ((phiFstmt reach st).targets.take 1) vis else vis)
      = spawnFold bbs rest (if st.type = .IRStmtSpawn then MarkSuccs bbs (st.targets.take 1) vis else vis)
    by_cases hphi : st.type = IRStmtType.IRStmtPhi
    · have h1 : phiFstmt reach st = FilterPhiInputs reach st := if_pos hphi
      have h2 : ¬ (phiFstmt reach st).type = .IRStmtSpawn := by
        rw [h1, FilterPhiInputs_type, hphi]
        intro hc
        exact IRStmtType.noConfusion hc
      have h3 : ¬ st.type = .IRStmtSpawn := by
        rw [hphi]
        intro hc
        exact IRStmtType.noConfusion hc
      rw [if_neg h2, if_neg h3]
      exact ih vis
    · have h1 : phiFstmt reach st = st := if_neg hphi
      rw [h1]
      exact ih _

theorem perBB_congr (bbs1 bbs2 : List IRBB) (reach : List Nat) (vis : List Nat) (bb : IRBB)
    (h : ∀ x ∈ perBB bbs1 vis bb, succsIn bbs2 x = succsIn bbs1 x) :
    perBB bbs2 vis (phiFilterBB reach bb) = perBB bbs1 vis bb := by
  unfold perBB at h ⊢
  rw [show (phiFilterBB reach bb).is_entry = bb.is_entry from rfl,
      show (phiFilterBB reach bb).id = bb.id from rfl,
      phiFilterBB_stmts, spawnFold_map_phiF]
  by_cases he : bb.is_entry
  · simp only [if_pos he]
    rw [if_pos he] at h
    have hstep : MarkSuccs bbs2 [bb.id] vis = MarkSuccs bbs1 [bb.id] vis :=
      markSuccs_congr bbs1 bbs2 _ vis
        (fun r hr => h r (spawnFold_mem_mono bbs1 _ _ r hr))
    rw [hstep]
    exact spawnFold_congr bbs1 bbs2 _ _ h
  · simp only [if_neg he]
    rw [if_neg he] at h
    exact spawnFold_congr bbs1 bbs2 _ _ h

theorem find?_filter_of_imp {α : Type} (l : List α) (pq keep : α → Bool)
    (h : ∀ x, pq x = true → keep x = true) :
    (l.filter keep).find? pq = l.find? pq := by
  induction l with
  | nil => rfl
  | cons a rest ih =>
    by_cases hk : keep a = true
    · rw [List.filter_cons_of_pos hk]
      by_cases hp : pq a = true
      · rw [List.find?_cons_of_pos _ hp, List.find?_cons_of_pos _ hp]
      · rw [List.find?_cons_of_neg _ hp, List.find?_cons_of_neg _ hp]
        exact ih
    · rw [List.filter_cons_of_neg hk]
      have hp : ¬ pq a = true := fun hc => hk (h a hc)
      rw [List.find?_cons_of_neg _ hp]
      exact ih

theorem succsOfStmt_phiFstmt (reach : List Nat) (st : IRStmt) :
    succsOfStmt (phiFstmt reach st) = succsOfStmt st := by
  by_cases hphi : st.type = IRStmtType.IRStmtPhi
  · rw [show phiFstmt reach st = FilterPhiInputs reach st from if_pos hphi]
    unfold succsOfStmt
    rw [FilterPhiInputs_type, hphi]
  · rw [show phiFstmt reach st = st from if_neg hphi]

theorem succsOfBB_phiFilterBB (reach : List Nat) (bb : IRBB) :
    succsOfBB (phiFilterBB reach bb) = succsOfBB bb := by
  unfold succsOfBB
  rw [phiFilterBB_stmts]
  induction bb.stmts with
  | nil => rfl
  | cons st rest ih =>
    rw [List.map_cons, List.foldr_cons, List.foldr_cons, ih, succsOfStmt_phiFstmt]

/-- Dropping unreachable BBs and filtering phis does not change the
successor list of any reachable node. -/
theorem succsIn_RemoveUnreachable (p : IRProgram) :
    ∀ r ∈ computeReachable p,
    succsIn (RemoveUnreachableBBsAndPhis p).bbs r = succsIn p.bbs r := by
  intro r hr
  unfold succsIn findBBIn
  rw [RemoveUnreachable_eq]
  show ((((p.bbs.map (phiFilterBB (computeReachable p))).filter (fun bb => decide (bb.id ∈ computeReachable p))).find? (fun bb => decide (bb.id = r))).map succsOfBB).getD []
    = (((p.bbs.find? (fun bb => decide (bb.id = r))).map succsOfBB).getD [])
  rw [find?_filter_of_imp]
  · rw [List.find?_map]
    show ((((p.bbs.find? (fun bb => decide ((phiFilterBB (computeReachable p) bb).id = r))).map (phiFilterBB (computeReachable p))).map succsOfBB).getD [])
      = _
    rw [show (fun bb => decide ((phiFilterBB (computeReachable p) bb).id = r)) = (fun bb => decide (bb.id = r)) from rfl]
    cases hf : p.bbs.find? (fun bb => decide (bb.id = r)) with
    | none => rfl
    | some bb =>
      simp only [Option.map_some', Option.getD_some]
      exact succsOfBB_phiFilterBB _ bb
  · intro bb hbb
    rw [decide_eq_true_eq] at hbb
    rw [decide_eq_true_eq, hbb]
    exact hr

/-- The root-marking fold gives the same marks on the cleaned program: BBs
outside `reach` contribute no roots (no entry, no spawn), and kept BBs
contribute identical walks. -/
theorem foldl_perBB_filter_congr (bbs1 bbs2 : List IRBB) (reach : List Nat)
    (hsucc : ∀ r ∈ reach, succsIn bbs2 r = succsIn bbs1 r) :
    ∀ (l : List IRBB) (vis : List Nat),
    (∀ bb ∈ l, ∀ st ∈ bb.stmts, st.type = .IRStmtSpawn → bb.id ∈ reach) →
    (∀ bb ∈ l, bb.is_entry = true → bb.id ∈ reach) →
    (∀ x ∈ l.foldl (perBB bbs1) vis, x ∈ reach) →
    ((l.filter (fun bb => bb.id ∈ reach)).map (phiFilterBB reach)).foldl (perBB bbs2) vis
      = l.foldl (perBB bbs1) vis := by
  intro l
  induction l with
  | nil =>
    intro vis h1 h2 h3
    rfl
  | cons bb rest ih =>
    intro vis h1 h2 h3
    rw [List.foldl_cons] at h3 ⊢
    by_cases hkeep : bb.id ∈ reach
    · rw [List.filter_cons_of_pos (by rw [decide_eq_true_eq]; exact hkeep),
          List.map_cons, List.foldl_cons]
      have hstep : perBB bbs2 vis (phiFilterBB reach bb) = perBB bbs1 vis bb :=
        perBB_congr bbs1 bbs2 reach vis bb
          (fun x hx => hsucc x (h3 x (foldl_perBB_mem_mono bbs1 rest _ x hx)))
      rw [hstep]
      exact ih (perBB bbs1 vis bb)
        (fun b hb => h1 b (List.mem_cons_of_mem bb hb))
        (fun b hb => h2 b (List.mem_cons_of_mem bb hb))
        h3
    · have hent : ¬ bb.is_entry = true :=
        fun hc => hkeep (h2 bb (List.mem_cons_self bb rest) hc)
      have hnospawn : ∀ st ∈ bb.stmts, ¬ st.type = .IRStmtSpawn :=
        fun st hst hc => hkeep (h1 bb (List.mem_cons_self bb rest) st hst hc)
      have hskip : perBB bbs1 vis bb = vis := by
        unfold perBB
        rw [if_neg hent]
        exact spawnFold_no_spawn bbs1 _ vis hnospawn
      rw [List.filter_cons_of_neg (by rw [decide_eq_true_eq]; exact hkeep), hskip]
      rw [hskip] at h3
      exact ih vis
        (fun b hb => h1 b (List.mem_cons_of_mem bb hb))
        (fun b hb => h2 b (List.mem_cons_of_mem bb hb))
        h3

/-- When every spawn sits in a reachable BB, the cleaned program has the
same reachable set as the original. -/
theorem computeReachable_RemoveUnreachable (p : IRProgram)
    (hspawn : ∀ bb ∈ p.bbs, ∀ st ∈ bb.stmts, st.type = .IRStmtSpawn →
      bb.id ∈ computeReachable p) :
    computeReachable (RemoveUnreachableBBsAndPhis p) = computeReachable p := by
  have hqbbs : (RemoveUnreachableBBsAndPhis p).bbs
      = (p.bbs.filter (fun bb => bb.id ∈ computeReachable p)).map
          (phiFilterBB (computeReachable p)) := by
    rw [RemoveUnreachable_eq]
    show (p.bbs.map (phiFilterBB (computeReachable p))).filter (fun bb => bb.id ∈ computeReachable p) = _
    rw [List.filter_map]
    rfl
  have hsucc : ∀ r ∈ computeReachable p,
      succsIn ((p.bbs.filter (fun bb => bb.id ∈ computeReachable p)).map
        (phiFilterBB (computeReachable p))) r = succsIn p.bbs r := by
    rw [← hqbbs]
    exact succsIn_RemoveUnreachable p
  rw [computeReachable_eq, hqbbs]
  rw [show computeReachable p = p.bbs.foldl (perBB p.bbs) [] from computeReachable_eq p] at hspawn hsucc ⊢
  exact foldl_perBB_filter_congr p.bbs _ _ hsucc p.bbs []
    hspawn
    (fun bb hbb hent => by
      rw [← computeReachable_eq]
      exact entry_mem_reach p bb hbb hent)
    (fun x hx => hx)

/-- Filtering already-filtered phi slots changes nothing: every kept
target is reachable, so the second pass keeps everything. -/
theorem filterPhiSlots_idem (reach : List Nat) :
    ∀ (as ns ts : List Nat) (ms : List String),
    filterPhiSlots reach (filterPhiSlots reach as ns ts ms).1
      (filterPhiSlots reach as ns ts ms).2.1
      (filterPhiSlots reach as ns ts ms).2.2.1
      (filterPhiSlots reach as ns ts ms).2.2.2
      = filterPhiSlots reach as ns ts ms := by
  intro as
  induction as with
  | nil =>
    intro ns ts ms
    rfl
  | cons a as ih =>
    intro ns ts ms
    cases ns with
    | nil => rfl
    | cons n ns =>
      cases ts with
      | nil => rfl
      | cons t ts =>
        cases ms with
        | nil => rfl
        | cons m ms =>
          have he : filterPhiSlots reach (a :: as) (n :: ns) (t :: ts) (m :: ms)
              = if t ∈ reach then
                  (a :: (filterPhiSlots reach as ns ts ms).1,
                   n :: (filterPhiSlots reach as ns ts ms).2.1,
                   t :: (filterPhiSlots reach as ns ts ms).2.2.1,
                   m :: (filterPhiSlots reach as ns ts ms).2.2.2)
                else filterPhiSlots reach as ns ts ms := rfl
          rw [he]
          by_cases ht : t ∈ reach
          · rw [if_pos ht]
            have he2 : filterPhiSlots reach
                (a :: (filterPhiSlots reach as ns ts ms).1)
                (n :: (filterPhiSlots reach as ns ts ms).2.1)
                (t :: (filterPhiSlots reach as ns ts ms).2.2.1)
                (m :: (filterPhiSlots reach as ns ts ms).2.2.2)
                = if t ∈ reach then
                    (a :: (filterPhiSlots reach (filterPhiSlots reach as ns ts ms).1 (filterPhiSlots reach as ns ts ms).2.1 (filterPhiSlots reach as ns ts ms).2.2.1 (filterPhiSlots reach as ns ts ms).2.2.2).1,
                     n :: (filterPhiSlots reach (filterPhiSlots reach as ns ts ms).1 (filterPhiSlots reach as ns ts ms).2.1 (filterPhiSlots reach as ns ts ms).2.2.1 (filterPhiSlots reach as ns ts ms).2.2.2).2.1,
                     t :: (filterPhiSlots reach (filterPhiSlots reach as ns ts ms).1 (filterPhiSlots reach as ns ts ms).2.1 (filterPhiSlots reach as ns ts ms).2.2.1 (filterPhiSlots reach as ns ts ms).2.2.2).2.2.1,
                     m :: (filterPhiSlots reach (filterPhiSlots reach as ns ts ms).1 (filterPhiSlots reach as ns ts ms).2.1 (filterPhiSlots reach as ns ts ms).2.2.1 (filterPhiSlots reach as ns ts ms).2.2.2).2.2.2)
                  else filterPhiSlots reach (filterPhiSlots reach as ns ts ms).1 (filterPhiSlots reach as ns ts ms).2.1 (filterPhiSlots reach as ns ts ms).2.2.1 (filterPhiSlots reach as ns ts ms).2.2.2 := rfl
            rw [he2, if_pos ht, ih ns ts ms]
          · rw [if_neg ht]
            exact ih ns ts ms

/-- Filtering a phi's inputs twice equals filtering once. -/
theorem FilterPhiInputs_idem (reach : List Nat) (st : IRStmt) :
    FilterPhiInputs reach (FilterPhiInputs reach st) = FilterPhiInputs reach st := by
  show { st with
      args := (filterPhiSlots reach (filterPhiSlots reach st.args st.arg_nums st.targets st.target_names).1 (filterPhiSlots reach st.args st.arg_nums st.targets st.target_names).2.1 (filterPhiSlots reach st.args st.arg_nums st.targets st.target_names).2.2.1 (filterPhiSlots reach st.args st.arg_nums st.targets st.target_names).2.2.2).1,
      arg_nums := (filterPhiSlots reach (filterPhiSlots reach st.args st.arg_nums st.targets st.target_names).1 (filterPhiSlots reach st.args st.arg_nums st.targets st.target_names).2.1 (filterPhiSlots reach st.args st.arg_nums st.targets st.target_names).2.2.1 (filterPhiSlots reach st.args st.arg_nums st.targets st.target_names).2.2.2).2.1,
      targets := (filterPhiSlots reach (filterPhiSlots reach st.args st.arg_nums st.targets st.target_names).1 (filterPhiSlots reach st.args st.arg_nums st.targets st.target_names).2.1 (filterPhiSlots reach st.args st.arg_nums st.targets st.target_names).2.2.1 (filterPhiSlots reach st.args st.arg_nums st.targets st.target_names).2.2.2).2.2.1,
      target_names := (filterPhiSlots reach (filterPhiSlots reach st.args st.arg_nums st.targets st.target_names).1 (filterPhiSlots reach st.args st.arg_nums st.targets st.target_names).2.1 (filterPhiSlots reach st.args st.arg_nums st.targets st.target_names).2.2.1 (filterPhiSlots reach st.args st.arg_nums st.targets st.target_names).2.2.2).2.2.2 }
    = FilterPhiInputs reach st
  rw [filterPhiSlots_idem]
  rfl

theorem phiFstmt_idem (reach : List Nat) (st : IRStmt) :
    phiFstmt reach (phiFstmt reach st) = phiFstmt reach st := by
  by_cases hphi : st.type = IRStmtType.IRStmtPhi
  · rw [show phiFstmt reach st = FilterPhiInputs reach st from if_pos hphi]
    rw [show phiFstmt reach (FilterPhiInputs reach st)
        = FilterPhiInputs reach (FilterPhiInputs reach st) from
      if_pos (by rw [FilterPhiInputs_type]; exact hphi)]
    exact FilterPhiInputs_idem reach st
  · rw [show phiFstmt reach st = st from if_neg hphi,
        show phiFstmt reach st = st from if_neg hphi]

theorem phiFilterBB_idem (reach : List Nat) (bb : IRBB) :
    phiFilterBB reach (phiFilterBB reach bb) = phiFilterBB reach bb := by
  show { bb with stmts := (bb.stmts.map (phiFstmt reach)).map (phiFstmt reach) }
    = { bb with stmts := bb.stmts.map (phiFstmt reach) }
  rw [List.map_map]
  congr 1
  exact List.map_congr_left (fun st _ => phiFstmt_idem reach st)

/-- C8, counterexample to the original claim: in `spawnOrphanProg` the
spawn inside unreachable BB 1 keeps BB 2 alive through the first removal
pass while BB 1 itself is dropped; the second pass, now without the
spawn root, drops BB 2 as well, so the second run changes the program. -/
theorem claim_C8_counterexample :
    ¬ RemoveUnreachableBBsAndPhis (RemoveUnreachableBBsAndPhis spawnOrphanProg)
      = RemoveUnreachableBBsAndPhis spawnOrphanProg := by
  have h1 : RemoveUnreachableBBsAndPhis spawnOrphanProg = spawnOrphanOnce := by
    norm_num [RemoveUnreachableBBsAndPhis, computeReachable, spawnOrphanProg,
      spawnOrphanOnce, MarkSuccs, findBBIn, succsOfBB, succsOfStmt,
      List.find?, List.foldl, List.filter]
    exact fun h => absurd h (by decide)
  have h2 : RemoveUnreachableBBsAndPhis spawnOrphanOnce = spawnOrphanTwice := by
    norm_num [RemoveUnreachableBBsAndPhis, computeReachable, spawnOrphanOnce,
      spawnOrphanTwice, MarkSuccs, findBBIn, succsOfBB, succsOfStmt,
      List.find?, List.foldl, List.filter]
    exact fun h => absurd h (by decide)
  rw [h1, h2]
  decide

/-- C8 (amended): unreachable-BB removal is idempotent on programs whose
spawn statements all sit in reachable BBs: re-running
`RemoveUnreachableBBsAndPhis` then leaves the program (BB list and every
phi's argument/target lists) unchanged.  Without that proviso a spawn in
an unreachable BB keeps its target alive in the first pass and dies with
it, so the second pass removes more. -/
theorem claim_C8 (p : IRProgram)
    (hspawn : ∀ bb ∈ p.bbs, ∀ st ∈ bb.stmts, st.type = .IRStmtSpawn →
      bb.id ∈ computeReachable p) :
    RemoveUnreachableBBsAndPhis (RemoveUnreachableBBsAndPhis p)
      = RemoveUnreachableBBsAndPhis p := by
  have hreach : computeReachable (RemoveUnreachableBBsAndPhis p) = computeReachable p :=
    computeReachable_RemoveUnreachable p hspawn
  have hqbbs : (RemoveUnreachableBBsAndPhis p).bbs
      = (p.bbs.map (phiFilterBB (computeReachable p))).filter (fun bb => bb.id ∈ computeReachable p) := by
    rw [RemoveUnreachable_eq]
  rw [RemoveUnreachable_eq (RemoveUnreachableBBsAndPhis p), hreach]
  have hmap : (RemoveUnreachableBBsAndPhis p).bbs.map (phiFilterBB (computeReachable p))
      = (RemoveUnreachableBBsAndPhis p).bbs := by
    rw [show (RemoveUnreachableBBsAndPhis p).bbs.map (phiFilterBB (computeReachable p))
        = (RemoveUnreachableBBsAndPhis p).bbs.map id from
      List.map_congr_left (fun bb1 hbb1 => by
        rw [hqbbs] at hbb1
        obtain ⟨bb, hbb, hrfl⟩ := List.mem_map.mp (List.mem_of_mem_filter hbb1)
        rw [← hrfl]
        show phiFilterBB (computeReachable p) (phiFilterBB (computeReachable p) bb) = _
        exact phiFilterBB_idem (computeReachable p) bb)]
    exact List.map_id _
  have hfil : (RemoveUnreachableBBsAndPhis p).bbs.filter (fun bb => bb.id ∈ computeReachable p)
      = (RemoveUnreachableBBsAndPhis p).bbs := by
    rw [List.filter_eq_self]
    intro bb1 hbb1
    rw [hqbbs] at hbb1
    exact (List.mem_filter.mp hbb1).2
  rw [hmap, hfil]

/-- C8, witness: the amended idempotence at a concrete program whose
spawn sits in the entry BB. -/
theorem claim_C8_witness :
    (∀ bb ∈ spawnReachProg.bbs, ∀ st ∈ bb.stmts, st.type = .IRStmtSpawn →
      bb.id ∈ computeReachable spawnReachProg) ∧
    RemoveUnreachableBBsAndPhis (RemoveUnreachableBBsAndPhis spawnReachProg)
      = RemoveUnreachableBBsAndPhis spawnReachProg := by
  have hreach : computeReachable spawnReachProg = [0, 2] := by
    norm_num [computeReachable, spawnReachProg, MarkSuccs, findBBIn, succsOfBB,
      succsOfStmt, List.find?, List.foldl]
  have hspawn : ∀ bb ∈ spawnReachProg.bbs, ∀ st ∈ bb.stmts,
      st.type = .IRStmtSpawn → bb.id ∈ computeReachable spawnReachProg := by
    rw [hreach]
    decide
  exact ⟨hspawn, claim_C8 spawnReachProg hspawn⟩

end Autopiper
